import Mathlib

/-!
# stream-upload: the three-phase multipart upload reader

A shallow embedding of `upload.go` (package `stream_upload`).

* Go `[]byte` and `string` values are lists of bytes.
* `bytes.Buffer` is the list of its unread bytes.
* `*os.File` is `Option`: `none` is the nil pointer.
* The file source carries the bytes not yet read together with a script of
  the outcomes of its next `Read` calls (how many bytes the operating system
  hands over, or a failure), so that every behaviour `os.File.Read` can show
  is an input of the model.
* The `for` loop of `Read` is bounded by a fuel argument; `Read` supplies
  `len(p) + 1`, and `bodyLoop_basic` and `Read_basic` show that the bound is
  never hit.
* `mime/multipart`, `path/filepath` and `bytes.Buffer` are modelled from the
  Go standard library; paths use the separator `/`.
* `LoggerFunc` only observes; its calls are left out.
* The mirror file `<debugOutFileName>.fin` may be the file being uploaded:
  `World.mirrorIsSource` says so, and then a write on the mirror changes the
  bytes the file source has still to read.
-/

namespace stream_upload

/-- One Go `byte`. -/
abbrev Byte := UInt8

/-- A Go `string` or `[]byte`: its bytes in order. -/
abbrev GoString := List Byte

/-- The bytes of an ASCII string literal of the source. -/
def lit (s : String) : GoString := s.toList.map (fun c => c.toNat.toUInt8)

/-- The `error` values that occur. `nil` is `Option.none` at the use sites.
`errorString msg` is `errors.New(msg)`, `sys code` an error of the operating
system. `fuelExhausted` is not a Go value: it marks the loop bound of the
model. -/
inductive GoError where
  | EOF
  | ErrInvalid
  | errorString (msg : String)
  | sys (code : Nat)
  | fuelExhausted
  deriving DecidableEq, Repr

/-- The value `errors.New("met error")` of the last line of `Read`. -/
def metError : GoError := GoError.errorString "met error"

/-- The constant `readFirstSegStep = stepEnum(0)`. -/
def readFirstSegStep : Int := 0
/-- The constant `readFileContentStep = stepEnum(1)`. -/
def readFileContentStep : Int := 1
/-- The constant `readLastSegStep = stepEnum(2)`. -/
def readLastSegStep : Int := 2

/-- The outcome the operating system picks for one `Read` on the file source:
hand over `k` bytes (clamped to what is asked for and what is left, at least
one), or fail with an error that is not `io.EOF`. -/
inductive ReadEvent where
  | chunk (k : Nat)
  | fail (code : Nat)
  deriving DecidableEq, Repr

/-- An open `*os.File` used as the file source. -/
structure File where
  /-- bytes from the current file position to the end of the file -/
  data : List Byte
  /-- outcomes of the next reads; when used up, reads are as large as possible -/
  script : List ReadEvent
  /-- what `Close` on this handle returns -/
  closeErr : Option GoError
  /-- the file position: the number of bytes of the file before `data` -/
  pos : Nat
  deriving DecidableEq, Repr

/-- The handle `sup.out` of the diagnostic mirror. -/
structure OutFile where
  /-- current write offset -/
  off : Nat
  /-- whether `Close` has been called on the handle -/
  closed : Bool
  deriving DecidableEq, Repr

/-- What lies outside the process and the mirror depends on: the content of
`<debugOutFileName>.fin` on disk, the outcomes of the next `os.OpenFile`
and `Write` calls on it, and whether that path names the very file the file
source reads (nothing in `addFile` or `toDebugFile` keeps the two apart, and
the mirror is opened without `O_TRUNC`). -/
structure World where
  /-- content of the mirror file on disk -/
  mirrorDisk : List Byte
  /-- outcomes of the next `os.OpenFile` calls, `true` for success;
  when used up, opening succeeds -/
  openScript : List Bool
  /-- outcomes of the next `Write` calls: `none` writes everything, `some l`
  writes at most `l` bytes and reports a short write; when used up, writes
  are complete -/
  writeScript : List (Option Nat)
  /-- whether `<debugOutFileName>.fin` is the file of the file source; then a
  write on the mirror changes what the file source reads next, and
  `mirrorDisk` is the content of that one file: the bytes before the position
  of the file source followed by its `data` -/
  mirrorIsSource : Bool
  deriving DecidableEq, Repr

/-- The struct `streamUpload`. The field `dc` (trace context of the logger)
is left out. -/
structure streamUpload where
  file : Option File
  firstSeg : List Byte
  lastSeg : List Byte
  step : Int
  out : Option OutFile
  outLen : Nat
  outFileLen : Nat
  debugMode : Bool
  debugOutFileName : GoString
  deriving DecidableEq, Repr

/-- Result of `copy(p[off:], data)`: `data` overwrites `p` from offset `off`. -/
def writeAt (p : List Byte) (off : Nat) (data : List Byte) : List Byte :=
  p.take off ++ data ++ p.drop (off + data.length)

/-- Method `(*bytes.Buffer).Read` with a destination of `dstLen` bytes: the
buffer after the call, the bytes copied, and the error. An empty buffer
answers `io.EOF`, unless the destination is empty too. -/
def Buffer.Read (buf : List Byte) (dstLen : Nat) :
    List Byte × List Byte × Option GoError :=
  if buf.isEmpty then
    if dstLen = 0 then ([], [], none) else ([], [], some GoError.EOF)
  else
    (buf.drop dstLen, buf.take dstLen, none)

/-- Method `(*os.File).Read` with a destination of `dstLen` bytes: the handle
after the call, the bytes read, and the error. A nil handle answers
`os.ErrInvalid`; an empty destination answers `(0, nil)` at once. -/
def File.Read (file : Option File) (dstLen : Nat) :
    Option File × List Byte × Option GoError :=
  match file with
  | none => (none, [], some GoError.ErrInvalid)
  | some f =>
    if dstLen = 0 then (some f, [], none)
    else
      match f.script with
      | ReadEvent.fail code :: rest =>
        (some { f with script := rest }, [], some (GoError.sys code))
      | ReadEvent.chunk k :: rest =>
        if f.data.isEmpty then
          (some { f with script := rest }, [], some GoError.EOF)
        else
          let n := min (max k 1) dstLen
          (some { f with data := f.data.drop n, script := rest,
                         pos := f.pos + (f.data.take n).length }, f.data.take n, none)
      | [] =>
        if f.data.isEmpty then (some f, [], some GoError.EOF)
        else (some { f with data := f.data.drop dstLen,
                            pos := f.pos + (f.data.take dstLen).length }, f.data.take dstLen, none)

/-- Method `Close`. -/
def Close (sup : streamUpload) : streamUpload × Option GoError :=
  match sup.file with
  | some f => ({ sup with file := none }, f.closeErr)
  | none => (sup, none)

/-- Call `os.OpenFile(name, O_CREATE|O_RDWR, 0644)` on the mirror file: the
file is neither truncated nor opened for appending, so writing starts at
offset 0 over what is there. -/
def openMirror (w : World) : World × Option OutFile :=
  match w.openScript with
  | false :: rest => ({ w with openScript := rest }, none)
  | true :: rest => ({ w with openScript := rest }, some ⟨0, false⟩)
  | [] => (w, some ⟨0, false⟩)

/-- A write of the bytes `b` at offset `off` of a file with the given content:
the bytes replace what is there and extend the file, with zeros in between
when `off` lies behind its end; a write of no bytes changes nothing. -/
def overwrite (content : List Byte) (off : Nat) (b : List Byte) : List Byte :=
  if b.isEmpty then content
  else writeAt (content ++ List.replicate (off - content.length) 0) off b

/-- What a write of `b` at offset `off` of the file of the file source does to
the handle `src` reading it: the bytes behind its position are replaced from
the offset on; the part of the write before its position is not seen. -/
def writeUnder (src : Option File) (off : Nat) (b : List Byte) : Option File :=
  match src with
  | some f => some { f with data := overwrite f.data (off - f.pos) (b.drop (f.pos - off)) }
  | none => none

/-- Method `(*os.File).Write` on the mirror handle: the world, the file source
and the handle after the call and the number of bytes written. A closed
handle writes nothing. When the mirror file is the file of the file source,
the write is seen by the file source. -/
def OutFile.Write (w : World) (src : Option File) (o : OutFile) (b : List Byte) :
    World × Option File × OutFile × Nat :=
  if o.closed then (w, src, o, 0)
  else
    let l := match w.writeScript with
      | some l :: _ => min l b.length
      | _ => b.length
    ({ w with mirrorDisk := overwrite w.mirrorDisk o.off (b.take l),
              writeScript := w.writeScript.tail },
     if w.mirrorIsSource then writeUnder src o.off (b.take l) else src,
     { o with off := o.off + l }, l)

/-- Method `toDebugFile`: mirror `p[:n]` when debug mode is on, opening the
mirror file first when there is no handle yet. -/
def toDebugFile (w : World) (sup : streamUpload) (p : List Byte) (n : Nat) :
    World × streamUpload :=
  if !sup.debugMode then (w, sup)
  else
    let (w1, sup1) :=
      match sup.out with
      | none =>
        let (w1, o) := openMirror w
        (w1, { sup with out := o })
      | some _ => (w, sup)
    match sup1.out with
    | some o =>
      let (w2, src, o2, l) := OutFile.Write w1 sup1.file o (p.take n)
      (w2, { sup1 with file := src, out := some o2, outLen := sup1.outLen + l })
    | none => (w1, sup1)

/-- Method `closeDebugOutFile`: close the mirror handle; the field `out`
keeps pointing at the closed handle. -/
def closeDebugOutFile (sup : streamUpload) : streamUpload :=
  match sup.out with
  | some o => { sup with out := some { o with closed := true } }
  | none => sup

/-- What one call of `Read` leaves behind and returns. -/
structure ReadResult where
  world : World
  sup : streamUpload
  /-- the destination buffer after the call -/
  p : List Byte
  n : Nat
  err : Option GoError
  deriving DecidableEq, Repr

/-- How the `for` loop over the file source ends. -/
inductive LoopExit where
  /-- `return 0, err` inside the loop -/
  | abort (err : Option GoError)
  /-- `break`, with the value `err` holds then -/
  | done (err : Option GoError)
  /-- the bound of the model was hit -/
  | outOfFuel
  deriving DecidableEq, Repr

/-- The `for` loop of `Read` (lines 158-176): read from the file into
`p[gotLen:]` until the file fails, reports `io.EOF`, or the buffer is full. -/
def bodyLoop : Nat → streamUpload → List Byte → Nat →
    streamUpload × List Byte × Nat × LoopExit
  | 0, sup, p, gotLen => (sup, p, gotLen, LoopExit.outOfFuel)
  | fuel + 1, sup, p, gotLen =>
    let (file1, data, err) := File.Read sup.file (p.length - gotLen)
    let sup1 := { sup with file := file1 }
    let n := data.length
    let p1 := writeAt p gotLen data
    if err ≠ none ∧ err ≠ some GoError.EOF then
      (sup1, p1, gotLen, LoopExit.abort err)
    else
      let gotLen1 := if n > 0 then gotLen + n else gotLen
      let sup2 := if n > 0 then { sup1 with outFileLen := sup1.outFileLen + n } else sup1
      if err = some GoError.EOF then
        ({ sup2 with step := readLastSegStep }, p1, gotLen1, LoopExit.done err)
      else if gotLen1 = p.length then
        (sup2, p1, gotLen1, LoopExit.done err)
      else
        bodyLoop fuel sup2 p1 gotLen1

/-- Lines 188-206 of `Read`: the tail branch and the final `met error`. -/
def readTail (w : World) (sup : streamUpload) (p : List Byte) (gotLen : Nat) : ReadResult :=
  let bufLen := p.length
  if sup.step = readLastSegStep then
    let (seg, data, err) := Buffer.Read sup.lastSeg (bufLen - gotLen)
    let sup1 := { sup with lastSeg := seg }
    let p1 := writeAt p gotLen data
    let n := data.length
    if err ≠ none ∧ err ≠ some GoError.EOF then
      ⟨w, sup1, p1, n, err⟩
    else
      let gotLen1 := if n > 0 then gotLen + n else gotLen
      let (w2, sup2) := toDebugFile w sup1 p1 gotLen1
      if gotLen1 < bufLen then
        ⟨w2, closeDebugOutFile sup2, p1, gotLen1, some GoError.EOF⟩
      else if err = some GoError.EOF then
        ⟨w2, closeDebugOutFile sup2, p1, gotLen1, err⟩
      else
        ⟨w2, sup2, p1, gotLen1, err⟩
  else
    ⟨w, sup, p, 0, some metError⟩

/-- Lines 157-206 of `Read`: the file branch, then the tail branch. -/
def readBody (w : World) (sup : streamUpload) (p : List Byte) (gotLen : Nat) : ReadResult :=
  let bufLen := p.length
  if sup.step = readFileContentStep then
    match bodyLoop (bufLen + 1) sup p gotLen with
    | (sup1, p1, _, LoopExit.abort err) => ⟨w, sup1, p1, 0, err⟩
    | (sup1, p1, _, LoopExit.outOfFuel) => ⟨w, sup1, p1, 0, some GoError.fuelExhausted⟩
    | (sup1, p1, gotLen1, LoopExit.done err) =>
      if gotLen1 = bufLen then
        let (w2, sup2) := toDebugFile w sup1 p1 gotLen1
        ⟨w2, sup2, p1, gotLen1, err⟩
      else
        readTail w sup1 p1 gotLen1
  else
    readTail w sup p gotLen

/-- Method `Read`: fill `p` from the head, then the file, then the tail. -/
def Read (w : World) (sup : streamUpload) (p : List Byte) : ReadResult :=
  let bufLen := p.length
  if sup.step = readFirstSegStep then
    let (seg, data, err) := Buffer.Read sup.firstSeg bufLen
    let sup1 := { sup with firstSeg := seg }
    let p1 := writeAt p 0 data
    let n := data.length
    match err with
    | some e => ⟨w, sup1, p1, n, some e⟩
    | none =>
      if n > 0 then
        if n = bufLen then
          let (w2, sup2) := toDebugFile w sup1 p1 n
          ⟨w2, sup2, p1, n, none⟩
        else
          readBody w { sup1 with step := readFileContentStep } p1 n
      else
        readBody w { sup1 with step := readFileContentStep } p1 0
  else
    readBody w sup p 0

/-! ## Construction: `mime/multipart.Writer`, `filepath.Base`, `addFile` -/

/-- The struct `UpDebugInfo`. -/
structure UpDebugInfo where
  DebugBoundary : GoString
  DebugOutFile : GoString
  deriving DecidableEq, Repr

/-- A `multipart.Writer` whose destination is a `bytes.Buffer`: its boundary
and whether a part has been created (`w.lastpart != nil`). Writes to a
`bytes.Buffer` do not fail, so the error results of its methods are `nil`
unless stated. -/
structure Writer where
  boundary : GoString
  lastpart : Bool
  deriving DecidableEq, Repr

/-- One lower-case hexadecimal digit, as `%x` prints it. -/
def hexDigit (n : Nat) : Byte :=
  if n < 10 then (48 + n).toUInt8 else (87 + n).toUInt8

/-- Function `randomBoundary` of `mime/multipart`: `fmt.Sprintf("%x", buf)`
for the bytes `buf` drawn from `crypto/rand` (30 of them). -/
def randomBoundary : List Byte → GoString
  | [] => []
  | b :: bs => hexDigit (b.toNat / 16) :: hexDigit (b.toNat % 16) :: randomBoundary bs

/-- Function `multipart.NewWriter`, given the random bytes it draws. -/
def NewWriter (rnd : List Byte) : Writer := ⟨randomBoundary rnd, false⟩

/-- The test on one rune in `SetBoundary`. A byte above 127 starts a rune that
no case accepts, so the test on bytes agrees with the test on runes. -/
def boundaryByteOk (b : Byte) (i end_ : Nat) : Bool :=
  (65 ≤ b && b ≤ 90) || (97 ≤ b && b ≤ 122) || (48 ≤ b && b ≤ 57) ||
  b = 39 || b = 40 || b = 41 || b = 43 || b = 95 || b = 44 || b = 45 ||
  b = 46 || b = 47 || b = 58 || b = 61 || b = 63 ||
  (b = 32 && i != end_)

/-- The loop `for i, b := range boundary` of `SetBoundary`, from index `i`. -/
def boundaryBytesOk (end_ : Nat) : Nat → List Byte → Bool
  | _, [] => true
  | i, b :: bs => boundaryByteOk b i end_ && boundaryBytesOk end_ (i + 1) bs

/-- Method `(*multipart.Writer).SetBoundary`: the boundary is replaced only
when no part has been written, its length is 1 to 70 and every character is
allowed (a space not in last place). -/
def Writer.SetBoundary (w : Writer) (boundary : GoString) : Writer × Option GoError :=
  if w.lastpart then
    (w, some (GoError.errorString "mime: SetBoundary called after write"))
  else if boundary.length < 1 ∨ boundary.length > 70 then
    (w, some (GoError.errorString "mime: invalid boundary length"))
  else if boundaryBytesOk (boundary.length - 1) 0 boundary then
    ({ w with boundary := boundary }, none)
  else
    (w, some (GoError.errorString "mime: invalid boundary character"))

/-- Function `escapeQuotes` of `mime/multipart`: the replacer
`"\\" -> "\\\\"`, `"\"" -> "\\\""`, `"\r" -> "%0D"`, `"\n" -> "%0A"`. -/
def escapeQuotes : GoString → GoString
  | [] => []
  | b :: bs =>
    (if b = 92 then [92, 92]
     else if b = 34 then [92, 34]
     else if b = 13 then lit "%0D"
     else if b = 10 then lit "%0A"
     else [b]) ++ escapeQuotes bs

/-- Method `(*multipart.Writer).CreatePart` for a header given as its lines
`(key, value)` already sorted by key: the writer after the call and the bytes
it writes to the destination. -/
def Writer.CreatePart (w : Writer) (header : List (GoString × GoString)) :
    Writer × List Byte :=
  let first :=
    if w.lastpart then lit "\r\n--" ++ w.boundary ++ lit "\r\n"
    else lit "--" ++ w.boundary ++ lit "\r\n"
  let lines := header.map (fun kv => kv.1 ++ lit ": " ++ kv.2 ++ lit "\r\n")
  ({ w with lastpart := true }, first ++ lines.flatten ++ lit "\r\n")

/-- Method `(*multipart.Writer).CreateFormFile`; the keys `Content-Disposition`
and `Content-Type` are in sorted order. -/
def Writer.CreateFormFile (w : Writer) (fieldname filename : GoString) :
    Writer × List Byte :=
  w.CreatePart
    [(lit "Content-Disposition",
      lit "form-data; name=\"" ++ escapeQuotes fieldname ++ lit "\"; filename=\"" ++
        escapeQuotes filename ++ lit "\""),
     (lit "Content-Type", lit "application/octet-stream")]

/-- Method `(*multipart.Writer).WriteField`: `CreateFormField`, then the value
written to the part. -/
def Writer.WriteField (w : Writer) (fieldname value : GoString) : Writer × List Byte :=
  let (w1, bytes) := w.CreatePart
    [(lit "Content-Disposition", lit "form-data; name=\"" ++ escapeQuotes fieldname ++ lit "\"")]
  (w1, bytes ++ value)

/-- Method `(*multipart.Writer).Close`: the closing boundary line. -/
def Writer.Close (w : Writer) : Writer × List Byte :=
  ({ w with lastpart := false }, lit "\r\n--" ++ w.boundary ++ lit "--\r\n")

/-- Method `(*multipart.Writer).FormDataContentType`: the boundary is quoted
when it holds one of `()<>@,;:\"/[]?= `. -/
def Writer.FormDataContentType (w : Writer) : GoString :=
  let b := w.boundary
  let b := if b.any (fun c => c ∈ lit "()<>@,;:\\\"/[]?= ") then lit "\"" ++ b ++ lit "\"" else b
  lit "multipart/form-data; boundary=" ++ b

/-- Drop the trailing separators `/` of a path. -/
def stripTrailingSlashes (path : GoString) : GoString :=
  (path.reverse.dropWhile (fun c => c = 47)).reverse

/-- The last element of a path without trailing separator: the bytes after
its last `/`. -/
def lastElement (path : GoString) : GoString :=
  (path.reverse.takeWhile (fun c => c != 47)).reverse

/-- Function `filepath.Base` with the separator `/`. -/
def Base (path : GoString) : GoString :=
  if path.isEmpty then lit "."
  else
    let e := lastElement (stripTrailingSlashes path)
    if e.isEmpty then lit "/" else e

/-- The loop `for key, val := range fieldParams` of `addFile`, over the
entries in the order the iteration yields them: the writer after the loop and
the bytes written to `lastSeg`. -/
def writeFields (w : Writer) : List (GoString × GoString) → Writer × List Byte
  | [] => (w, [])
  | (key, val) :: rest =>
    let (w1, b1) := w.WriteField key val
    let (w2, b2) := writeFields w1 rest
    (w2, b1 ++ b2)

/-- Lines 63-66 of `addFile`: the writer of the head, with the boundary of
`debugInfo` when one is given and `SetBoundary` accepts it. -/
def headWriter (rnd1 : List Byte) (debugInfo : Option UpDebugInfo) : Writer :=
  let w := NewWriter rnd1
  match debugInfo with
  | some d => if d.DebugBoundary.length > 0 then (w.SetBoundary d.DebugBoundary).1 else w
  | none => w

/-- Method `addFile`. `openResult` is what `os.Open(filename)` returns,
`rnd1` and `rnd2` the random bytes drawn by the two `multipart.NewWriter`
calls, `fieldParams` the entries of the map in iteration order. Results: the
receiver after the call, the content type, the error. -/
def addFile (sup : streamUpload) (openResult : Except GoError File) (rnd1 rnd2 : List Byte)
    (fileParamName filename : GoString) (fieldParams : List (GoString × GoString))
    (debugInfo : Option UpDebugInfo) : streamUpload × GoString × Option GoError :=
  match openResult with
  | Except.error e => ({ sup with file := none }, [], some e)
  | Except.ok f =>
    let sup := { sup with file := some f }
    let w := headWriter rnd1 debugInfo
    let sup :=
      match debugInfo with
      | some d =>
        if d.DebugOutFile.length > 0 then
          { sup with debugMode := true, debugOutFileName := d.DebugOutFile }
        else sup
      | none => sup
    let (w, headBytes) := w.CreateFormFile fileParamName (Base filename)
    let sup := { sup with firstSeg := sup.firstSeg ++ headBytes }
    let formDataContentType := w.FormDataContentType
    let boundary := w.boundary
    let w := NewWriter rnd2
    let w := (w.SetBoundary boundary).1
    let sup :=
      if fieldParams.length > 0 then { sup with lastSeg := sup.lastSeg ++ lit "\r\n" } else sup
    let (w, fieldBytes) := writeFields w fieldParams
    let sup := { sup with lastSeg := sup.lastSeg ++ fieldBytes }
    let (_, closeBytes) := w.Close
    let sup := { sup with lastSeg := sup.lastSeg ++ closeBytes }
    (sup, formDataContentType, none)

/-- The zero value `&streamUpload{}`. -/
def zeroStreamUpload : streamUpload :=
  ⟨none, [], [], 0, none, 0, 0, false, []⟩

/-- Function `NewStreamFileUploadBody`: the body (`none` for nil), the content
type and the error. -/
def NewStreamFileUploadBody (openResult : Except GoError File) (rnd1 rnd2 : List Byte)
    (fileParamName filename : GoString) (fieldParams : List (GoString × GoString))
    (debugInfo : Option UpDebugInfo) : Option streamUpload × GoString × Option GoError :=
  match addFile zeroStreamUpload openResult rnd1 rnd2 fileParamName filename fieldParams debugInfo with
  | (_, _, some e) => (none, [], some e)
  | (up, contentType, none) => (some up, contentType, none)

/-! ## Runs of calls -/

/-- One call a client makes on the body. -/
inductive Call where
  /-- `Read(p)` with the buffer `p` -/
  | read (p : List Byte)
  /-- `Close()` -/
  | close
  deriving DecidableEq, Repr

/-- What a call returned: for `Read` the bytes `p[:n]`, the count `n` and the
error, for `Close` the error. -/
structure Reply where
  bytes : List Byte
  n : Nat
  err : Option GoError
  deriving DecidableEq, Repr

/-- Make the calls one after the other; the state after them and what each
returned. -/
def run (w : World) (sup : streamUpload) : List Call → World × streamUpload × List Reply
  | [] => (w, sup, [])
  | Call.read p :: cs =>
    let r := Read w sup p
    let (w2, sup2, rs) := run r.world r.sup cs
    (w2, sup2, ⟨r.p.take r.n, r.n, r.err⟩ :: rs)
  | Call.close :: cs =>
    let (sup1, e) := Close sup
    let (w2, sup2, rs) := run w sup1 cs
    (w2, sup2, ⟨[], 0, e⟩ :: rs)

/-- Call `Read` with buffers of the given sizes until one call returns an
error (`io.EOF` included) or the sizes are used up: the state reached, the
bytes delivered in order, and the error of the last call made. -/
def readUntilErr (w : World) (sup : streamUpload) :
    List Nat → World × streamUpload × List Byte × Option GoError
  | [] => (w, sup, [], none)
  | m :: ms =>
    let r := Read w sup (List.replicate m 0)
    match r.err with
    | some e => (r.world, r.sup, r.p.take r.n, some e)
    | none =>
      let (w2, sup2, bytes, e) := readUntilErr r.world r.sup ms
      (w2, sup2, r.p.take r.n ++ bytes, e)

/-! ## Predicates of the statements -/

/-- A receiver from which no byte is delivered any more: the phase is HEAD
with the head drained, or TAIL with the tail drained. -/
def Exhausted (sup : streamUpload) : Prop :=
  (sup.step = readFirstSegStep ∧ sup.firstSeg = []) ∨
  (sup.step = readLastSegStep ∧ sup.lastSeg = [])

/-- No byte of the string is one `escapeQuotes` replaces: backslash, double
quote, carriage return, line feed. -/
def needsNoEscape (s : GoString) : Prop :=
  ∀ b ∈ s, b ≠ 92 ∧ b ≠ 34 ∧ b ≠ 13 ∧ b ≠ 10

instance (s : GoString) : Decidable (needsNoEscape s) := by
  unfold needsNoEscape; infer_instance

instance (sup : streamUpload) : Decidable (Exhausted sup) := by
  unfold Exhausted; infer_instance

/-! ## The running example: Scenario A of the specification -/

/-- The file `a.txt` with content `hello`, read in the largest chunks. -/
def scenarioAFile : File := ⟨lit "hello", [], none, 0⟩

/-- The body `NewStreamFileUploadBody` builds for field name `file`, the file
`a.txt`, no extra fields and the boundary `XYZ`. -/
def scenarioA : streamUpload :=
  (addFile zeroStreamUpload (Except.ok scenarioAFile) [] [] (lit "file") (lit "a.txt") []
    (some ⟨lit "XYZ", []⟩)).1

/-- A world in which the mirror file is empty, every call succeeds and the
mirror file is not the file of the file source. -/
def world0 : World := ⟨[], [], [], false⟩

/-! ## Predicates and expected values of the construction claims -/

/-- Lines 79-80 of `addFile`: the writer of the tail, a new writer given the
boundary of the head writer by `SetBoundary`. -/
def tailWriter (rnd1 rnd2 : List Byte) (debugInfo : Option UpDebugInfo) : Writer :=
  ((NewWriter rnd2).SetBoundary (headWriter rnd1 debugInfo).boundary).1

/-- A boundary `SetBoundary` accepts: 1 to 70 bytes, every one allowed. -/
def boundaryAccepted (s : GoString) : Prop :=
  1 ≤ s.length ∧ s.length ≤ 70 ∧ boundaryBytesOk (s.length - 1) 0 s = true

instance (s : GoString) : Decidable (boundaryAccepted s) := by
  unfold boundaryAccepted; infer_instance

/-- The part of the tail for one extra field, as the layout of the
specification gives it: the boundary line, the header line with the field
name, an empty line, the value and a CRLF. -/
def fieldPart (b : GoString) (kv : GoString × GoString) : GoString :=
  lit "--" ++ b ++ lit "\r\nContent-Disposition: form-data; name=\"" ++ kv.1 ++
    lit "\"\r\n\r\n" ++ kv.2 ++ lit "\r\n"

/-- Whether `FormDataContentType` puts the boundary in double quotes. -/
def needsQuoting (b : GoString) : Bool :=
  b.any (fun c => c ∈ lit "()<>@,;:\\\"/[]?= ")

/-- The part of the tail for one extra field without its closing CRLF. -/
def fieldCore (b : GoString) (kv : GoString × GoString) : GoString :=
  lit "--" ++ b ++ lit "\r\nContent-Disposition: form-data; name=\"" ++ kv.1 ++
    lit "\"\r\n\r\n" ++ kv.2

/-- The phase is one of HEAD, BODY, TAIL. -/
def validPhase (sup : streamUpload) : Prop :=
  sup.step = readFirstSegStep ∨ sup.step = readFileContentStep ∨ sup.step = readLastSegStep

instance (sup : streamUpload) : Decidable (validPhase sup) := by
  unfold validPhase; infer_instance

/-- Two receivers that differ at most in the fields of the mirror and of the
diagnostics (`out`, `outLen`, `outFileLen`, `debugMode`, `debugOutFileName`):
they agree on the file source, the head buffer, the tail buffer and the
phase. -/
def sameStream (s1 s2 : streamUpload) : Prop :=
  s1.file = s2.file ∧ s1.firstSeg = s2.firstSeg ∧ s1.lastSeg = s2.lastSeg ∧ s1.step = s2.step

instance (s1 s2 : streamUpload) : Decidable (sameStream s1 s2) := by
  unfold sameStream; infer_instance

/-- Scenario A in phase BODY with the head drained and a file source that
hands over one byte per read. -/
def scenarioABody : streamUpload :=
  { scenarioA with
    firstSeg := []
    step := readFileContentStep
    file := some ⟨lit "hello", [ReadEvent.chunk 1, ReadEvent.chunk 1, ReadEvent.chunk 1], none, 0⟩ }

/-- The outcome is a chunk, not a failure. -/
def ReadEvent.isChunk : ReadEvent → Bool
  | ReadEvent.chunk _ => true
  | ReadEvent.fail _ => false

/-- The file source is open and none of the reads on it will fail. -/
def fileNeverFails : Option File → Prop
  | some f => f.script.all ReadEvent.isChunk = true
  | none => False

instance (file : Option File) : Decidable (fileNeverFails file) := by
  cases file <;> unfold fileNeverFails <;> infer_instance

/-- The bytes of the file source not yet read. -/
def fileData : Option File → List Byte
  | some f => f.data
  | none => []

/-- The bytes still to be delivered: the rest of the head, of the file and
of the tail. -/
def pending (sup : streamUpload) : List Byte :=
  sup.firstSeg ++ fileData sup.file ++ sup.lastSeg

/-- The states of an upload whose file source does not fail: the phase is
valid, in phase BODY the head is drained, and in phase TAIL the head and the
file are drained. -/
def StreamInv (sup : streamUpload) : Prop :=
  fileNeverFails sup.file ∧ validPhase sup ∧
  (sup.step = readFileContentStep → sup.firstSeg = []) ∧
  (sup.step = readLastSegStep → sup.firstSeg = [] ∧ fileData sup.file = [])

instance (sup : streamUpload) : Decidable (StreamInv sup) := by
  unfold StreamInv; infer_instance

/-- The body `NewStreamFileUploadBody` returns when `os.Open` gives the
handle `f`. -/
def newBody (f : File) (rnd1 rnd2 : List Byte) (fileParamName filename : GoString)
    (fieldParams : List (GoString × GoString)) (debugInfo : Option UpDebugInfo) : streamUpload :=
  (addFile zeroStreamUpload (Except.ok f) rnd1 rnd2 fileParamName filename fieldParams
    debugInfo).1

/-- Every open and every write on the mirror file will succeed in full. -/
def mirrorWorks (w : World) : Prop :=
  w.openScript.all id = true ∧ w.writeScript.all Option.isNone = true

instance (w : World) : Decidable (mirrorWorks w) := by
  unfold mirrorWorks; infer_instance

/-- Debug mode is on, the mirror works, and the mirror handle, when there is
one, stands at the end of the mirror file; without a handle the mirror file
is empty. -/
def MirrorInv (w : World) (sup : streamUpload) : Prop :=
  mirrorWorks w ∧ sup.debugMode = true ∧
  match sup.out with
  | none => w.mirrorDisk = []
  | some o => o.off = w.mirrorDisk.length

/-- The mirror handle, when there is one, has not been closed. -/
def mirrorOpen (sup : streamUpload) : Prop :=
  ∀ o, sup.out = some o → o.closed = false

/-- A closed mirror handle comes with phase TAIL and a drained tail. -/
def closedAtEnd (sup : streamUpload) : Prop :=
  ∀ o, sup.out = some o → o.closed = true → sup.step = readLastSegStep ∧ sup.lastSeg = []

/-- The mirror cannot write into the file being uploaded: its file is another
file, or debug mode is off. -/
def mirrorApart (w : World) (sup : streamUpload) : Prop :=
  w.mirrorIsSource = false ∨ sup.debugMode = false

instance (w : World) (sup : streamUpload) : Decidable (mirrorApart w sup) := by
  unfold mirrorApart; infer_instance

/-- The bytes a call of `Read` delivers before it turns to the tail: in phase
HEAD the rest of the head and the rest of the file, in phase BODY the rest of
the file, in phase TAIL none. -/
def ahead (sup : streamUpload) : List Byte :=
  (if sup.step = readFirstSegStep then sup.firstSeg else []) ++
    (if sup.step = readLastSegStep then [] else fileData sup.file)

/-- A world in which the mirror file is the file being uploaded: it holds
`hello`, and every open and every write on it succeeds. -/
def aliasWorld : World := ⟨lit "hello", [], [], true⟩

/-- The body `NewStreamFileUploadBody` builds for field name `file`, the file
`x.fin` with content `hello`, no extra fields, the boundary `XYZ` and the
mirror name `x`: the mirror file `x.fin` is the file being uploaded. -/
def aliasBody : streamUpload :=
  newBody scenarioAFile [] [] (lit "file") (lit "x.fin") [] (some ⟨lit "XYZ", lit "x"⟩)

/-! ## Lemmas -/

theorem writeAt_nil (p : List Byte) (off : Nat) : writeAt p off [] = p := by
  simp [writeAt]

theorem writeAt_length (p : List Byte) (off : Nat) (data : List Byte)
    (h : off + data.length ≤ p.length) : (writeAt p off data).length = p.length := by
  simp [writeAt]; omega

theorem take_writeAt (p : List Byte) (off : Nat) (data : List Byte) (h : off ≤ p.length) :
    (writeAt p off data).take (off + data.length) = p.take off ++ data := by
  unfold writeAt
  rw [List.take_append_of_le_length (by simp; omega)]
  rw [List.take_of_length_le (by simp)]

theorem take_writeAt_left (p : List Byte) (off : Nat) (data : List Byte) (k : Nat)
    (hk : k ≤ off) (h : off ≤ p.length) :
    (writeAt p off data).take k = p.take k := by
  unfold writeAt
  rw [List.append_assoc, List.take_append_of_le_length (by simp; omega)]
  rw [List.take_take]; congr 1; omega

/-- What `(*bytes.Buffer).Read` returns. -/
theorem Buffer.Read_eq (buf : List Byte) (dstLen : Nat) :
    (buf = [] ∧ Buffer.Read buf dstLen = ([], [], if dstLen = 0 then none else some GoError.EOF)) ∨
    (buf ≠ [] ∧ Buffer.Read buf dstLen = (buf.drop dstLen, buf.take dstLen, none)) := by
  unfold Buffer.Read
  cases buf with
  | nil => left; by_cases h : dstLen = 0 <;> simp [h]
  | cons b bs => right; simp

/-- What `(*os.File).Read` returns, by cases. -/
theorem File.Read_cases (file : Option File) (dstLen : Nat) :
    (file = none ∧ File.Read file dstLen = (none, [], some GoError.ErrInvalid)) ∨
    (∃ f, file = some f ∧ dstLen = 0 ∧ File.Read file dstLen = (file, [], none)) ∨
    (∃ f c rest, file = some f ∧ 0 < dstLen ∧ f.script = ReadEvent.fail c :: rest ∧
      File.Read file dstLen = (some { f with script := rest }, [], some (GoError.sys c))) ∨
    (∃ f f1, file = some f ∧ 0 < dstLen ∧ f.data = [] ∧ f1.data = [] ∧
      f1.closeErr = f.closeErr ∧ (∃ pre, f.script = pre ++ f1.script ∧
        ∀ e ∈ pre, ∃ k, e = ReadEvent.chunk k) ∧
      File.Read file dstLen = (some f1, [], some GoError.EOF)) ∨
    (∃ f f1 data, file = some f ∧ 0 < dstLen ∧ f.data = data ++ f1.data ∧ 0 < data.length ∧
      data.length ≤ dstLen ∧ f1.closeErr = f.closeErr ∧ (∃ pre, f.script = pre ++ f1.script ∧
        ∀ e ∈ pre, ∃ k, e = ReadEvent.chunk k) ∧
      File.Read file dstLen = (some f1, data, none)) := by
  cases file with
  | none => left; exact ⟨rfl, rfl⟩
  | some f =>
    right
    by_cases h0 : dstLen = 0
    · left; exact ⟨f, rfl, h0, by simp [File.Read, h0]⟩
    · right
      have hpos : 0 < dstLen := Nat.pos_of_ne_zero h0
      rcases hs : f.script with _ | ⟨ev, rest⟩
      · by_cases hd : f.data = []
        · right; left
          refine ⟨f, f, rfl, hpos, hd, hd, rfl, ⟨[], by simp, by simp⟩, ?_⟩
          simp [File.Read, h0, hs, hd]
        · right; right
          refine ⟨f, { f with data := f.data.drop dstLen,
                              pos := f.pos + (f.data.take dstLen).length },
            f.data.take dstLen, rfl, hpos,
            by simp, ?_, by simp, rfl, ⟨[], by simp [hs], by simp⟩, ?_⟩
          · rcases hf : f.data with _ | ⟨b, bs⟩
            · exact absurd hf hd
            · simp; omega
          · simp [File.Read, h0, hs, hd]
      · cases ev with
        | fail c =>
          left
          exact ⟨f, c, rest, rfl, hpos, hs, by simp [File.Read, h0, hs]⟩
        | chunk k =>
          by_cases hd : f.data = []
          · right; left
            refine ⟨f, { f with script := rest }, rfl, hpos, hd, hd, rfl,
              ⟨[ReadEvent.chunk k], by simp [hs], by simp⟩, ?_⟩
            simp [File.Read, h0, hs, hd]
          · right; right
            refine ⟨f, { f with data := f.data.drop (min (max k 1) dstLen), script := rest,
                                pos := f.pos + (f.data.take (min (max k 1) dstLen)).length },
              f.data.take (min (max k 1) dstLen), rfl, hpos, by simp, ?_, by simp, rfl,
              ⟨[ReadEvent.chunk k], by simp [hs], by simp⟩, ?_⟩
            · rcases hf : f.data with _ | ⟨b, bs⟩
              · exact absurd hf hd
              · simp; omega
            · simp [File.Read, h0, hs, hd]

/-- A write of no bytes is not seen by the file source. -/
theorem writeUnder_nil (src : Option File) (off : Nat) : writeUnder src off [] = src := by
  cases src with
  | none => rfl
  | some f => simp [writeUnder, overwrite]

/-- A write under the file source changes at most its bytes still to read. -/
theorem writeUnder_some (f : File) (off : Nat) (b : List Byte) :
    ∃ f1, writeUnder (some f) off b = some f1 ∧ f1.script = f.script ∧
      f1.closeErr = f.closeErr ∧ f1.pos = f.pos :=
  ⟨_, rfl, rfl, rfl, rfl⟩

/-- Opening the mirror does not change whether it is the file of the file
source. -/
theorem openMirror_alias (w : World) : (openMirror w).1.mirrorIsSource = w.mirrorIsSource := by
  unfold openMirror
  split <;> rfl

/-- The file source after `toDebugFile`: as before, or, when debug mode is on
and the mirror file is the file of the file source, as after a write of the
first bytes of `p[:n]` under it. -/
theorem toDebugFile_file (w : World) (sup : streamUpload) (p : List Byte) (n : Nat) :
    (toDebugFile w sup p n).2.file = sup.file ∨
    (w.mirrorIsSource = true ∧ sup.debugMode = true ∧
      ∃ off l, (toDebugFile w sup p n).2.file = writeUnder sup.file off ((p.take n).take l)) := by
  have hwrite : ∀ (w1 : World) (o : OutFile), w1.mirrorIsSource = w.mirrorIsSource →
      (OutFile.Write w1 sup.file o (p.take n)).2.1 = sup.file ∨
      (w.mirrorIsSource = true ∧
        ∃ off l, (OutFile.Write w1 sup.file o (p.take n)).2.1 =
          writeUnder sup.file off ((p.take n).take l)) := by
    intro w1 o hw1
    unfold OutFile.Write
    split
    · left; rfl
    · dsimp only
      rw [hw1]
      cases hm : w.mirrorIsSource with
      | false => left; rfl
      | true => right; exact ⟨rfl, _, _, rfl⟩
  unfold toDebugFile
  cases hd : sup.debugMode with
  | false => left; simp
  | true =>
    simp only [Bool.not_true, Bool.false_eq_true, if_false]
    cases ho : sup.out with
    | some o =>
      dsimp only
      rw [ho]
      dsimp only
      rcases hwrite w o rfl with h | ⟨h1, off, l, h⟩
      · left; exact h
      · right; exact ⟨h1, trivial, off, l, h⟩
    | none =>
      dsimp only
      cases hm : (openMirror w).2 with
      | none => left; rfl
      | some o =>
        dsimp only
        rcases hwrite (openMirror w).1 o (openMirror_alias w) with h | ⟨h1, off, l, h⟩
        · left; exact h
        · right; exact ⟨h1, trivial, off, l, h⟩

/-- Method `toDebugFile` leaves the file source alone when the mirror cannot
write into the file being uploaded. -/
theorem toDebugFile_file_apart (w : World) (sup : streamUpload) (p : List Byte) (n : Nat)
    (h : mirrorApart w sup) : (toDebugFile w sup p n).2.file = sup.file := by
  rcases toDebugFile_file w sup p n with h1 | ⟨h1, h2, _⟩
  · exact h1
  · rcases h with h | h
    · rw [h] at h1; cases h1
    · rw [h] at h2; cases h2

/-- Method `toDebugFile` with no bytes to mirror leaves the file source
alone. -/
theorem toDebugFile_file_zero (w : World) (sup : streamUpload) (p : List Byte) :
    (toDebugFile w sup p 0).2.file = sup.file := by
  rcases toDebugFile_file w sup p 0 with h1 | ⟨_, _, off, l, h⟩
  · exact h1
  · rw [h, List.take_zero, List.take_nil, writeUnder_nil]

/-- Method `toDebugFile` keeps the handle of the file source, its script, its
position and what its `Close` returns; only its bytes still to read can
change. -/
theorem toDebugFile_file_some (w : World) (sup : streamUpload) (p : List Byte) (n : Nat)
    (f : File) (hf : sup.file = some f) :
    ∃ f1, (toDebugFile w sup p n).2.file = some f1 ∧ f1.script = f.script ∧
      f1.closeErr = f.closeErr ∧ f1.pos = f.pos := by
  rcases toDebugFile_file w sup p n with h1 | ⟨_, _, off, l, h⟩
  · exact ⟨f, by rw [h1, hf], rfl, rfl, rfl⟩
  · rw [h, hf]
    exact writeUnder_some f off _

/-- Method `toDebugFile` does not change whether the mirror file is the file
of the file source. -/
theorem toDebugFile_alias (w : World) (sup : streamUpload) (p : List Byte) (n : Nat) :
    (toDebugFile w sup p n).1.mirrorIsSource = w.mirrorIsSource := by
  unfold toDebugFile
  cases hd : sup.debugMode with
  | false => simp
  | true =>
    simp only [Bool.not_true, Bool.false_eq_true, if_false]
    cases ho : sup.out with
    | some o =>
      dsimp only
      rw [ho]
      dsimp only
      unfold OutFile.Write
      split <;> rfl
    | none =>
      dsimp only
      cases hm : (openMirror w).2 with
      | none => exact openMirror_alias w
      | some o =>
        dsimp only
        unfold OutFile.Write
        split
        · exact openMirror_alias w
        · exact openMirror_alias w

/-- Method `toDebugFile` touches only the mirror fields `out` and `outLen`
and, at most, the bytes the file source has still to read: the handle is nil
after it exactly when it was before. -/
theorem toDebugFile_frame (w : World) (sup : streamUpload) (p : List Byte) (n : Nat) :
    ((toDebugFile w sup p n).2.file = none ↔ sup.file = none) ∧
    (toDebugFile w sup p n).2.firstSeg = sup.firstSeg ∧
    (toDebugFile w sup p n).2.lastSeg = sup.lastSeg ∧
    (toDebugFile w sup p n).2.step = sup.step ∧
    (toDebugFile w sup p n).2.outFileLen = sup.outFileLen ∧
    (toDebugFile w sup p n).2.debugMode = sup.debugMode ∧
    (toDebugFile w sup p n).2.debugOutFileName = sup.debugOutFileName := by
  refine ⟨?_, ?_⟩
  · cases hf : sup.file with
    | none =>
      rcases toDebugFile_file w sup p n with h1 | ⟨_, _, off, l, h⟩
      · rw [h1, hf]
      · rw [h, hf]; simp [writeUnder]
    | some f =>
      obtain ⟨f1, h1, _⟩ := toDebugFile_file_some w sup p n f hf
      rw [h1]; simp
  · unfold toDebugFile
    cases hd : sup.debugMode with
    | false => simp [hd]
    | true =>
      cases ho : sup.out with
      | some o => simp [ho, hd]
      | none =>
        simp only [ho]
        cases hm : (openMirror w).2 with
        | none => simp [hm, hd]
        | some o => simp [hm, hd]

/-- Method `closeDebugOutFile` touches only the mirror field `out`. -/
theorem closeDebugOutFile_frame (sup : streamUpload) :
    (closeDebugOutFile sup).file = sup.file ∧
    (closeDebugOutFile sup).firstSeg = sup.firstSeg ∧
    (closeDebugOutFile sup).lastSeg = sup.lastSeg ∧
    (closeDebugOutFile sup).step = sup.step ∧
    (closeDebugOutFile sup).outLen = sup.outLen ∧
    (closeDebugOutFile sup).outFileLen = sup.outFileLen ∧
    (closeDebugOutFile sup).debugMode = sup.debugMode ∧
    (closeDebugOutFile sup).debugOutFileName = sup.debugOutFileName := by
  unfold closeDebugOutFile
  cases sup.out <;> simp

/-- One turn of the loop in which the file read fails: `return 0, err`. -/
theorem bodyLoop_abort (fuel : Nat) (sup : streamUpload) (p : List Byte) (gotLen : Nat)
    (file1 : Option File) (e : GoError) (he : e ≠ GoError.EOF)
    (h : File.Read sup.file (p.length - gotLen) = (file1, [], some e)) :
    bodyLoop (fuel + 1) sup p gotLen =
      ({ sup with file := file1 }, p, gotLen, LoopExit.abort (some e)) := by
  simp only [bodyLoop, h]
  simp [writeAt_nil, he]

/-- One turn of the loop in which the file reports `io.EOF`: the phase
becomes TAIL and the loop ends. -/
theorem bodyLoop_eof (fuel : Nat) (sup : streamUpload) (p : List Byte) (gotLen : Nat)
    (file1 : Option File)
    (h : File.Read sup.file (p.length - gotLen) = (file1, [], some GoError.EOF)) :
    bodyLoop (fuel + 1) sup p gotLen =
      ({ sup with file := file1, step := readLastSegStep }, p, gotLen,
        LoopExit.done (some GoError.EOF)) := by
  simp only [bodyLoop, h]
  simp [writeAt_nil]

/-- One turn of the loop on a full buffer: the read of zero bytes returns
`(0, nil)` and the loop ends. -/
theorem bodyLoop_zero (fuel : Nat) (sup : streamUpload) (p : List Byte) (gotLen : Nat)
    (file1 : Option File) (hz : gotLen = p.length)
    (h : File.Read sup.file (p.length - gotLen) = (file1, [], none)) :
    bodyLoop (fuel + 1) sup p gotLen =
      ({ sup with file := file1 }, p, gotLen, LoopExit.done none) := by
  simp only [bodyLoop, h]
  simp [writeAt_nil, hz]

/-- One turn of the loop in which the file hands over the bytes that fill the
buffer: the loop ends. -/
theorem bodyLoop_full (fuel : Nat) (sup : streamUpload) (p : List Byte) (gotLen : Nat)
    (file1 : Option File) (data : List Byte) (hpos : 0 < data.length)
    (hfull : gotLen + data.length = p.length)
    (h : File.Read sup.file (p.length - gotLen) = (file1, data, none)) :
    bodyLoop (fuel + 1) sup p gotLen =
      ({ sup with file := file1, outFileLen := sup.outFileLen + data.length },
        writeAt p gotLen data, gotLen + data.length, LoopExit.done none) := by
  simp only [bodyLoop, h]
  simp [hpos, hfull]

/-- One turn of the loop in which the file hands over fewer bytes than the
buffer has room for: the loop goes on. -/
theorem bodyLoop_more (fuel : Nat) (sup : streamUpload) (p : List Byte) (gotLen : Nat)
    (file1 : Option File) (data : List Byte) (hpos : 0 < data.length)
    (hfull : gotLen + data.length ≠ p.length)
    (h : File.Read sup.file (p.length - gotLen) = (file1, data, none)) :
    bodyLoop (fuel + 1) sup p gotLen =
      bodyLoop fuel { sup with file := file1, outFileLen := sup.outFileLen + data.length }
        (writeAt p gotLen data) (gotLen + data.length) := by
  simp only [bodyLoop, h]
  simp [hpos, hfull]

/-- The `for` loop of `Read` with enough fuel: it ends by `return` or `break`,
never on the bound; the buffer keeps its length, what was in `p[:gotLen]`
stays, the count does not pass `len(p)`, and only `file`, `outFileLen` and
`step` of the receiver are touched. -/
theorem bodyLoop_basic (fuel : Nat) (sup : streamUpload) (p : List Byte) (gotLen : Nat)
    (hg : gotLen ≤ p.length) (hf : p.length - gotLen < fuel) :
    (bodyLoop fuel sup p gotLen).2.1.length = p.length ∧
    gotLen ≤ (bodyLoop fuel sup p gotLen).2.2.1 ∧
    (bodyLoop fuel sup p gotLen).2.2.1 ≤ p.length ∧
    (bodyLoop fuel sup p gotLen).2.1.take gotLen = p.take gotLen ∧
    (bodyLoop fuel sup p gotLen).1.firstSeg = sup.firstSeg ∧
    (bodyLoop fuel sup p gotLen).1.lastSeg = sup.lastSeg ∧
    (bodyLoop fuel sup p gotLen).1.out = sup.out ∧
    (bodyLoop fuel sup p gotLen).1.outLen = sup.outLen ∧
    (bodyLoop fuel sup p gotLen).1.debugMode = sup.debugMode ∧
    (bodyLoop fuel sup p gotLen).1.debugOutFileName = sup.debugOutFileName ∧
    ((bodyLoop fuel sup p gotLen).1.file = none ↔ sup.file = none) ∧
    ((∃ e, (bodyLoop fuel sup p gotLen).2.2.2 = LoopExit.abort (some e) ∧
        (e = GoError.ErrInvalid ∨ ∃ c, e = GoError.sys c) ∧
        (bodyLoop fuel sup p gotLen).1.step = sup.step) ∨
     ((bodyLoop fuel sup p gotLen).2.2.2 = LoopExit.done (some GoError.EOF) ∧
        (bodyLoop fuel sup p gotLen).1.step = readLastSegStep ∧
        (bodyLoop fuel sup p gotLen).2.2.1 < p.length) ∨
     ((bodyLoop fuel sup p gotLen).2.2.2 = LoopExit.done none ∧
        (bodyLoop fuel sup p gotLen).1.step = sup.step ∧
        (bodyLoop fuel sup p gotLen).2.2.1 = p.length)) := by
  induction fuel generalizing sup p gotLen with
  | zero => omega
  | succ fuel ih =>
    rcases File.Read_cases sup.file (p.length - gotLen) with
      ⟨hn, hr⟩ | ⟨f, hfile, hz, hr⟩ | ⟨f, c, rest, hfile, hpos, hs, hr⟩ |
      ⟨f, f1, hfile, hpos, hd, hd1, hc, hsc, hr⟩ |
      ⟨f, f1, data, hfile, hpos, hd, hlen, hle, hc, hsc, hr⟩
    · rw [bodyLoop_abort fuel sup p gotLen none GoError.ErrInvalid (by simp) hr]
      simp [hg, hn]
    · rw [bodyLoop_zero fuel sup p gotLen _ (by omega) hr]
      simp [hg]; omega
    · rw [bodyLoop_abort fuel sup p gotLen _ _ (by simp) hr]
      simp [hg, hfile]
    · rw [bodyLoop_eof fuel sup p gotLen _ hr]
      simp [hg, hfile]; omega
    · have hwl : (writeAt p gotLen data).length = p.length := writeAt_length _ _ _ (by omega)
      by_cases hfull : gotLen + data.length = p.length
      · rw [bodyLoop_full fuel sup p gotLen _ data hlen hfull hr]
        simp [hwl, hfile, hfull]
        exact ⟨hg, take_writeAt_left _ _ _ _ (le_refl _) hg⟩
      · have := ih { sup with file := some f1, outFileLen := sup.outFileLen + data.length }
          (writeAt p gotLen data) (gotLen + data.length) (by omega) (by omega)
        simp only [hwl] at this
        obtain ⟨h1, h2, h3, h4, h5, h6, h7, h8, h9, h10, h11, h12⟩ := this
        rw [bodyLoop_more fuel sup p gotLen _ data hlen hfull hr]
        refine ⟨h1, by omega, h3, ?_, h5, h6, h7, h8, h9, h10, ?_, h12⟩
        · have := congrArg (List.take gotLen) h4
          rw [List.take_take, Nat.min_eq_left (by omega)] at this
          rw [this, List.take_take, Nat.min_eq_left (by omega)]
          exact take_writeAt_left _ _ _ _ (le_refl _) hg
        · simp [h11, hfile]

/-- The tail branch of `Read` in phase TAIL, in closed form: the tail bytes
that fit are copied behind `p[:gotLen]`, the mirror is fed, and the call
reports `io.EOF` exactly when the buffer is not full. -/
theorem readTail_eq (w : World) (sup : streamUpload) (p : List Byte) (gotLen : Nat)
    (hs : sup.step = readLastSegStep) (hg : gotLen ≤ p.length) :
    readTail w sup p gotLen =
      if gotLen + (sup.lastSeg.take (p.length - gotLen)).length < p.length then
        ⟨(toDebugFile w { sup with lastSeg := sup.lastSeg.drop (p.length - gotLen) }
            (writeAt p gotLen (sup.lastSeg.take (p.length - gotLen)))
            (gotLen + (sup.lastSeg.take (p.length - gotLen)).length)).1,
         closeDebugOutFile (toDebugFile w { sup with lastSeg := sup.lastSeg.drop (p.length - gotLen) }
            (writeAt p gotLen (sup.lastSeg.take (p.length - gotLen)))
            (gotLen + (sup.lastSeg.take (p.length - gotLen)).length)).2,
         writeAt p gotLen (sup.lastSeg.take (p.length - gotLen)),
         gotLen + (sup.lastSeg.take (p.length - gotLen)).length, some GoError.EOF⟩
      else
        ⟨(toDebugFile w { sup with lastSeg := sup.lastSeg.drop (p.length - gotLen) }
            (writeAt p gotLen (sup.lastSeg.take (p.length - gotLen)))
            (gotLen + (sup.lastSeg.take (p.length - gotLen)).length)).1,
         (toDebugFile w { sup with lastSeg := sup.lastSeg.drop (p.length - gotLen) }
            (writeAt p gotLen (sup.lastSeg.take (p.length - gotLen)))
            (gotLen + (sup.lastSeg.take (p.length - gotLen)).length)).2,
         writeAt p gotLen (sup.lastSeg.take (p.length - gotLen)),
         gotLen + (sup.lastSeg.take (p.length - gotLen)).length, none⟩ := by
  unfold readTail
  rcases Buffer.Read_eq sup.lastSeg (p.length - gotLen) with ⟨he, hr⟩ | ⟨hne, hr⟩
  · simp only [hs, if_true, hr]
    by_cases hz : p.length - gotLen = 0
    · have : gotLen = p.length := by omega
      simp [hz, this, he, writeAt_nil]
    · have : gotLen < p.length := by omega
      simp [hz, this, he, writeAt_nil]
  · simp only [hs, if_true, hr]
    by_cases hlt : gotLen + (sup.lastSeg.take (p.length - gotLen)).length < p.length
    · have h2 : (if (sup.lastSeg.take (p.length - gotLen)).length > 0
          then gotLen + (sup.lastSeg.take (p.length - gotLen)).length else gotLen)
          = gotLen + (sup.lastSeg.take (p.length - gotLen)).length := by
        split <;> omega
      simp only [h2]
      simp [hlt]
    · have h2 : (if (sup.lastSeg.take (p.length - gotLen)).length > 0
          then gotLen + (sup.lastSeg.take (p.length - gotLen)).length else gotLen)
          = gotLen + (sup.lastSeg.take (p.length - gotLen)).length := by
        split <;> omega
      simp only [h2]
      simp [hlt]

/-- The tail branch of `Read`: what it leaves untouched and what its results
say. -/
theorem readTail_basic (w : World) (sup : streamUpload) (p : List Byte) (gotLen : Nat)
    (hg : gotLen ≤ p.length) :
    (readTail w sup p gotLen).p.length = p.length ∧
    (readTail w sup p gotLen).n ≤ p.length ∧
    ((readTail w sup p gotLen).sup.file = none ↔ sup.file = none) ∧
    (readTail w sup p gotLen).sup.firstSeg = sup.firstSeg ∧
    (readTail w sup p gotLen).sup.step = sup.step ∧
    (readTail w sup p gotLen).sup.debugMode = sup.debugMode ∧
    (readTail w sup p gotLen).sup.debugOutFileName = sup.debugOutFileName ∧
    (readTail w sup p gotLen).sup.outFileLen = sup.outFileLen ∧
    (readTail w sup p gotLen).p.take gotLen = p.take gotLen ∧
    ((readTail w sup p gotLen).err = some GoError.EOF →
      sup.step = readLastSegStep ∧ (readTail w sup p gotLen).sup.lastSeg = [] ∧
      (readTail w sup p gotLen).n < p.length) ∧
    ((readTail w sup p gotLen).err = none →
      sup.step = readLastSegStep ∧ (readTail w sup p gotLen).n = p.length) ∧
    ((readTail w sup p gotLen).err = none ∨ (readTail w sup p gotLen).err = some GoError.EOF ∨
      ((readTail w sup p gotLen).err = some metError ∧ sup.step ≠ readLastSegStep ∧
        (readTail w sup p gotLen).n = 0 ∧ (readTail w sup p gotLen).sup = sup)) := by
  by_cases hs : sup.step = readLastSegStep
  · rw [readTail_eq w sup p gotLen hs hg]
    have hlen : (sup.lastSeg.take (p.length - gotLen)).length ≤ p.length - gotLen := by
      simp
    have hwl := writeAt_length p gotLen (sup.lastSeg.take (p.length - gotLen)) (by omega)
    have htk := take_writeAt_left p gotLen (sup.lastSeg.take (p.length - gotLen)) gotLen
      (le_refl _) hg
    have hT := toDebugFile_frame w { sup with lastSeg := sup.lastSeg.drop (p.length - gotLen) }
      (writeAt p gotLen (sup.lastSeg.take (p.length - gotLen)))
      (gotLen + (sup.lastSeg.take (p.length - gotLen)).length)
    have hC := closeDebugOutFile_frame (toDebugFile w
      { sup with lastSeg := sup.lastSeg.drop (p.length - gotLen) }
      (writeAt p gotLen (sup.lastSeg.take (p.length - gotLen)))
      (gotLen + (sup.lastSeg.take (p.length - gotLen)).length)).2
    obtain ⟨t1, t2, t3, t4, t5, t6, t7⟩ := hT
    obtain ⟨c1, c2, c3, c4, c5, c6, c7, c8⟩ := hC
    by_cases hlt : gotLen + (sup.lastSeg.take (p.length - gotLen)).length < p.length
    · rw [if_pos hlt]
      dsimp only
      refine ⟨hwl, by omega, by rw [c1]; exact t1, by rw [c2, t2], by rw [c4, t4], by rw [c7, t6],
        by rw [c8, t7], by rw [c6, t5], htk, ?_, ?_, ?_⟩
      · intro _
        refine ⟨hs, ?_, hlt⟩
        rw [c3, t3]
        simp only [List.drop_eq_nil_iff]
        simp only [List.length_take] at hlt
        omega
      · intro h; cases h
      · right; left; rfl
    · rw [if_neg hlt]
      dsimp only
      refine ⟨hwl, by omega, t1, t2, t4, t6, t7, t5, htk, ?_, ?_, ?_⟩
      · intro h; cases h
      · intro _; exact ⟨hs, by omega⟩
      · left; rfl
  · simp [readTail, hs, metError]

/-- The tail branch of `Read` and the file source: the handle, its script,
its position and what its `Close` returns stay; when the mirror cannot write
into the file being uploaded, the file source stays as a whole. -/
theorem readTail_file (w : World) (sup : streamUpload) (p : List Byte) (gotLen : Nat)
    (hg : gotLen ≤ p.length) :
    (∀ f, sup.file = some f → ∃ f1, (readTail w sup p gotLen).sup.file = some f1 ∧
      f1.script = f.script ∧ f1.closeErr = f.closeErr ∧ f1.pos = f.pos) ∧
    (mirrorApart w sup → (readTail w sup p gotLen).sup.file = sup.file) := by
  by_cases hs : sup.step = readLastSegStep
  · rw [readTail_eq w sup p gotLen hs hg]
    refine ⟨fun f hf => ?_, fun h => ?_⟩
    · split
      · dsimp only
        rw [(closeDebugOutFile_frame _).1]
        exact toDebugFile_file_some w _ _ _ f hf
      · dsimp only
        exact toDebugFile_file_some w _ _ _ f hf
    · split
      · dsimp only
        rw [(closeDebugOutFile_frame _).1]
        exact toDebugFile_file_apart w _ _ _ h
      · dsimp only
        exact toDebugFile_file_apart w _ _ _ h
  · simp only [readTail, hs, if_false]
    exact ⟨fun f hf => ⟨f, hf, rfl, rfl, rfl⟩, by intros; trivial⟩

/-- The file branch of `Read` followed by the tail branch: what the two leave
untouched and what the results say. -/
theorem readBody_basic (w : World) (sup : streamUpload) (p : List Byte) (gotLen : Nat)
    (hg : gotLen ≤ p.length) :
    (readBody w sup p gotLen).p.length = p.length ∧
    (readBody w sup p gotLen).n ≤ p.length ∧
    ((readBody w sup p gotLen).sup.file = none ↔ sup.file = none) ∧
    (readBody w sup p gotLen).sup.firstSeg = sup.firstSeg ∧
    ((readBody w sup p gotLen).sup.step = sup.step ∨
      (sup.step = readFileContentStep ∧ (readBody w sup p gotLen).sup.step = readLastSegStep)) ∧
    (readBody w sup p gotLen).sup.debugMode = sup.debugMode ∧
    (readBody w sup p gotLen).sup.debugOutFileName = sup.debugOutFileName ∧
    (readBody w sup p gotLen).p.take gotLen = p.take gotLen ∧
    ((readBody w sup p gotLen).err = some GoError.EOF →
      (readBody w sup p gotLen).sup.step = readLastSegStep ∧
      (readBody w sup p gotLen).sup.lastSeg = [] ∧ (readBody w sup p gotLen).n < p.length) ∧
    ((readBody w sup p gotLen).err = none → (readBody w sup p gotLen).n = p.length) ∧
    (readBody w sup p gotLen).err ≠ some GoError.fuelExhausted ∧
    ((readBody w sup p gotLen).err = some metError →
      sup.step ≠ readFileContentStep ∧ sup.step ≠ readLastSegStep) := by
  by_cases hs : sup.step = readFileContentStep
  · have hb := bodyLoop_basic (p.length + 1) sup p gotLen hg (by omega)
    unfold readBody
    rw [if_pos hs]
    rcases hloop : bodyLoop (p.length + 1) sup p gotLen with ⟨sup1, p1, g1, ex⟩
    rw [hloop] at hb
    obtain ⟨b1, b2, b3, b4, b5, b6, b7, b8, b9, b10, b11, b12⟩ := hb
    dsimp only at b1 b2 b3 b4 b5 b6 b7 b8 b9 b10 b11 b12
    rcases b12 with ⟨e, hex, hne, hst⟩ | ⟨hex, hst, hlt⟩ | ⟨hex, hst, heq⟩
    · subst hex
      dsimp only
      refine ⟨b1, by omega, b11, b5, Or.inl hst, b9, b10, b4, ?_, ?_, ?_, ?_⟩
      · intro h
        rcases hne with h1 | ⟨c, h1⟩ <;> subst h1 <;> cases h
      · intro h; cases h
      · intro h
        rcases hne with h1 | ⟨c, h1⟩ <;> subst h1 <;> cases h
      · intro h
        rcases hne with h1 | ⟨c, h1⟩ <;> subst h1 <;> cases h
    · subst hex
      dsimp only
      rw [if_neg (by omega)]
      have ht := readTail_basic w sup1 p1 g1 (by omega)
      rw [b1] at ht
      obtain ⟨t1, t2, t3, t4, t5, t6, t7, t8, t9, t10, t11, t12⟩ := ht
      refine ⟨t1, t2, by rw [t3]; exact b11, by rw [t4]; exact b5,
        Or.inr ⟨hs, by rw [t5]; exact hst⟩, by rw [t6]; exact b9, by rw [t7]; exact b10, ?_,
        ?_, ?_, ?_, ?_⟩
      · have := congrArg (List.take gotLen) t9
        rw [List.take_take, List.take_take, Nat.min_eq_left b2] at this
        rw [this]; exact b4
      · intro h
        obtain ⟨u1, u2, u3⟩ := t10 h
        exact ⟨by rw [t5]; exact hst, u2, u3⟩
      · intro h; exact (t11 h).2
      · rcases t12 with h | h | ⟨h, _⟩ <;> rw [h] <;> simp [metError]
      · intro h
        rcases t12 with h1 | h1 | ⟨_, h1, _⟩
        · rw [h1] at h; cases h
        · rw [h1] at h; cases h
        · exact absurd hst h1
    · subst hex
      dsimp only
      rw [if_pos heq]
      have hT := toDebugFile_frame w sup1 p1 g1
      obtain ⟨t1, t2, t3, t4, t5, t6, t7⟩ := hT
      dsimp only
      refine ⟨b1, by omega, by rw [t1]; exact b11, by rw [t2]; exact b5,
        Or.inl (by rw [t4]; exact hst), by rw [t6]; exact b9, by rw [t7]; exact b10, b4,
        ?_, ?_, ?_, ?_⟩
      · intro h; cases h
      · intro _; exact heq
      · intro h; cases h
      · intro h; cases h
  · unfold readBody
    rw [if_neg hs]
    have ht := readTail_basic w sup p gotLen hg
    obtain ⟨t1, t2, t3, t4, t5, t6, t7, t8, t9, t10, t11, t12⟩ := ht
    refine ⟨t1, t2, by rw [t3], t4, Or.inl t5, t6, t7, t9, ?_, ?_, ?_, ?_⟩
    · intro h
      obtain ⟨u1, u2, u3⟩ := t10 h
      exact ⟨by rw [t5]; exact u1, u2, u3⟩
    · intro h; exact (t11 h).2
    · rcases t12 with h | h | ⟨h, _⟩ <;> rw [h] <;> simp [metError]
    · intro h
      rcases t12 with h1 | h1 | ⟨_, h1, _⟩
      · rw [h1] at h; cases h
      · rw [h1] at h; cases h
      · exact ⟨hs, h1⟩

/-- Method `Read` in phase HEAD with the head drained and a non-empty buffer:
the `io.EOF` of the empty `bytes.Buffer` is returned as it is. -/
theorem Read_head_drained (w : World) (sup : streamUpload) (p : List Byte)
    (hs : sup.step = readFirstSegStep) (hh : sup.firstSeg = []) (hp : p ≠ []) :
    Read w sup p = ⟨w, sup, p, 0, some GoError.EOF⟩ := by
  have hl : p.length ≠ 0 := by simpa using hp
  cases sup
  simp only at hs hh
  subst hs hh
  simp [Read, Buffer.Read, hl, writeAt_nil]

/-- Method `Read` in phase HEAD when the head has at least `len(p)` bytes and
the buffer is not empty: the buffer is filled from the head and the phase
stays HEAD. -/
theorem Read_head_full (w : World) (sup : streamUpload) (p : List Byte)
    (hs : sup.step = readFirstSegStep) (hp : p ≠ []) (hle : p.length ≤ sup.firstSeg.length) :
    Read w sup p =
      ⟨(toDebugFile w { sup with firstSeg := sup.firstSeg.drop p.length }
          (sup.firstSeg.take p.length) p.length).1,
       (toDebugFile w { sup with firstSeg := sup.firstSeg.drop p.length }
          (sup.firstSeg.take p.length) p.length).2,
       sup.firstSeg.take p.length, p.length, none⟩ := by
  have hl : p.length ≠ 0 := by simpa using hp
  have hne : sup.firstSeg ≠ [] := by
    intro h; rw [h] at hle; simp at hle; exact hp hle
  have hw : writeAt p 0 (sup.firstSeg.take p.length) = sup.firstSeg.take p.length := by
    simp [writeAt, Nat.min_eq_left hle]
  have hn : (sup.firstSeg.take p.length).length = p.length := by
    simp [Nat.min_eq_left hle]
  unfold Read
  rw [if_pos hs]
  rcases Buffer.Read_eq sup.firstSeg p.length with ⟨he, _⟩ | ⟨_, hr⟩
  · exact absurd he hne
  · simp only [hr, hw, hn]
    simp [Nat.pos_of_ne_zero hl]

/-- Method `Read` in phase HEAD when the head has fewer bytes than the buffer
(and is not drained), or the buffer is empty: the head bytes are copied, the
phase becomes BODY and the call goes on with the file. -/
theorem Read_head_through (w : World) (sup : streamUpload) (p : List Byte)
    (hs : sup.step = readFirstSegStep)
    (hlt : (sup.firstSeg ≠ [] ∧ sup.firstSeg.length < p.length) ∨ p = []) :
    Read w sup p =
      readBody w { sup with firstSeg := sup.firstSeg.drop p.length, step := readFileContentStep }
        (writeAt p 0 (sup.firstSeg.take p.length)) (sup.firstSeg.take p.length).length := by
  unfold Read
  rw [if_pos hs]
  rcases Buffer.Read_eq sup.firstSeg p.length with ⟨he, hr⟩ | ⟨hne, hr⟩
  · rcases hlt with ⟨h, _⟩ | h
    · exact absurd he h
    · subst h
      simp only [hr]
      simp [he]
  · simp only [hr]
    rcases hlt with ⟨_, h⟩ | h
    · have h1 : (sup.firstSeg.take p.length).length = sup.firstSeg.length := by
        simp; omega
      have h2 : 0 < sup.firstSeg.length := List.length_pos.mpr hne
      simp only [h1]
      simp [h2, Nat.ne_of_lt h]
    · subst h
      simp

/-- Method `Read` outside phase HEAD starts at the file branch. -/
theorem Read_not_head (w : World) (sup : streamUpload) (p : List Byte)
    (hs : sup.step ≠ readFirstSegStep) : Read w sup p = readBody w sup p 0 := by
  unfold Read
  rw [if_neg hs]

/-- The three ways a call of `Read` in phase HEAD can go. -/
theorem Read_head_cases (sup : streamUpload) (p : List Byte) :
    (sup.firstSeg = [] ∧ p ≠ []) ∨ (p ≠ [] ∧ p.length ≤ sup.firstSeg.length) ∨
    ((sup.firstSeg ≠ [] ∧ sup.firstSeg.length < p.length) ∨ p = []) := by
  by_cases hp : p = []
  · right; right; right; exact hp
  · by_cases hh : sup.firstSeg = []
    · left; exact ⟨hh, hp⟩
    · by_cases hle : p.length ≤ sup.firstSeg.length
      · right; left; exact ⟨hp, hle⟩
      · right; right; left; exact ⟨hh, by omega⟩

/-- Method `Read`, for every receiver and buffer: the buffer keeps its length,
`n` is at most `len(p)`, the file handle is nil after the call exactly when it
was before, the mirror configuration stays, the phase moves forward or not at
all, `io.EOF` comes with an exhausted receiver, a nil error with a full
buffer, and the loop bound of the model is never hit. -/
theorem Read_basic (w : World) (sup : streamUpload) (p : List Byte) :
    (Read w sup p).p.length = p.length ∧
    (Read w sup p).n ≤ p.length ∧
    ((Read w sup p).sup.file = none ↔ sup.file = none) ∧
    ((Read w sup p).sup.step = sup.step ∨
      (sup.step = readFirstSegStep ∧ (Read w sup p).sup.step = readFileContentStep) ∨
      (sup.step = readFirstSegStep ∧ (Read w sup p).sup.step = readLastSegStep) ∨
      (sup.step = readFileContentStep ∧ (Read w sup p).sup.step = readLastSegStep)) ∧
    (Read w sup p).sup.debugMode = sup.debugMode ∧
    (Read w sup p).sup.debugOutFileName = sup.debugOutFileName ∧
    ((Read w sup p).err = some GoError.EOF →
      Exhausted (Read w sup p).sup ∧ (Read w sup p).n < p.length) ∧
    ((Read w sup p).err = none → (Read w sup p).n = p.length) ∧
    (Read w sup p).err ≠ some GoError.fuelExhausted ∧
    ((Read w sup p).err = some metError →
      sup.step ≠ readFirstSegStep ∧ sup.step ≠ readFileContentStep ∧
      sup.step ≠ readLastSegStep) := by
  by_cases hs : sup.step = readFirstSegStep
  · rcases Read_head_cases sup p with ⟨hh, hp⟩ | ⟨hp, hle⟩ | hlt
    · rw [Read_head_drained w sup p hs hh hp]
      have : 0 < p.length := List.length_pos.mpr hp
      simp [Exhausted, hs, hh, this, metError]
    · rw [Read_head_full w sup p hs hp hle]
      obtain ⟨t1, t2, t3, t4, t5, t6, t7⟩ := toDebugFile_frame w
        { sup with firstSeg := sup.firstSeg.drop p.length } (sup.firstSeg.take p.length) p.length
      dsimp only
      refine ⟨by simp [Nat.min_eq_left hle], le_refl _, by rw [t1], Or.inl t4, t6, t7,
        ?_, ?_, ?_, ?_⟩
      · intro h; cases h
      · intro _; trivial
      · intro h; cases h
      · intro h; cases h
    · rw [Read_head_through w sup p hs hlt]
      have hwl : (writeAt p 0 (sup.firstSeg.take p.length)).length = p.length :=
        writeAt_length _ _ _ (by simp)
      have hb := readBody_basic w
        { sup with firstSeg := sup.firstSeg.drop p.length, step := readFileContentStep }
        (writeAt p 0 (sup.firstSeg.take p.length)) (sup.firstSeg.take p.length).length
        (by rw [hwl]; simp)
      rw [hwl] at hb
      obtain ⟨b1, b2, b3, b4, b5, b6, b7, b8, b9, b10, b11, b12⟩ := hb
      refine ⟨b1, b2, b3, ?_, b6, b7, ?_, b10, b11, ?_⟩
      · rcases b5 with h | ⟨_, h⟩
        · right; left; exact ⟨hs, h⟩
        · right; right; left; exact ⟨hs, h⟩
      · intro h
        obtain ⟨u1, u2, u3⟩ := b9 h
        exact ⟨Or.inr ⟨u1, u2⟩, u3⟩
      · intro h
        exact absurd rfl (b12 h).1
  · rw [Read_not_head w sup p hs]
    obtain ⟨b1, b2, b3, b4, b5, b6, b7, b8, b9, b10, b11, b12⟩ :=
      readBody_basic w sup p 0 (Nat.zero_le _)
    refine ⟨b1, b2, b3, ?_, b6, b7, ?_, b10, b11, ?_⟩
    · rcases b5 with h | h
      · left; exact h
      · right; right; right; exact h
    · intro h
      obtain ⟨u1, u2, u3⟩ := b9 h
      exact ⟨Or.inr ⟨u1, u2⟩, u3⟩
    · intro h
      exact ⟨hs, b12 h⟩

/-- Method `Read` on an exhausted receiver with a non-empty buffer: zero
bytes, `io.EOF`, the buffer and the head, tail, file and phase as before. -/
theorem Read_exhausted (w : World) (sup : streamUpload) (p : List Byte)
    (hx : Exhausted sup) (hp : p ≠ []) :
    (Read w sup p).n = 0 ∧ (Read w sup p).err = some GoError.EOF ∧ (Read w sup p).p = p ∧
    (Read w sup p).sup.firstSeg = sup.firstSeg ∧ (Read w sup p).sup.lastSeg = sup.lastSeg ∧
    (Read w sup p).sup.file = sup.file ∧ (Read w sup p).sup.step = sup.step := by
  rcases hx with ⟨hs, hh⟩ | ⟨hs, hl⟩
  · rw [Read_head_drained w sup p hs hh hp]
    simp
  · have h0 : sup.step ≠ readFirstSegStep := by rw [hs]; decide
    have h1 : sup.step ≠ readFileContentStep := by rw [hs]; decide
    have hlen : 0 < p.length := List.length_pos.mpr hp
    rw [Read_not_head w sup p h0]
    unfold readBody
    rw [if_neg h1, readTail_eq w sup p 0 hs (Nat.zero_le _)]
    simp only [hl, List.take_nil, List.drop_nil, List.length_nil, Nat.add_zero, writeAt_nil]
    rw [if_pos hlen]
    dsimp only
    obtain ⟨t1, t2, t3, t4, t5, t6, t7⟩ := toDebugFile_frame w { sup with lastSeg := [] } p 0
    obtain ⟨c1, c2, c3, c4, c5, c6, c7, c8⟩ := closeDebugOutFile_frame
      (toDebugFile w { sup with lastSeg := [] } p 0).2
    refine ⟨rfl, rfl, rfl, by rw [c2, t2], by rw [c3, t3],
      by rw [c1, toDebugFile_file_zero], by rw [c4, t4]⟩

/-- On an exhausted receiver every `Read` with a non-empty buffer returns
`(0, io.EOF)` and the head, tail, file and phase stay as they are. -/
theorem run_exhausted (qs : List (List Byte)) (hq : ∀ q ∈ qs, q ≠ []) (w : World)
    (sup : streamUpload) (hx : Exhausted sup) :
    (run w sup (qs.map Call.read)).2.2 = qs.map (fun _ => ⟨[], 0, some GoError.EOF⟩) ∧
    (run w sup (qs.map Call.read)).2.1.firstSeg = sup.firstSeg ∧
    (run w sup (qs.map Call.read)).2.1.lastSeg = sup.lastSeg ∧
    (run w sup (qs.map Call.read)).2.1.file = sup.file ∧
    (run w sup (qs.map Call.read)).2.1.step = sup.step := by
  induction qs generalizing w sup with
  | nil => simp [run]
  | cons q qs ih =>
    have hqne : q ≠ [] := hq q (List.mem_cons_self _ _)
    obtain ⟨r1, r2, r3, r4, r5, r6, r7⟩ := Read_exhausted w sup q hx hqne
    have hx' : Exhausted (Read w sup q).sup := by
      rcases hx with ⟨hs, hh⟩ | ⟨hs, hl⟩
      · left; exact ⟨by rw [r7]; exact hs, by rw [r4]; exact hh⟩
      · right; exact ⟨by rw [r7]; exact hs, by rw [r5]; exact hl⟩
    obtain ⟨i1, i2, i3, i4, i5⟩ := ih (fun q' h => hq q' (List.mem_cons_of_mem _ h))
      (Read w sup q).world (Read w sup q).sup hx'
    simp only [List.map_cons, run]
    refine ⟨?_, by rw [i2, r4], by rw [i3, r5], by rw [i4, r6], by rw [i5, r7]⟩
    rw [i1, r1, r2]
    simp

/-- After `Close` the file handle is nil. -/
theorem Close_file_none (sup : streamUpload) : (Close sup).1.file = none := by
  unfold Close
  cases h : sup.file <;> simp [h]

/-- C5, as the code has it: no `Read` call releases the file source. For every
receiver and buffer, the terminal call included, the file handle is nil after
`Read` exactly when it was nil before; `Close` is what sets it to nil. -/
theorem C5_read_keeps_file (w : World) (sup : streamUpload) (p : List Byte) :
    ((Read w sup p).sup.file = none ↔ sup.file = none) ∧
    (Close (Read w sup p).sup).1.file = none := by
  exact ⟨(Read_basic w sup p).2.2.1, Close_file_none _⟩

set_option maxRecDepth 100000 in
/-- C5 as stated fails at Scenario A: a read of 500 bytes drains head, file
and tail and returns `io.EOF`, and the file handle is still held. -/
theorem C5_file_not_released :
    (Read world0 scenarioA (List.replicate 500 0)).err = some GoError.EOF ∧
    (Read world0 scenarioA (List.replicate 500 0)).sup.firstSeg = [] ∧
    (Read world0 scenarioA (List.replicate 500 0)).sup.lastSeg = [] ∧
    (Read world0 scenarioA (List.replicate 500 0)).sup.file ≠ none := by
  decide

/-- C6: `Close` is idempotent. After one call the file handle is nil; a
further call returns a nil error and changes nothing; and `Close` leaves the
head buffer, the tail buffer, the phase and the mirror fields as they are. -/
theorem C6_close_idempotent (sup : streamUpload) :
    (Close sup).1.file = none ∧
    Close (Close sup).1 = ((Close sup).1, none) ∧
    (Close sup).1.firstSeg = sup.firstSeg ∧
    (Close sup).1.lastSeg = sup.lastSeg ∧
    (Close sup).1.step = sup.step ∧
    (Close sup).1.out = sup.out ∧
    (Close sup).1.outLen = sup.outLen ∧
    (Close sup).1.outFileLen = sup.outFileLen ∧
    (Close sup).1.debugMode = sup.debugMode ∧
    (Close sup).1.debugOutFileName = sup.debugOutFileName := by
  unfold Close
  cases h : sup.file <;> simp [h]

/-- Method `addFile` with the file opened: it returns a nil error and leaves
the phase of the receiver as it is. -/
theorem addFile_ok (sup : streamUpload) (f : File) (rnd1 rnd2 : List Byte)
    (fileParamName filename : GoString) (fieldParams : List (GoString × GoString))
    (debugInfo : Option UpDebugInfo) :
    (addFile sup (Except.ok f) rnd1 rnd2 fileParamName filename fieldParams debugInfo).2.2 = none ∧
    (addFile sup (Except.ok f) rnd1 rnd2 fileParamName filename fieldParams debugInfo).1.step =
      sup.step ∧
    (addFile sup (Except.ok f) rnd1 rnd2 fileParamName filename fieldParams debugInfo).1.file =
      some f := by
  unfold addFile
  dsimp only
  refine ⟨rfl, ?_, ?_⟩
  · split <;> split <;> (try split) <;> rfl
  · split <;> split <;> (try split) <;> rfl

/-- C7: the phase is monotonic. A body that `NewStreamFileUploadBody` returns
starts in phase HEAD (step 0); the phases are ordered HEAD < BODY < TAIL; for
every receiver and buffer the phase after `Read` is at least the phase before;
and `Close` does not change the phase. -/
theorem C7_phase_monotonic :
    (∀ (f : File) (rnd1 rnd2 : List Byte) (fileParamName filename : GoString)
        (fieldParams : List (GoString × GoString)) (debugInfo : Option UpDebugInfo),
      ∃ up contentType,
        NewStreamFileUploadBody (Except.ok f) rnd1 rnd2 fileParamName filename fieldParams
          debugInfo = (some up, contentType, none) ∧ up.step = readFirstSegStep) ∧
    readFirstSegStep < readFileContentStep ∧ readFileContentStep < readLastSegStep ∧
    (∀ (w : World) (sup : streamUpload) (p : List Byte), sup.step ≤ (Read w sup p).sup.step) ∧
    (∀ sup : streamUpload, (Close sup).1.step = sup.step) := by
  refine ⟨?_, by decide, by decide, ?_, ?_⟩
  · intro f rnd1 rnd2 fileParamName filename fieldParams debugInfo
    obtain ⟨h1, h2, _⟩ := addFile_ok zeroStreamUpload f rnd1 rnd2 fileParamName filename
      fieldParams debugInfo
    unfold NewStreamFileUploadBody
    rcases h : addFile zeroStreamUpload (Except.ok f) rnd1 rnd2 fileParamName filename
      fieldParams debugInfo with ⟨up, ct, e⟩
    rw [h] at h1 h2
    dsimp only at h1 h2
    subst h1
    exact ⟨up, ct, rfl, h2⟩
  · intro w sup p
    rcases (Read_basic w sup p).2.2.2.1 with h | ⟨h1, h2⟩ | ⟨h1, h2⟩ | ⟨h1, h2⟩
    · rw [h]
    · rw [h1, h2]; decide
    · rw [h1, h2]; decide
    · rw [h1, h2]; decide
  · intro sup
    unfold Close
    cases h : sup.file <;> simp [h]

/-- When the tail branch empties a tail that was not empty, the bytes
delivered end with the whole tail and the error is nil or `io.EOF`. -/
theorem readTail_drains (w : World) (sup : streamUpload) (p : List Byte) (gotLen : Nat)
    (hg : gotLen ≤ p.length) (hne : sup.lastSeg ≠ [])
    (hd : (readTail w sup p gotLen).sup.lastSeg = []) :
    (readTail w sup p gotLen).sup.step = readLastSegStep ∧
    (readTail w sup p gotLen).p.take (readTail w sup p gotLen).n = p.take gotLen ++ sup.lastSeg ∧
    ((readTail w sup p gotLen).err = none ∨ (readTail w sup p gotLen).err = some GoError.EOF) := by
  by_cases hs : sup.step = readLastSegStep
  · have hstep := (readTail_basic w sup p gotLen hg).2.2.2.2.1
    rw [readTail_eq w sup p gotLen hs hg] at hd hstep ⊢
    obtain ⟨t1, t2, t3, t4, t5, t6, t7⟩ := toDebugFile_frame w
      { sup with lastSeg := sup.lastSeg.drop (p.length - gotLen) }
      (writeAt p gotLen (sup.lastSeg.take (p.length - gotLen)))
      (gotLen + (sup.lastSeg.take (p.length - gotLen)).length)
    obtain ⟨c1, c2, c3, c4, c5, c6, c7, c8⟩ := closeDebugOutFile_frame (toDebugFile w
      { sup with lastSeg := sup.lastSeg.drop (p.length - gotLen) }
      (writeAt p gotLen (sup.lastSeg.take (p.length - gotLen)))
      (gotLen + (sup.lastSeg.take (p.length - gotLen)).length)).2
    have hdrop : sup.lastSeg.drop (p.length - gotLen) = [] := by
      split at hd
      · dsimp only at hd; rw [c3, t3] at hd; exact hd
      · dsimp only at hd; rw [t3] at hd; exact hd
    have htake : sup.lastSeg.take (p.length - gotLen) = sup.lastSeg :=
      List.take_of_length_le (List.drop_eq_nil_iff.mp hdrop)
    refine ⟨by rw [hstep]; exact hs, ?_, ?_⟩
    · split
      · dsimp only; rw [htake]; exact take_writeAt p gotLen sup.lastSeg hg
      · dsimp only; rw [htake]; exact take_writeAt p gotLen sup.lastSeg hg
    · split
      · right; rfl
      · left; rfl
  · simp only [readTail, hs, if_false] at hd
    exact absurd hd hne

/-- When the file branch and the tail branch empty a tail that was not empty,
the bytes delivered end with the whole tail, the phase is TAIL and the error
is nil or `io.EOF`. -/
theorem readBody_drains (w : World) (sup : streamUpload) (p : List Byte) (gotLen : Nat)
    (hg : gotLen ≤ p.length) (hne : sup.lastSeg ≠ [])
    (hd : (readBody w sup p gotLen).sup.lastSeg = []) :
    (readBody w sup p gotLen).sup.step = readLastSegStep ∧
    (∃ pre, (readBody w sup p gotLen).p.take (readBody w sup p gotLen).n = pre ++ sup.lastSeg) ∧
    ((readBody w sup p gotLen).err = none ∨ (readBody w sup p gotLen).err = some GoError.EOF) := by
  by_cases hs : sup.step = readFileContentStep
  · have hb := bodyLoop_basic (p.length + 1) sup p gotLen hg (by omega)
    unfold readBody at hd ⊢
    rw [if_pos hs] at hd ⊢
    rcases hloop : bodyLoop (p.length + 1) sup p gotLen with ⟨sup1, p1, g1, ex⟩
    rw [hloop] at hb hd
    obtain ⟨b1, b2, b3, b4, b5, b6, b7, b8, b9, b10, b11, b12⟩ := hb
    dsimp only at b1 b2 b3 b4 b5 b6 b7 b8 b9 b10 b11 b12
    rcases b12 with ⟨e, hex, _, _⟩ | ⟨hex, hst, hlt⟩ | ⟨hex, hst, heq⟩
    · subst hex
      dsimp only at hd
      rw [b6] at hd
      exact absurd hd hne
    · subst hex
      dsimp only at hd ⊢
      rw [if_neg (by omega)] at hd ⊢
      obtain ⟨d1, d2, d3⟩ := readTail_drains w sup1 p1 g1 (by omega) (by rw [b6]; exact hne) hd
      exact ⟨d1, ⟨p1.take g1, by rw [d2, b6]⟩, d3⟩
    · subst hex
      dsimp only at hd
      rw [if_pos heq] at hd
      dsimp only at hd
      rw [(toDebugFile_frame w sup1 p1 g1).2.2.1, b6] at hd
      exact absurd hd hne
  · unfold readBody at hd ⊢
    rw [if_neg hs] at hd ⊢
    obtain ⟨d1, d2, d3⟩ := readTail_drains w sup p gotLen hg hne hd
    exact ⟨d1, ⟨p.take gotLen, d2⟩, d3⟩

/-- When a `Read` call empties a tail that was not empty, the bytes delivered
end with the whole tail, the phase is TAIL and the error is nil or `io.EOF`. -/
theorem Read_drains (w : World) (sup : streamUpload) (p : List Byte)
    (hne : sup.lastSeg ≠ []) (hd : (Read w sup p).sup.lastSeg = []) :
    (Read w sup p).sup.step = readLastSegStep ∧
    (∃ pre, (Read w sup p).p.take (Read w sup p).n = pre ++ sup.lastSeg) ∧
    ((Read w sup p).err = none ∨ (Read w sup p).err = some GoError.EOF) := by
  by_cases hs : sup.step = readFirstSegStep
  · rcases Read_head_cases sup p with ⟨hh, hp⟩ | ⟨hp, hle⟩ | hlt
    · rw [Read_head_drained w sup p hs hh hp] at hd
      exact absurd hd hne
    · rw [Read_head_full w sup p hs hp hle] at hd
      dsimp only at hd
      rw [(toDebugFile_frame w _ _ _).2.2.1] at hd
      exact absurd hd hne
    · rw [Read_head_through w sup p hs hlt] at hd ⊢
      exact readBody_drains w _ _ _ (by rw [writeAt_length _ _ _ (by simp)]; simp) hne hd
  · rw [Read_not_head w sup p hs] at hd ⊢
    exact readBody_drains w sup p 0 (Nat.zero_le _) hne hd

/-- The `for` loop of `Read` and the script of the file source: the loop uses
up a prefix of the script; either all the outcomes used are chunks, or the
last one is a failure and the loop ends with `return 0, err` for its error,
the phase untouched. -/
theorem bodyLoop_script (fuel : Nat) (sup : streamUpload) (p : List Byte) (gotLen : Nat)
    (f : File) (hfile : sup.file = some f)
    (hg : gotLen ≤ p.length) (hf : p.length - gotLen < fuel) :
    ∃ f1 used, (bodyLoop fuel sup p gotLen).1.file = some f1 ∧ f.script = used ++ f1.script ∧
      (((∀ e ∈ used, ∃ k, e = ReadEvent.chunk k) ∧
          ∀ err, (bodyLoop fuel sup p gotLen).2.2.2 ≠ LoopExit.abort err) ∨
       (∃ pre c, used = pre ++ [ReadEvent.fail c] ∧
          (bodyLoop fuel sup p gotLen).2.2.2 = LoopExit.abort (some (GoError.sys c)) ∧
          (bodyLoop fuel sup p gotLen).1.step = sup.step)) := by
  induction fuel generalizing sup p gotLen f with
  | zero => omega
  | succ fuel ih =>
    rcases File.Read_cases sup.file (p.length - gotLen) with
      ⟨hn, hr⟩ | ⟨f0, hfile0, hz, hr⟩ | ⟨f0, c, rest, hfile0, hpos, hs, hr⟩ |
      ⟨f0, f1, hfile0, hpos, hd, hd1, hc, hsc, hr⟩ |
      ⟨f0, f1, data, hfile0, hpos, hd, hlen, hle, hc, hsc, hr⟩
    · rw [hn] at hfile; cases hfile
    · rw [bodyLoop_zero fuel sup p gotLen _ (by omega) hr]
      exact ⟨f, [], hfile, by simp, Or.inl ⟨by simp, by simp⟩⟩
    · have : f0 = f := by rw [hfile0] at hfile; exact Option.some.inj hfile
      subst this
      rw [bodyLoop_abort fuel sup p gotLen _ _ (by simp) hr]
      exact ⟨_, [ReadEvent.fail c], rfl, by simp [hs], Or.inr ⟨[], c, rfl, rfl, rfl⟩⟩
    · have : f0 = f := by rw [hfile0] at hfile; exact Option.some.inj hfile
      subst this
      obtain ⟨pre, hp1, hp2⟩ := hsc
      rw [bodyLoop_eof fuel sup p gotLen _ hr]
      exact ⟨f1, pre, rfl, hp1, Or.inl ⟨hp2, by simp⟩⟩
    · have : f0 = f := by rw [hfile0] at hfile; exact Option.some.inj hfile
      subst this
      obtain ⟨pre, hp1, hp2⟩ := hsc
      have hwl : (writeAt p gotLen data).length = p.length := writeAt_length _ _ _ (by omega)
      by_cases hfull : gotLen + data.length = p.length
      · rw [bodyLoop_full fuel sup p gotLen _ data hlen hfull hr]
        exact ⟨f1, pre, rfl, hp1, Or.inl ⟨hp2, by simp⟩⟩
      · rw [bodyLoop_more fuel sup p gotLen _ data hlen hfull hr]
        obtain ⟨f2, used, i1, i2, i3⟩ :=
          ih { sup with file := some f1, outFileLen := sup.outFileLen + data.length }
            (writeAt p gotLen data) (gotLen + data.length) f1 rfl (by omega) (by omega)
        refine ⟨f2, pre ++ used, i1, by rw [hp1, i2, List.append_assoc], ?_⟩
        rcases i3 with ⟨j1, j2⟩ | ⟨pre2, c, j1, j2, j3⟩
        · left
          refine ⟨?_, j2⟩
          intro e he
          rcases List.mem_append.mp he with h | h
          · exact hp2 e h
          · exact j1 e h
        · right
          exact ⟨pre ++ pre2, c, by rw [j1, List.append_assoc], j2, j3⟩

/-- The file and tail branches of `Read` and the script of the file source:
either all the outcomes used are chunks, or the last one is a failure and the
call returns 0 bytes with its error in phase BODY. -/
theorem readBody_script (w : World) (sup : streamUpload) (p : List Byte) (gotLen : Nat)
    (f : File) (hfile : sup.file = some f) (hg : gotLen ≤ p.length) :
    ∃ f1 used, (readBody w sup p gotLen).sup.file = some f1 ∧ f.script = used ++ f1.script ∧
      ((∀ e ∈ used, ∃ k, e = ReadEvent.chunk k) ∨
       (∃ pre c, used = pre ++ [ReadEvent.fail c] ∧
          (readBody w sup p gotLen).err = some (GoError.sys c) ∧
          (readBody w sup p gotLen).n = 0 ∧
          (readBody w sup p gotLen).sup.step = readFileContentStep)) := by
  by_cases hs : sup.step = readFileContentStep
  · have hb := bodyLoop_basic (p.length + 1) sup p gotLen hg (by omega)
    have hsc := bodyLoop_script (p.length + 1) sup p gotLen f hfile hg (by omega)
    unfold readBody
    rw [if_pos hs]
    rcases hloop : bodyLoop (p.length + 1) sup p gotLen with ⟨sup1, p1, g1, ex⟩
    rw [hloop] at hb hsc
    obtain ⟨b1, b2, b3, b4, b5, b6, b7, b8, b9, b10, b11, b12⟩ := hb
    obtain ⟨f1, used, s1, s2, s3⟩ := hsc
    dsimp only at b1 b2 b3 b4 b5 b6 b7 b8 b9 b10 b11 b12 s1 s3
    rcases s3 with ⟨j1, j2⟩ | ⟨pre, c, j1, j2, j3⟩
    · rcases b12 with ⟨e, hex, _, _⟩ | ⟨hex, hst, hlt⟩ | ⟨hex, hst, heq⟩
      · exact absurd hex (j2 _)
      · subst hex
        dsimp only
        rw [if_neg (by omega)]
        obtain ⟨f2, k1, k2, _⟩ := (readTail_file w sup1 p1 g1 (by omega)).1 f1 s1
        exact ⟨f2, used, k1, by rw [k2]; exact s2, Or.inl j1⟩
      · subst hex
        dsimp only
        rw [if_pos heq]
        dsimp only
        obtain ⟨f2, k1, k2, _⟩ := toDebugFile_file_some w sup1 p1 g1 f1 s1
        exact ⟨f2, used, k1, by rw [k2]; exact s2, Or.inl j1⟩
    · subst j2
      dsimp only
      exact ⟨f1, used, s1, s2, Or.inr ⟨pre, c, j1, rfl, rfl, by rw [j3]; exact hs⟩⟩
  · unfold readBody
    rw [if_neg hs]
    obtain ⟨f2, k1, k2, _⟩ := (readTail_file w sup p gotLen hg).1 f hfile
    exact ⟨f2, [], k1, by rw [k2]; simp, Or.inl (by simp)⟩

/-- Method `Read` and the script of the file source: either all the outcomes
used are chunks, or the last one is a failure and the call returns 0 bytes
with its error in phase BODY. -/
theorem Read_script (w : World) (sup : streamUpload) (p : List Byte)
    (f : File) (hfile : sup.file = some f) :
    ∃ f1 used, (Read w sup p).sup.file = some f1 ∧ f.script = used ++ f1.script ∧
      ((∀ e ∈ used, ∃ k, e = ReadEvent.chunk k) ∨
       (∃ pre c, used = pre ++ [ReadEvent.fail c] ∧
          (Read w sup p).err = some (GoError.sys c) ∧
          (Read w sup p).n = 0 ∧
          (Read w sup p).sup.step = readFileContentStep)) := by
  by_cases hs : sup.step = readFirstSegStep
  · rcases Read_head_cases sup p with ⟨hh, hp⟩ | ⟨hp, hle⟩ | hlt
    · rw [Read_head_drained w sup p hs hh hp]
      exact ⟨f, [], hfile, by simp, Or.inl (by simp)⟩
    · rw [Read_head_full w sup p hs hp hle]
      dsimp only
      obtain ⟨f2, k1, k2, _⟩ := toDebugFile_file_some w
        { sup with firstSeg := sup.firstSeg.drop p.length } (sup.firstSeg.take p.length)
        p.length f hfile
      exact ⟨f2, [], k1, by rw [k2]; simp, Or.inl (by simp)⟩
    · rw [Read_head_through w sup p hs hlt]
      exact readBody_script w _ _ _ f hfile (by rw [writeAt_length _ _ _ (by simp)]; simp)
  · rw [Read_not_head w sup p hs]
    exact readBody_script w sup p 0 f hfile (Nat.zero_le _)

/-- C8: a file read failure is propagated and does not advance the phase.
When the reads of a `Read` call on the file source use up its script as far as
a failure with error `e` (the script before the call is `pre`, the failure,
then the script left after the call), the call returns exactly `e` with 0
bytes and the phase after the call is BODY, not TAIL. The file source is read
only in phases HEAD and BODY, so this covers every such receiver. -/
theorem C8_file_error_propagated (w : World) (sup : streamUpload) (p : List Byte)
    (f f1 : File) (pre : List ReadEvent) (c : Nat)
    (hfile : sup.file = some f) (hfile1 : (Read w sup p).sup.file = some f1)
    (hscript : f.script = pre ++ ReadEvent.fail c :: f1.script) :
    (Read w sup p).err = some (GoError.sys c) ∧
    (Read w sup p).n = 0 ∧
    (Read w sup p).sup.step = readFileContentStep ∧
    (Read w sup p).sup.step ≠ readLastSegStep ∧
    (sup.step = readFirstSegStep ∨ sup.step = readFileContentStep) := by
  obtain ⟨f2, used, s1, s2, s3⟩ := Read_script w sup p f hfile
  have hf2 : f2 = f1 := by rw [s1] at hfile1; exact Option.some.inj hfile1
  subst hf2
  have hused : used = pre ++ [ReadEvent.fail c] := by
    have : used ++ f2.script = (pre ++ [ReadEvent.fail c]) ++ f2.script := by
      rw [← s2, hscript]; simp
    exact List.append_cancel_right this
  have hstep := (Read_basic w sup p).2.2.2.1
  rcases s3 with j | ⟨pre2, c2, j1, j2, j3, j4⟩
  · obtain ⟨k, hk⟩ := j (ReadEvent.fail c) (by rw [hused]; simp)
    cases hk
  · have hc : c2 = c := by
      have h := congrArg List.getLast? (j1.symm.trans hused)
      simp at h
      exact h
    subst hc
    refine ⟨j2, j3, j4, by rw [j4]; decide, ?_⟩
    rw [j4] at hstep
    rcases hstep with h | ⟨h, _⟩ | ⟨_, h⟩ | ⟨_, h⟩
    · right; exact h.symm
    · left; exact h
    · exact absurd h (by decide)
    · exact absurd h (by decide)

set_option maxRecDepth 100000 in
/-- C8 at Scenario A when the file source hands over 2 bytes and then fails
with error 5: a read of 500 bytes in phase HEAD returns that error. -/
theorem C8_file_error_propagated_witness :
    (Read world0 { scenarioA with file := some ⟨lit "hello", [ReadEvent.chunk 2, ReadEvent.fail 5], none, 0⟩ }
      (List.replicate 500 0)).err = some (GoError.sys 5) ∧
    (Read world0 { scenarioA with file := some ⟨lit "hello", [ReadEvent.chunk 2, ReadEvent.fail 5], none, 0⟩ }
      (List.replicate 500 0)).sup.step = readFileContentStep :=
  have h := C8_file_error_propagated world0
    { scenarioA with file := some ⟨lit "hello", [ReadEvent.chunk 2, ReadEvent.fail 5], none, 0⟩ }
    (List.replicate 500 0) ⟨lit "hello", [ReadEvent.chunk 2, ReadEvent.fail 5], none, 0⟩
    ⟨lit "llo", [], none, 2⟩ [ReadEvent.chunk 2] 5 (by decide) (by decide) (by decide)
  ⟨h.1, h.2.2.1⟩

set_option maxRecDepth 100000 in
/-- C1 fails on the code at Scenario A read one byte at a time: the reads
deliver the head and then the first read after the head returns
`(0, io.EOF)` in phase HEAD; neither the file content `hello` nor the tail is
ever delivered, so the stream is not `head ++ F ++ tail`. -/
theorem C1_one_byte_reads_stop_after_head :
    readUntilErr world0 scenarioA (List.replicate 200 1) =
      (world0, { scenarioA with firstSeg := [] }, scenarioA.firstSeg, some GoError.EOF) ∧
    scenarioA.firstSeg ≠ scenarioA.firstSeg ++ lit "hello" ++ scenarioA.lastSeg := by
  decide

set_option maxRecDepth 100000 in
/-- C2 fails on the code at Scenario A: after a read whose buffer has exactly
the length of the head, the phase is still HEAD, and the next read, of one
byte, returns `(0, io.EOF)` in phase HEAD although the file source still holds
`hello` and the tail buffer still holds the closing boundary. -/
theorem C2_eof_in_head_phase :
    run world0 scenarioA
        [Call.read (List.replicate scenarioA.firstSeg.length 0), Call.read [0]] =
      (world0, { scenarioA with firstSeg := [] },
        [⟨scenarioA.firstSeg, scenarioA.firstSeg.length, none⟩, ⟨[], 0, some GoError.EOF⟩]) ∧
    (Read world0 scenarioA (List.replicate scenarioA.firstSeg.length 0)).sup.step =
      readFirstSegStep ∧
    scenarioA.step = readFirstSegStep ∧
    scenarioA.file = some ⟨lit "hello", [], none, 0⟩ ∧
    scenarioA.lastSeg = lit "\r\n--XYZ--\r\n" := by
  decide

/-- A string without bytes to escape goes through `escapeQuotes` unchanged. -/
theorem escapeQuotes_id (s : GoString) (h : needsNoEscape s) : escapeQuotes s = s := by
  induction s with
  | nil => rfl
  | cons b bs ih =>
    have hb := h b (List.mem_cons_self _ _)
    have ih' := ih (fun c hc => h c (List.mem_cons_of_mem _ hc))
    simp [escapeQuotes, hb.1, hb.2.1, hb.2.2.1, hb.2.2.2, ih']

/-- The writer of the head has created no part yet. -/
theorem headWriter_lastpart (rnd1 : List Byte) (debugInfo : Option UpDebugInfo) :
    (headWriter rnd1 debugInfo).lastpart = false := by
  unfold headWriter
  cases debugInfo with
  | none => rfl
  | some d =>
    dsimp only
    split
    · unfold Writer.SetBoundary
      simp only [NewWriter]
      split
      · rfl
      · split <;> (try split) <;> rfl
    · rfl

/-- The head buffer `addFile` fills on a fresh receiver: what
`CreateFormFile` writes for the boundary in use. -/
theorem addFile_firstSeg (f : File) (rnd1 rnd2 : List Byte)
    (fileParamName filename : GoString) (fieldParams : List (GoString × GoString))
    (debugInfo : Option UpDebugInfo) :
    (addFile zeroStreamUpload (Except.ok f) rnd1 rnd2 fileParamName filename fieldParams
      debugInfo).1.firstSeg =
      ((headWriter rnd1 debugInfo).CreateFormFile fileParamName (Base filename)).2 := by
  unfold addFile
  dsimp only
  split <;> split <;> (try split) <;> simp [zeroStreamUpload]

/-- C9, as the code has it: the head layout. For every field name `N` and file
path `P` such that neither `N` nor the base name `B` of `P` holds a byte that
`escapeQuotes` replaces, and for the boundary `b` in use, the head buffer
built by `addFile` is `--b\r\n`, the `Content-Disposition` line with `N` and
`B`, the `Content-Type` line for `application/octet-stream` and an empty line.
It holds no file content: it is the same for every file `f`. -/
theorem C9_head_layout (f : File) (rnd1 rnd2 : List Byte) (N P : GoString)
    (fieldParams : List (GoString × GoString)) (debugInfo : Option UpDebugInfo)
    (hN : needsNoEscape N) (hB : needsNoEscape (Base P)) :
    (addFile zeroStreamUpload (Except.ok f) rnd1 rnd2 N P fieldParams debugInfo).1.firstSeg =
      lit "--" ++ (headWriter rnd1 debugInfo).boundary ++ lit "\r\n" ++
      lit "Content-Disposition: form-data; name=\"" ++ N ++ lit "\"; filename=\"" ++ Base P ++
      lit "\"\r\n" ++ lit "Content-Type: application/octet-stream\r\n\r\n" := by
  rw [addFile_firstSeg]
  unfold Writer.CreateFormFile Writer.CreatePart
  rw [headWriter_lastpart, escapeQuotes_id N hN, escapeQuotes_id (Base P) hB]
  have h1 : lit "Content-Disposition: form-data; name=\"" =
      lit "Content-Disposition" ++ lit ": " ++ lit "form-data; name=\"" := by decide
  have h2 : lit "\"\r\n" = lit "\"" ++ lit "\r\n" := by decide
  have h3 : lit "Content-Type: application/octet-stream\r\n\r\n" =
      lit "Content-Type" ++ lit ": " ++ lit "application/octet-stream" ++ lit "\r\n" ++
      lit "\r\n" := by decide
  rw [h1, h2, h3]
  simp [List.append_assoc]

/-- C9 at field name `file` and path `a.txt`. -/
theorem C9_head_layout_witness :
    needsNoEscape (lit "file") ∧ needsNoEscape (Base (lit "dir/a.txt")) ∧
    (addFile zeroStreamUpload (Except.ok scenarioAFile) [] [] (lit "file") (lit "dir/a.txt") []
      (some ⟨lit "XYZ", []⟩)).1.firstSeg =
      lit "--" ++ (headWriter [] (some ⟨lit "XYZ", []⟩)).boundary ++ lit "\r\n" ++
      lit "Content-Disposition: form-data; name=\"" ++ lit "file" ++ lit "\"; filename=\"" ++
      Base (lit "dir/a.txt") ++
      lit "\"\r\n" ++ lit "Content-Type: application/octet-stream\r\n\r\n" :=
  ⟨by decide, by decide,
   C9_head_layout scenarioAFile [] [] (lit "file") (lit "dir/a.txt") []
     (some ⟨lit "XYZ", []⟩) (by decide) (by decide)⟩

/-- C9 as stated fails for a field name with a double quote: for the field name
`a"b`, the path `a.txt` (whose base name needs no escaping) and the boundary
`XYZ`, the head holds `name="a\"b"`, not `name="a"b"`. -/
theorem C9_field_name_escaped :
    needsNoEscape (Base (lit "a.txt")) ∧
    (addFile zeroStreamUpload (Except.ok scenarioAFile) [] [] (lit "a\"b") (lit "a.txt") []
      (some ⟨lit "XYZ", []⟩)).1.firstSeg ≠
      lit "--" ++ (headWriter [] (some ⟨lit "XYZ", []⟩)).boundary ++ lit "\r\n" ++
      lit "Content-Disposition: form-data; name=\"" ++ lit "a\"b" ++ lit "\"; filename=\"" ++
      Base (lit "a.txt") ++
      lit "\"\r\n" ++ lit "Content-Type: application/octet-stream\r\n\r\n" ∧
    (addFile zeroStreamUpload (Except.ok scenarioAFile) [] [] (lit "a\"b") (lit "a.txt") []
      (some ⟨lit "XYZ", []⟩)).1.firstSeg =
      lit "--XYZ\r\nContent-Disposition: form-data; name=\"a\\\"b\"; filename=\"a.txt\"\r\nContent-Type: application/octet-stream\r\n\r\n" := by
  decide

set_option maxRecDepth 100000 in
/-- C10, as the code has it: Scenario A. The stream `head ++ file ++ tail` is
the head for `name="file"`, `filename="a.txt"`, then `hello`, then
`\r\n--XYZ--\r\n`: the closing boundary line ends with a CRLF, after which
nothing follows. One `Read` with a buffer of 500 bytes delivers exactly this
stream and returns `io.EOF`. -/
theorem C10_scenario_A_stream :
    scenarioA.firstSeg =
      lit "--XYZ\r\nContent-Disposition: form-data; name=\"file\"; filename=\"a.txt\"\r\nContent-Type: application/octet-stream\r\n\r\n" ∧
    scenarioA.firstSeg ++ lit "hello" ++ scenarioA.lastSeg =
      scenarioA.firstSeg ++ lit "hello\r\n--XYZ--\r\n" ∧
    (Read world0 scenarioA (List.replicate 500 0)).p.take
        (Read world0 scenarioA (List.replicate 500 0)).n =
      scenarioA.firstSeg ++ lit "hello\r\n--XYZ--\r\n" ∧
    (Read world0 scenarioA (List.replicate 500 0)).err = some GoError.EOF := by
  decide

/-- C10 as stated fails: the stream of Scenario A is not the head followed by
`hello\r\n--XYZ--`; the two bytes `\r\n` follow the closing boundary. -/
theorem C10_trailing_crlf :
    scenarioA.firstSeg ++ lit "hello" ++ scenarioA.lastSeg ≠
      scenarioA.firstSeg ++ lit "hello\r\n--XYZ--" ∧
    scenarioA.lastSeg = lit "\r\n--XYZ--" ++ lit "\r\n" := by
  decide

/-- Method `SetBoundary` on a writer without parts and an accepted boundary
sets the boundary. -/
theorem SetBoundary_accepted (w : Writer) (s : GoString) (hw : w.lastpart = false)
    (hs : boundaryAccepted s) : w.SetBoundary s = ({ w with boundary := s }, none) := by
  obtain ⟨h1, h2, h3⟩ := hs
  unfold Writer.SetBoundary
  rw [if_neg (by simp [hw]), if_neg (by omega), if_pos h3]

/-- Method `SetBoundary` with a boundary that is not accepted leaves the
writer as it is. -/
theorem SetBoundary_rejected (w : Writer) (s : GoString) (hs : ¬ boundaryAccepted s) :
    (w.SetBoundary s).1 = w := by
  unfold Writer.SetBoundary
  split
  · rfl
  · split
    · rfl
    · split
      · rename_i h1 h2 h3
        exact absurd ⟨by omega, by omega, h3⟩ hs
      · rfl

/-- A hexadecimal digit is a byte `SetBoundary` allows in every place. -/
theorem hexDigit_ok (n : Nat) (hn : n < 16) (i e : Nat) :
    boundaryByteOk (hexDigit n) i e = true := by
  have h : (48 ≤ hexDigit n ∧ hexDigit n ≤ 57) ∨ (97 ≤ hexDigit n ∧ hexDigit n ≤ 122) := by
    interval_cases n <;> decide
  unfold boundaryByteOk
  rcases h with ⟨h1, h2⟩ | ⟨h1, h2⟩
  · simp [h1, h2]
  · simp [h1, h2]

/-- The boundary made of random bytes has two bytes for each of them. -/
theorem randomBoundary_length (rnd : List Byte) :
    (randomBoundary rnd).length = 2 * rnd.length := by
  induction rnd with
  | nil => rfl
  | cons b bs ih => simp [randomBoundary, ih]; omega

/-- Every byte of the boundary made of random bytes is allowed. -/
theorem randomBoundary_bytesOk (rnd : List Byte) (e i : Nat) :
    boundaryBytesOk e i (randomBoundary rnd) = true := by
  induction rnd generalizing i with
  | nil => rfl
  | cons b bs ih =>
    have h1 : b.toNat / 16 < 16 := by
      have := b.toNat_lt; omega
    have h2 : b.toNat % 16 < 16 := Nat.mod_lt _ (by decide)
    simp [randomBoundary, boundaryBytesOk, hexDigit_ok _ h1, hexDigit_ok _ h2, ih]

/-- The boundary `NewWriter` makes of its 30 random bytes is accepted by
`SetBoundary`. -/
theorem randomBoundary_accepted (rnd : List Byte) (h : rnd.length = 30) :
    boundaryAccepted (randomBoundary rnd) := by
  have hl := randomBoundary_length rnd
  exact ⟨by omega, by omega, randomBoundary_bytesOk rnd _ _⟩

/-- The boundary of the head writer: the override when there is one and it is
accepted, else the random boundary. -/
theorem headWriter_boundary (rnd1 : List Byte) (debugInfo : Option UpDebugInfo) :
    (headWriter rnd1 debugInfo).boundary =
      match debugInfo with
      | some d => if boundaryAccepted d.DebugBoundary then d.DebugBoundary
                  else randomBoundary rnd1
      | none => randomBoundary rnd1 := by
  unfold headWriter
  cases debugInfo with
  | none => rfl
  | some d =>
    dsimp only
    by_cases hs : boundaryAccepted d.DebugBoundary
    · rw [if_pos (by have := hs.1; omega), if_pos hs,
        SetBoundary_accepted _ _ rfl hs]
    · rw [if_neg hs]
      split
      · rw [SetBoundary_rejected _ _ hs]; rfl
      · rfl

/-- With 30 random bytes drawn, the boundary of the head writer is one
`SetBoundary` accepts. -/
theorem headWriter_boundary_accepted (rnd1 : List Byte) (debugInfo : Option UpDebugInfo)
    (h : rnd1.length = 30) : boundaryAccepted (headWriter rnd1 debugInfo).boundary := by
  rw [headWriter_boundary]
  cases debugInfo with
  | none => exact randomBoundary_accepted rnd1 h
  | some d =>
    dsimp only
    split
    · assumption
    · exact randomBoundary_accepted rnd1 h

/-- When the boundary of the head writer is accepted, the tail writer has the
same boundary and no part yet. -/
theorem tailWriter_eq (rnd1 rnd2 : List Byte) (debugInfo : Option UpDebugInfo)
    (h : boundaryAccepted (headWriter rnd1 debugInfo).boundary) :
    tailWriter rnd1 rnd2 debugInfo = ⟨(headWriter rnd1 debugInfo).boundary, false⟩ := by
  unfold tailWriter
  rw [SetBoundary_accepted _ _ rfl h]
  rfl

/-- The tail buffer `addFile` fills on a fresh receiver: a CRLF when there
are extra fields, what `WriteField` writes for each, and what `Close` writes. -/
theorem addFile_lastSeg (f : File) (rnd1 rnd2 : List Byte)
    (fileParamName filename : GoString) (fieldParams : List (GoString × GoString))
    (debugInfo : Option UpDebugInfo) :
    (addFile zeroStreamUpload (Except.ok f) rnd1 rnd2 fileParamName filename fieldParams
      debugInfo).1.lastSeg =
      (if fieldParams.length > 0 then lit "\r\n" else []) ++
      (writeFields (tailWriter rnd1 rnd2 debugInfo) fieldParams).2 ++
      ((writeFields (tailWriter rnd1 rnd2 debugInfo) fieldParams).1.Close).2 := by
  unfold addFile tailWriter
  dsimp only
  have hb : ((headWriter rnd1 debugInfo).CreateFormFile fileParamName (Base filename)).1.boundary
      = (headWriter rnd1 debugInfo).boundary := rfl
  rw [hb]
  split <;> split <;> (try split) <;> simp_all [zeroStreamUpload]

/-- The content type `addFile` returns: the boundary of the head writer, in
double quotes when `FormDataContentType` finds a special character in it. -/
theorem addFile_contentType (sup : streamUpload) (f : File) (rnd1 rnd2 : List Byte)
    (fileParamName filename : GoString) (fieldParams : List (GoString × GoString))
    (debugInfo : Option UpDebugInfo) :
    (addFile sup (Except.ok f) rnd1 rnd2 fileParamName filename fieldParams debugInfo).2.1 =
      lit "multipart/form-data; boundary=" ++
        (if needsQuoting (headWriter rnd1 debugInfo).boundary then
          lit "\"" ++ (headWriter rnd1 debugInfo).boundary ++ lit "\""
         else (headWriter rnd1 debugInfo).boundary) := by
  unfold addFile
  dsimp only
  unfold Writer.FormDataContentType needsQuoting
  rfl

/-- Method `WriteField` and the loop over the extra fields keep the boundary
and leave a part created. -/
theorem writeFields_writer (w : Writer) (fields : List (GoString × GoString)) :
    (writeFields w fields).1.boundary = w.boundary ∧
    (fields ≠ [] → (writeFields w fields).1.lastpart = true) := by
  induction fields generalizing w with
  | nil => simp [writeFields]
  | cons kv rest ih =>
    obtain ⟨k, v⟩ := kv
    simp only [writeFields, Writer.WriteField, Writer.CreatePart]
    obtain ⟨i1, i2⟩ := ih { w with lastpart := true }
    refine ⟨i1, fun _ => ?_⟩
    cases rest with
    | nil => rfl
    | cons kv2 rest2 => exact i2 (by simp)

/-- What the loop over the extra fields writes when a part exists already:
for each field a CRLF and the part without its closing CRLF. -/
theorem writeFields_bytes (w : Writer) (fields : List (GoString × GoString))
    (hw : w.lastpart = true) (hk : ∀ kv ∈ fields, needsNoEscape kv.1) :
    (writeFields w fields).2 =
      (fields.map (fun kv => lit "\r\n" ++ fieldCore w.boundary kv)).flatten := by
  induction fields generalizing w with
  | nil => simp [writeFields]
  | cons kv rest ih =>
    obtain ⟨k, v⟩ := kv
    have hk1 : needsNoEscape k := hk (k, v) (List.mem_cons_self _ _)
    have ih' := ih { w with lastpart := true } rfl
      (fun kv h => hk kv (List.mem_cons_of_mem _ h))
    simp only [writeFields, Writer.WriteField, Writer.CreatePart, hw, if_true]
    rw [ih', escapeQuotes_id k hk1]
    have h1 : lit "\r\n--" = lit "\r\n" ++ lit "--" := by decide
    have h2 : lit "\r\nContent-Disposition: form-data; name=\"" =
        lit "\r\n" ++ lit "Content-Disposition" ++ lit ": " ++ lit "form-data; name=\"" := by
      decide
    have h3 : lit "\"\r\n\r\n" = lit "\"" ++ lit "\r\n" ++ lit "\r\n" := by decide
    simp only [fieldCore, h1, h2, h3]
    simp [List.append_assoc]

/-- What the loop over the extra fields writes on a writer without parts: the
first part without the CRLF in front. -/
theorem writeFields_bytes_first (w : Writer) (kv : GoString × GoString)
    (rest : List (GoString × GoString))
    (hw : w.lastpart = false) (hk : ∀ x ∈ kv :: rest, needsNoEscape x.1) :
    (writeFields w (kv :: rest)).2 =
      fieldCore w.boundary kv ++
        (rest.map (fun x => lit "\r\n" ++ fieldCore w.boundary x)).flatten := by
  obtain ⟨k, v⟩ := kv
  have hk1 : needsNoEscape k := hk (k, v) (List.mem_cons_self _ _)
  have hr := writeFields_bytes { w with lastpart := true } rest rfl
    (fun x h => hk x (List.mem_cons_of_mem _ h))
  simp only [writeFields, Writer.WriteField, Writer.CreatePart, hw]
  rw [hr, escapeQuotes_id k hk1]
  have h2 : lit "\r\nContent-Disposition: form-data; name=\"" =
      lit "\r\n" ++ lit "Content-Disposition" ++ lit ": " ++ lit "form-data; name=\"" := by
    decide
  have h3 : lit "\"\r\n\r\n" = lit "\"" ++ lit "\r\n" ++ lit "\r\n" := by decide
  simp only [fieldCore, h2, h3]
  simp [List.append_assoc]

/-- Moving the separator from the front of each later part to the end of each
part. -/
theorem parts_regroup (b : GoString) (kv : GoString × GoString)
    (rest : List (GoString × GoString)) :
    fieldCore b kv ++ (rest.map (fun x => lit "\r\n" ++ fieldCore b x)).flatten ++ lit "\r\n" =
      ((kv :: rest).map (fieldPart b)).flatten := by
  induction rest generalizing kv with
  | nil => simp [fieldPart, fieldCore]
  | cons kv2 rest ih =>
    have := ih kv2
    simp only [List.map_cons, List.flatten_cons, List.append_assoc] at this ⊢
    rw [this]
    simp [fieldPart, fieldCore]

/-- C11: Scenario B for every input of its kind. With 30 random bytes drawn
for the head writer, for every non-empty list of extra fields, in the order
written, whose keys need no escaping, and the boundary `b` in use, the tail
buffer is `\r\n`, then for each field `--b\r\n`, the `Content-Disposition`
line with its name, an empty line, its value and `\r\n`, then the closing
line `--b--`, then a last `\r\n`; so the tail begins with all but that last
`\r\n`. -/
theorem C11_tail_layout (f : File) (rnd1 rnd2 : List Byte) (N P : GoString)
    (fieldParams : List (GoString × GoString)) (debugInfo : Option UpDebugInfo)
    (hrnd : rnd1.length = 30) (hne : fieldParams ≠ [])
    (hk : ∀ kv ∈ fieldParams, needsNoEscape kv.1) :
    (addFile zeroStreamUpload (Except.ok f) rnd1 rnd2 N P fieldParams debugInfo).1.lastSeg =
      (lit "\r\n" ++ (fieldParams.map (fieldPart (headWriter rnd1 debugInfo).boundary)).flatten ++
        lit "--" ++ (headWriter rnd1 debugInfo).boundary ++ lit "--") ++ lit "\r\n" ∧
    (lit "\r\n" ++ (fieldParams.map (fieldPart (headWriter rnd1 debugInfo).boundary)).flatten ++
        lit "--" ++ (headWriter rnd1 debugInfo).boundary ++ lit "--") <+:
      (addFile zeroStreamUpload (Except.ok f) rnd1 rnd2 N P fieldParams debugInfo).1.lastSeg := by
  have heq : (addFile zeroStreamUpload (Except.ok f) rnd1 rnd2 N P fieldParams
      debugInfo).1.lastSeg =
      (lit "\r\n" ++ (fieldParams.map (fieldPart (headWriter rnd1 debugInfo).boundary)).flatten ++
        lit "--" ++ (headWriter rnd1 debugInfo).boundary ++ lit "--") ++ lit "\r\n" := by
    rw [addFile_lastSeg, tailWriter_eq rnd1 rnd2 debugInfo
      (headWriter_boundary_accepted rnd1 debugInfo hrnd)]
    cases fieldParams with
    | nil => exact absurd rfl hne
    | cons kv rest =>
      rw [writeFields_bytes_first _ kv rest rfl hk]
      have hb := (writeFields_writer ⟨(headWriter rnd1 debugInfo).boundary, false⟩
        (kv :: rest)).1
      unfold Writer.Close
      rw [hb]
      dsimp only
      rw [← parts_regroup]
      have h1 : lit "\r\n--" = lit "\r\n" ++ lit "--" := by decide
      have h2 : lit "--\r\n" = lit "--" ++ lit "\r\n" := by decide
      rw [h1, h2]
      simp [List.append_assoc]
  exact ⟨heq, by rw [heq]; exact List.prefix_append _ _⟩

/-- C11 at the single field `k = v` and the boundary `XYZ`: the tail begins
with `\r\n--XYZ\r\nContent-Disposition: form-data; name="k"\r\n\r\nv\r\n--XYZ--`. -/
theorem C11_tail_layout_witness :
    lit "\r\n--XYZ\r\nContent-Disposition: form-data; name=\"k\"\r\n\r\nv\r\n--XYZ--" <+:
      (addFile zeroStreamUpload (Except.ok scenarioAFile) (List.replicate 30 0) [] (lit "file")
        (lit "a.txt") [(lit "k", lit "v")] (some ⟨lit "XYZ", []⟩)).1.lastSeg :=
  have h := (C11_tail_layout scenarioAFile (List.replicate 30 0) [] (lit "file") (lit "a.txt")
    [(lit "k", lit "v")] (some ⟨lit "XYZ", []⟩) (by decide) (by decide) (by decide)).2
  (by decide :
    lit "\r\n--XYZ\r\nContent-Disposition: form-data; name=\"k\"\r\n\r\nv\r\n--XYZ--" =
      lit "\r\n" ++ ([(lit "k", lit "v")].map (fieldPart (headWriter (List.replicate 30 0)
        (some ⟨lit "XYZ", []⟩)).boundary)).flatten ++ lit "--" ++
        (headWriter (List.replicate 30 0) (some ⟨lit "XYZ", []⟩)).boundary ++ lit "--") ▸ h

/-- With an accepted override the head writer has exactly that boundary and
no part, whatever the random bytes. -/
theorem headWriter_override (rnd1 : List Byte) (s o : GoString) (hs : boundaryAccepted s) :
    headWriter rnd1 (some ⟨s, o⟩) = ⟨s, false⟩ := by
  have h1 := headWriter_boundary rnd1 (some ⟨s, o⟩)
  have h2 := headWriter_lastpart rnd1 (some ⟨s, o⟩)
  dsimp only at h1
  rw [if_pos hs] at h1
  cases h : headWriter rnd1 (some ⟨s, o⟩) with
  | mk b l =>
    rw [h] at h1 h2
    dsimp only at h1 h2
    rw [h1, h2]

/-- The head buffer begins with the boundary line of the head writer. -/
theorem addFile_firstSeg_prefix (f : File) (rnd1 rnd2 : List Byte)
    (N P : GoString) (fieldParams : List (GoString × GoString))
    (debugInfo : Option UpDebugInfo) :
    lit "--" ++ (headWriter rnd1 debugInfo).boundary ++ lit "\r\n" <+:
      (addFile zeroStreamUpload (Except.ok f) rnd1 rnd2 N P fieldParams debugInfo).1.firstSeg := by
  rw [addFile_firstSeg]
  unfold Writer.CreateFormFile Writer.CreatePart
  rw [headWriter_lastpart]
  dsimp only
  simp only [Bool.false_eq_true, if_false]
  rw [List.append_assoc (lit "--" ++ (headWriter rnd1 debugInfo).boundary ++ lit "\r\n")]
  exact List.prefix_append _ _

/-- The tail buffer ends with the closing line of the tail writer and a
CRLF. -/
theorem addFile_lastSeg_suffix (f : File) (rnd1 rnd2 : List Byte)
    (N P : GoString) (fieldParams : List (GoString × GoString))
    (debugInfo : Option UpDebugInfo) :
    lit "--" ++ (tailWriter rnd1 rnd2 debugInfo).boundary ++ lit "--" ++ lit "\r\n" <:+
      (addFile zeroStreamUpload (Except.ok f) rnd1 rnd2 N P fieldParams debugInfo).1.lastSeg := by
  rw [addFile_lastSeg]
  unfold Writer.Close
  rw [(writeFields_writer _ _).1]
  dsimp only
  have h1 : lit "\r\n--" = lit "\r\n" ++ lit "--" := by decide
  have h2 : lit "--\r\n" = lit "--" ++ lit "\r\n" := by decide
  rw [h1, h2]
  refine ⟨(if fieldParams.length > 0 then lit "\r\n" else []) ++
    (writeFields (tailWriter rnd1 rnd2 debugInfo) fieldParams).2 ++ lit "\r\n", ?_⟩
  simp [List.append_assoc]

/-- C12, as the code has it: a boundary override that `SetBoundary` accepts
(1 to 70 bytes, each a letter, a digit, one of `'()+_,-./:=?`, or a space
that is not the last byte) is used verbatim: the boundary of the construction
is exactly `s`, the head begins with `--s\r\n` and the tail contains the
closing line `--s--`. -/
theorem C12_override_verbatim (f : File) (rnd1 rnd2 : List Byte) (N P : GoString)
    (fieldParams : List (GoString × GoString)) (s o : GoString)
    (hs : boundaryAccepted s) :
    (headWriter rnd1 (some ⟨s, o⟩)).boundary = s ∧
    (tailWriter rnd1 rnd2 (some ⟨s, o⟩)).boundary = s ∧
    lit "--" ++ s ++ lit "\r\n" <+:
      (addFile zeroStreamUpload (Except.ok f) rnd1 rnd2 N P fieldParams
        (some ⟨s, o⟩)).1.firstSeg ∧
    lit "--" ++ s ++ lit "--" <:+:
      (addFile zeroStreamUpload (Except.ok f) rnd1 rnd2 N P fieldParams
        (some ⟨s, o⟩)).1.lastSeg := by
  have hh : (headWriter rnd1 (some ⟨s, o⟩)).boundary = s := by
    rw [headWriter_override rnd1 s o hs]
  have ht : (tailWriter rnd1 rnd2 (some ⟨s, o⟩)).boundary = s := by
    rw [tailWriter_eq rnd1 rnd2 _ (by rw [hh]; exact hs), hh]
  refine ⟨hh, ht, ?_, ?_⟩
  · have := addFile_firstSeg_prefix f rnd1 rnd2 N P fieldParams (some ⟨s, o⟩)
    rw [hh] at this
    exact this
  · have := addFile_lastSeg_suffix f rnd1 rnd2 N P fieldParams (some ⟨s, o⟩)
    rw [ht] at this
    exact List.IsInfix.trans ⟨[], lit "\r\n", by simp⟩ this.isInfix

/-- C12 at the boundary `XYZ`. -/
theorem C12_override_verbatim_witness :
    boundaryAccepted (lit "XYZ") ∧
    lit "--" ++ lit "XYZ" ++ lit "\r\n" <+:
      (addFile zeroStreamUpload (Except.ok scenarioAFile) (List.replicate 30 7)
        (List.replicate 30 9) (lit "file") (lit "a.txt") [] (some ⟨lit "XYZ", []⟩)).1.firstSeg ∧
    lit "--" ++ lit "XYZ" ++ lit "--" <:+:
      (addFile zeroStreamUpload (Except.ok scenarioAFile) (List.replicate 30 7)
        (List.replicate 30 9) (lit "file") (lit "a.txt") [] (some ⟨lit "XYZ", []⟩)).1.lastSeg :=
  have h := C12_override_verbatim scenarioAFile (List.replicate 30 7) (List.replicate 30 9)
    (lit "file") (lit "a.txt") [] (lit "XYZ") [] (by decide)
  ⟨by decide, h.2.2.1, h.2.2.2⟩

set_option maxRecDepth 100000 in
/-- C12 as stated fails for the non-empty override `a@b`: `SetBoundary`
rejects the byte `@`, the error is dropped, and the head begins with the
random boundary (here the 60 digits for 30 zero bytes), not with `--a@b\r\n`;
the tail does not contain `--a@b--`. -/
theorem C12_override_rejected :
    (lit "a@b").length > 0 ∧
    ¬ (lit "--" ++ lit "a@b" ++ lit "\r\n" <+:
      (addFile zeroStreamUpload (Except.ok scenarioAFile) (List.replicate 30 0)
        (List.replicate 30 1) (lit "file") (lit "a.txt") [] (some ⟨lit "a@b", []⟩)).1.firstSeg) ∧
    ¬ (lit "--" ++ lit "a@b" ++ lit "--" <:+:
      (addFile zeroStreamUpload (Except.ok scenarioAFile) (List.replicate 30 0)
        (List.replicate 30 1) (lit "file") (lit "a.txt") [] (some ⟨lit "a@b", []⟩)).1.lastSeg) ∧
    lit "--" ++ randomBoundary (List.replicate 30 0) ++ lit "\r\n" <+:
      (addFile zeroStreamUpload (Except.ok scenarioAFile) (List.replicate 30 0)
        (List.replicate 30 1) (lit "file") (lit "a.txt") [] (some ⟨lit "a@b", []⟩)).1.firstSeg := by
  decide

/-- C13, as the code has it: boundary consistency. With 30 random bytes drawn
for the head writer, every construction that opens its file has one boundary
`b`: the head begins with `--b\r\n`, the tail ends with the closing line
`--b--` and a CRLF, and the content type is `multipart/form-data; boundary=`
followed by `b`, put in double quotes when `b` holds one of
`()<>@,;:\"/[]?=` or a space, and by `b` as it is otherwise. -/
theorem C13_boundary_consistency (f : File) (rnd1 rnd2 : List Byte) (N P : GoString)
    (fieldParams : List (GoString × GoString)) (debugInfo : Option UpDebugInfo)
    (hrnd : rnd1.length = 30) :
    (addFile zeroStreamUpload (Except.ok f) rnd1 rnd2 N P fieldParams debugInfo).2.2 = none ∧
    (addFile zeroStreamUpload (Except.ok f) rnd1 rnd2 N P fieldParams debugInfo).2.1 =
      lit "multipart/form-data; boundary=" ++
        (if needsQuoting (headWriter rnd1 debugInfo).boundary then
          lit "\"" ++ (headWriter rnd1 debugInfo).boundary ++ lit "\""
         else (headWriter rnd1 debugInfo).boundary) ∧
    lit "--" ++ (headWriter rnd1 debugInfo).boundary ++ lit "\r\n" <+:
      (addFile zeroStreamUpload (Except.ok f) rnd1 rnd2 N P fieldParams debugInfo).1.firstSeg ∧
    lit "--" ++ (headWriter rnd1 debugInfo).boundary ++ lit "--" ++ lit "\r\n" <:+
      (addFile zeroStreamUpload (Except.ok f) rnd1 rnd2 N P fieldParams debugInfo).1.lastSeg := by
  refine ⟨(addFile_ok _ f rnd1 rnd2 N P fieldParams debugInfo).1,
    addFile_contentType _ f rnd1 rnd2 N P fieldParams debugInfo,
    addFile_firstSeg_prefix f rnd1 rnd2 N P fieldParams debugInfo, ?_⟩
  have := addFile_lastSeg_suffix f rnd1 rnd2 N P fieldParams debugInfo
  rw [tailWriter_eq rnd1 rnd2 debugInfo (headWriter_boundary_accepted rnd1 debugInfo hrnd)] at this
  exact this

set_option maxRecDepth 100000 in
/-- C13 at the boundary `XYZ`, which needs no quotes: the content type is
exactly `multipart/form-data; boundary=XYZ`. -/
theorem C13_boundary_consistency_witness :
    (addFile zeroStreamUpload (Except.ok scenarioAFile) (List.replicate 30 7)
      (List.replicate 30 9) (lit "file") (lit "a.txt") [] (some ⟨lit "XYZ", []⟩)).2.1 =
      lit "multipart/form-data; boundary=XYZ" ∧
    lit "--XYZ\r\n" <+:
      (addFile zeroStreamUpload (Except.ok scenarioAFile) (List.replicate 30 7)
        (List.replicate 30 9) (lit "file") (lit "a.txt") [] (some ⟨lit "XYZ", []⟩)).1.firstSeg ∧
    lit "--XYZ--\r\n" <:+
      (addFile zeroStreamUpload (Except.ok scenarioAFile) (List.replicate 30 7)
        (List.replicate 30 9) (lit "file") (lit "a.txt") [] (some ⟨lit "XYZ", []⟩)).1.lastSeg :=
  have h := C13_boundary_consistency scenarioAFile (List.replicate 30 7) (List.replicate 30 9)
    (lit "file") (lit "a.txt") [] (some ⟨lit "XYZ", []⟩) (by decide)
  ⟨h.2.1.trans (by decide),
   (by decide : lit "--XYZ\r\n" = lit "--" ++ (headWriter (List.replicate 30 7)
      (some ⟨lit "XYZ", []⟩)).boundary ++ lit "\r\n") ▸ h.2.2.1,
   (by decide : lit "--XYZ--\r\n" = lit "--" ++ (headWriter (List.replicate 30 7)
      (some ⟨lit "XYZ", []⟩)).boundary ++ lit "--" ++ lit "\r\n") ▸ h.2.2.2⟩

set_option maxRecDepth 100000 in
/-- C13 as stated fails for the accepted override `a:b`: head and tail use the
boundary `a:b`, and the content type is `multipart/form-data; boundary="a:b"`,
with the boundary in double quotes, not `multipart/form-data; boundary=a:b`. -/
theorem C13_boundary_quoted :
    boundaryAccepted (lit "a:b") ∧
    lit "--a:b\r\n" <+:
      (addFile zeroStreamUpload (Except.ok scenarioAFile) (List.replicate 30 7)
        (List.replicate 30 9) (lit "file") (lit "a.txt") [] (some ⟨lit "a:b", []⟩)).1.firstSeg ∧
    lit "--a:b--\r\n" <:+
      (addFile zeroStreamUpload (Except.ok scenarioAFile) (List.replicate 30 7)
        (List.replicate 30 9) (lit "file") (lit "a.txt") [] (some ⟨lit "a:b", []⟩)).1.lastSeg ∧
    (addFile zeroStreamUpload (Except.ok scenarioAFile) (List.replicate 30 7)
      (List.replicate 30 9) (lit "file") (lit "a.txt") [] (some ⟨lit "a:b", []⟩)).2.1 ≠
      lit "multipart/form-data; boundary=" ++ lit "a:b" ∧
    (addFile zeroStreamUpload (Except.ok scenarioAFile) (List.replicate 30 7)
      (List.replicate 30 9) (lit "file") (lit "a.txt") [] (some ⟨lit "a:b", []⟩)).2.1 =
      lit "multipart/form-data; boundary=\"a:b\"" := by
  decide

/-- C14, as the code has it: deterministic debug mode. For an override `s`
that `SetBoundary` accepts, two constructions with the same field name, file
path, mirror name and extra fields, whatever random bytes they draw and
whatever file handles they open, build the same head and, when the map of
extra fields is iterated in the same order both times (as it must be when it
has at most one entry), the same tail. -/
theorem C14_deterministic_debug (f f2 : File) (rnd1 rnd2 rnd3 rnd4 : List Byte)
    (N P : GoString) (E1 E2 : List (GoString × GoString)) (s o : GoString)
    (hs : boundaryAccepted s) (hperm : E1.Perm E2) (hord : E1 = E2 ∨ E1.length ≤ 1) :
    (addFile zeroStreamUpload (Except.ok f) rnd1 rnd2 N P E1 (some ⟨s, o⟩)).1.firstSeg =
      (addFile zeroStreamUpload (Except.ok f2) rnd3 rnd4 N P E2 (some ⟨s, o⟩)).1.firstSeg ∧
    (addFile zeroStreamUpload (Except.ok f) rnd1 rnd2 N P E1 (some ⟨s, o⟩)).1.lastSeg =
      (addFile zeroStreamUpload (Except.ok f2) rnd3 rnd4 N P E2 (some ⟨s, o⟩)).1.lastSeg := by
  have hE : E1 = E2 := by
    rcases hord with h | h
    · exact h
    · match E1, h, hperm with
      | [], _, hp => exact (List.nil_perm.mp hp).symm
      | [x], _, hp => exact List.singleton_perm.mp hp
  subst hE
  have h1 := headWriter_override rnd1 s o hs
  have h3 := headWriter_override rnd3 s o hs
  have t1 := tailWriter_eq rnd1 rnd2 (some ⟨s, o⟩) (by rw [h1]; exact hs)
  have t3 := tailWriter_eq rnd3 rnd4 (some ⟨s, o⟩) (by rw [h3]; exact hs)
  refine ⟨?_, ?_⟩
  · rw [addFile_firstSeg, addFile_firstSeg, h1, h3]
  · rw [addFile_lastSeg, addFile_lastSeg, t1, t3, h1, h3]

set_option maxRecDepth 100000 in
/-- C14 at the boundary `XYZ` and two extra fields iterated in the same
order, with different random bytes. -/
theorem C14_deterministic_debug_witness :
    (addFile zeroStreamUpload (Except.ok scenarioAFile) (List.replicate 30 1)
      (List.replicate 30 2) (lit "file") (lit "a.txt") [(lit "a", lit "1"), (lit "b", lit "2")]
      (some ⟨lit "XYZ", []⟩)).1.lastSeg =
    (addFile zeroStreamUpload (Except.ok scenarioAFile) (List.replicate 30 3)
      (List.replicate 30 4) (lit "file") (lit "a.txt") [(lit "a", lit "1"), (lit "b", lit "2")]
      (some ⟨lit "XYZ", []⟩)).1.lastSeg :=
  (C14_deterministic_debug scenarioAFile scenarioAFile (List.replicate 30 1)
    (List.replicate 30 2) (List.replicate 30 3) (List.replicate 30 4) (lit "file")
    (lit "a.txt") [(lit "a", lit "1"), (lit "b", lit "2")] [(lit "a", lit "1"), (lit "b", lit "2")]
    (lit "XYZ") [] (by decide) (List.Perm.refl _) (Or.inl rfl)).2

set_option maxRecDepth 100000 in
/-- C14 as stated fails for a map with two entries: with the boundary `XYZ`
and the entries `a = 1` and `b = 2`, a construction that iterates the map as
`a, b` and one that iterates it as `b, a` build the same head and different
tails. It also fails for the override `a@b`, which `SetBoundary` rejects: two
constructions that draw different random bytes build different heads. -/
theorem C14_order_dependent :
    [(lit "a", lit "1"), (lit "b", lit "2")].Perm [(lit "b", lit "2"), (lit "a", lit "1")] ∧
    (addFile zeroStreamUpload (Except.ok scenarioAFile) (List.replicate 30 1)
      (List.replicate 30 2) (lit "file") (lit "a.txt") [(lit "a", lit "1"), (lit "b", lit "2")]
      (some ⟨lit "XYZ", []⟩)).1.firstSeg =
    (addFile zeroStreamUpload (Except.ok scenarioAFile) (List.replicate 30 1)
      (List.replicate 30 2) (lit "file") (lit "a.txt") [(lit "b", lit "2"), (lit "a", lit "1")]
      (some ⟨lit "XYZ", []⟩)).1.firstSeg ∧
    (addFile zeroStreamUpload (Except.ok scenarioAFile) (List.replicate 30 1)
      (List.replicate 30 2) (lit "file") (lit "a.txt") [(lit "a", lit "1"), (lit "b", lit "2")]
      (some ⟨lit "XYZ", []⟩)).1.lastSeg ≠
    (addFile zeroStreamUpload (Except.ok scenarioAFile) (List.replicate 30 1)
      (List.replicate 30 2) (lit "file") (lit "a.txt") [(lit "b", lit "2"), (lit "a", lit "1")]
      (some ⟨lit "XYZ", []⟩)).1.lastSeg ∧
    (addFile zeroStreamUpload (Except.ok scenarioAFile) (List.replicate 30 1)
      (List.replicate 30 2) (lit "file") (lit "a.txt") [] (some ⟨lit "a@b", []⟩)).1.firstSeg ≠
    (addFile zeroStreamUpload (Except.ok scenarioAFile) (List.replicate 30 3)
      (List.replicate 30 4) (lit "file") (lit "a.txt") [] (some ⟨lit "a@b", []⟩)).1.firstSeg :=
  ⟨List.Perm.swap _ _ _, by decide, by decide, by decide⟩

/-- The errors the file and tail branches can return: none, `io.EOF`, the
error of a file read (`os.ErrInvalid` on a nil handle, or an error of the
operating system), or `met error`. -/
theorem readBody_err_cases (w : World) (sup : streamUpload) (p : List Byte) (gotLen : Nat)
    (hg : gotLen ≤ p.length) :
    (readBody w sup p gotLen).err = none ∨
    (readBody w sup p gotLen).err = some GoError.EOF ∨
    (readBody w sup p gotLen).err = some GoError.ErrInvalid ∨
    (∃ c, (readBody w sup p gotLen).err = some (GoError.sys c)) ∨
    (readBody w sup p gotLen).err = some metError := by
  by_cases hs : sup.step = readFileContentStep
  · have hb := bodyLoop_basic (p.length + 1) sup p gotLen hg (by omega)
    unfold readBody
    rw [if_pos hs]
    rcases hloop : bodyLoop (p.length + 1) sup p gotLen with ⟨sup1, p1, g1, ex⟩
    rw [hloop] at hb
    obtain ⟨b1, b2, b3, b4, b5, b6, b7, b8, b9, b10, b11, b12⟩ := hb
    dsimp only at b1 b2 b3 b4 b5 b6 b7 b8 b9 b10 b11 b12
    rcases b12 with ⟨e, hex, hne, hst⟩ | ⟨hex, hst, hlt⟩ | ⟨hex, hst, heq⟩
    · subst hex
      dsimp only
      rcases hne with h | ⟨c, h⟩
      · right; right; left; rw [h]
      · right; right; right; left; exact ⟨c, by rw [h]⟩
    · subst hex
      dsimp only
      rw [if_neg (by omega)]
      rcases (readTail_basic w sup1 p1 g1 (by omega)).2.2.2.2.2.2.2.2.2.2.2 with h | h | ⟨h, _⟩
      · left; exact h
      · right; left; exact h
      · right; right; right; right; exact h
    · subst hex
      dsimp only
      rw [if_pos heq]
      left; rfl
  · unfold readBody
    rw [if_neg hs]
    rcases (readTail_basic w sup p gotLen hg).2.2.2.2.2.2.2.2.2.2.2 with h | h | ⟨h, _⟩
    · left; exact h
    · right; left; exact h
    · right; right; right; right; exact h

/-- The errors `Read` can return: none, `io.EOF`, the error of a file read
(`os.ErrInvalid` on a nil handle, or an error of the operating system), or
`met error`. -/
theorem Read_err_cases (w : World) (sup : streamUpload) (p : List Byte) :
    (Read w sup p).err = none ∨
    (Read w sup p).err = some GoError.EOF ∨
    (Read w sup p).err = some GoError.ErrInvalid ∨
    (∃ c, (Read w sup p).err = some (GoError.sys c)) ∨
    (Read w sup p).err = some metError := by
  by_cases hs : sup.step = readFirstSegStep
  · rcases Read_head_cases sup p with ⟨hh, hp⟩ | ⟨hp, hle⟩ | hlt
    · rw [Read_head_drained w sup p hs hh hp]
      right; left; rfl
    · rw [Read_head_full w sup p hs hp hle]
      left; rfl
    · rw [Read_head_through w sup p hs hlt]
      exact readBody_err_cases w _ _ _ (by rw [writeAt_length _ _ _ (by simp)]; simp)
  · rw [Read_not_head w sup p hs]
    exact readBody_err_cases w sup p 0 (Nat.zero_le _)

/-- A run of `Read` calls from a receiver in a valid phase never returns
`met error`. -/
theorem run_no_metError (ps : List (List Byte)) (w : World) (sup : streamUpload)
    (hs : validPhase sup) :
    ∀ r ∈ (run w sup (ps.map Call.read)).2.2, r.err ≠ some metError := by
  induction ps generalizing w sup with
  | nil => simp [run]
  | cons p ps ih =>
    obtain ⟨b1, b2, b3, b4, b5, b6, b7, b8, b9, b10⟩ := Read_basic w sup p
    have hv : validPhase (Read w sup p).sup := by
      unfold validPhase at hs ⊢
      rcases b4 with h | ⟨_, h⟩ | ⟨_, h⟩ | ⟨_, h⟩
      · rw [h]; exact hs
      · right; left; exact h
      · right; right; exact h
      · right; right; exact h
    have hne : (Read w sup p).err ≠ some metError := by
      intro h
      obtain ⟨n0, n1, n2⟩ := b10 h
      rcases hs with h0 | h1 | h2
      · exact n0 h0
      · exact n1 h1
      · exact n2 h2
    simp only [List.map_cons, run]
    intro r hr
    rcases List.mem_cons.mp hr with h | h
    · rw [h]; exact hne
    · exact ih (Read w sup p).world (Read w sup p).sup hv r h

/-- C19: the misuse branch is unreachable. For every receiver whose phase is
HEAD, BODY or TAIL and every buffer, `Read` does not return the error
`met error` of its last statement and leaves the phase in HEAD, BODY or TAIL;
hence no `Read` call of any run from such a receiver, a constructed body
among them, returns it. -/
theorem C19_misuse_unreachable (w : World) (sup : streamUpload) (p : List Byte)
    (ps : List (List Byte)) (hs : validPhase sup) :
    (Read w sup p).err ≠ some metError ∧
    validPhase (Read w sup p).sup ∧
    (∀ r ∈ (run w sup (ps.map Call.read)).2.2, r.err ≠ some metError) := by
  have hb := (Read_basic w sup p).2.2.2.1
  have hm := (Read_basic w sup p).2.2.2.2.2.2.2.2.2
  refine ⟨?_, ?_, run_no_metError ps w sup hs⟩
  · intro h
    obtain ⟨n0, n1, n2⟩ := hm h
    rcases hs with h0 | h1 | h2
    · exact n0 h0
    · exact n1 h1
    · exact n2 h2
  · unfold validPhase at hs ⊢
    rcases hb with h | ⟨_, h⟩ | ⟨_, h⟩ | ⟨_, h⟩
    · rw [h]; exact hs
    · right; left; exact h
    · right; right; exact h
    · right; right; exact h

set_option maxRecDepth 100000 in
/-- C19 at Scenario A: the constructed body is in a valid phase, and a read of
500 bytes does not return `met error`. -/
theorem C19_misuse_unreachable_witness :
    validPhase scenarioA ∧
    (Read world0 scenarioA (List.replicate 500 0)).err ≠ some metError :=
  ⟨by decide,
   (C19_misuse_unreachable world0 scenarioA (List.replicate 500 0) [] (by decide)).1⟩

/-- The tail branch of `Read` in phase TAIL, field by field. The file source
stays when the mirror cannot write into the file being uploaded. -/
theorem readTail_out (w : World) (sup : streamUpload) (p : List Byte) (gotLen : Nat)
    (hs : sup.step = readLastSegStep) (hg : gotLen ≤ p.length) :
    (readTail w sup p gotLen).sup.lastSeg = sup.lastSeg.drop (p.length - gotLen) ∧
    (readTail w sup p gotLen).p = writeAt p gotLen (sup.lastSeg.take (p.length - gotLen)) ∧
    (readTail w sup p gotLen).n = gotLen + (sup.lastSeg.take (p.length - gotLen)).length ∧
    (readTail w sup p gotLen).err =
      (if gotLen + (sup.lastSeg.take (p.length - gotLen)).length < p.length
        then some GoError.EOF else none) ∧
    (mirrorApart w sup → (readTail w sup p gotLen).sup.file = sup.file) ∧
    (readTail w sup p gotLen).sup.firstSeg = sup.firstSeg ∧
    (readTail w sup p gotLen).sup.step = sup.step := by
  obtain ⟨t1, t2, t3, t4, t5, t6, t7, t8, t9, t10, t11, t12⟩ := readTail_basic w sup p gotLen hg
  refine ⟨?_, ?_, ?_, ?_, (readTail_file w sup p gotLen hg).2, t4, t5⟩
  · rw [readTail_eq w sup p gotLen hs hg]
    split
    · dsimp only
      rw [(closeDebugOutFile_frame _).2.2.1, (toDebugFile_frame _ _ _ _).2.2.1]
    · dsimp only
      rw [(toDebugFile_frame _ _ _ _).2.2.1]
  · rw [readTail_eq w sup p gotLen hs hg]
    split <;> rfl
  · rw [readTail_eq w sup p gotLen hs hg]
    split <;> rfl
  · rw [readTail_eq w sup p gotLen hs hg]
    split <;> rfl

/-- Whether the mirror can write into the file being uploaded depends only on
the flag `mirrorIsSource` of the world and on the field `debugMode`. -/
theorem mirrorApart_of (w w2 : World) (sup sup2 : streamUpload) (h : mirrorApart w sup)
    (hw : w2.mirrorIsSource = w.mirrorIsSource) (hd : sup2.debugMode = sup.debugMode) :
    mirrorApart w2 sup2 := by
  unfold mirrorApart at h ⊢
  rw [hw, hd]
  exact h

/-- The tail branch of `Read` does not change whether the mirror file is the
file of the file source. -/
theorem readTail_alias (w : World) (sup : streamUpload) (p : List Byte) (gotLen : Nat)
    (hg : gotLen ≤ p.length) :
    (readTail w sup p gotLen).world.mirrorIsSource = w.mirrorIsSource := by
  by_cases hs : sup.step = readLastSegStep
  · rw [readTail_eq w sup p gotLen hs hg]
    split
    · exact toDebugFile_alias w _ _ _
    · exact toDebugFile_alias w _ _ _
  · simp [readTail, hs]

/-- The file and tail branches of `Read` do not change whether the mirror file
is the file of the file source. -/
theorem readBody_alias (w : World) (sup : streamUpload) (p : List Byte) (gotLen : Nat)
    (hg : gotLen ≤ p.length) :
    (readBody w sup p gotLen).world.mirrorIsSource = w.mirrorIsSource := by
  by_cases hs : sup.step = readFileContentStep
  · have hb := bodyLoop_basic (p.length + 1) sup p gotLen hg (by omega)
    unfold readBody
    rw [if_pos hs]
    rcases hloop : bodyLoop (p.length + 1) sup p gotLen with ⟨sup1, p1, g1, ex⟩
    rw [hloop] at hb
    dsimp only at hb
    cases ex with
    | abort err => rfl
    | outOfFuel => rfl
    | done err =>
      dsimp only
      by_cases hfull : g1 = p.length
      · rw [if_pos hfull]
        exact toDebugFile_alias w _ _ _
      · rw [if_neg hfull]
        exact readTail_alias w sup1 p1 g1 (by rw [hb.1]; exact hb.2.2.1)
  · unfold readBody
    rw [if_neg hs]
    exact readTail_alias w sup p gotLen hg

/-- Method `Read` does not change whether the mirror file is the file of the
file source. -/
theorem Read_alias (w : World) (sup : streamUpload) (p : List Byte) :
    (Read w sup p).world.mirrorIsSource = w.mirrorIsSource := by
  by_cases hs : sup.step = readFirstSegStep
  · rcases Read_head_cases sup p with ⟨hd, hp⟩ | ⟨hp, hle⟩ | hlt
    · rw [Read_head_drained w sup p hs hd hp]
    · rw [Read_head_full w sup p hs hp hle]
      exact toDebugFile_alias w _ _ _
    · rw [Read_head_through w sup p hs hlt]
      exact readBody_alias w _ _ _ (by rw [writeAt_length _ _ _ (by simp)]; simp)
  · rw [Read_not_head w sup p hs]
    exact readBody_alias w sup p 0 (Nat.zero_le _)

/-- Method `Read` keeps the mirror apart from the file being uploaded when it
was so before. -/
theorem Read_apart (w : World) (sup : streamUpload) (p : List Byte) (h : mirrorApart w sup) :
    mirrorApart (Read w sup p).world (Read w sup p).sup :=
  mirrorApart_of w _ sup _ h (Read_alias w sup p) (Read_basic w sup p).2.2.2.2.1

/-- The tail branch of `Read` does the same to two receivers that differ only
in the mirror fields, whatever the worlds, when neither mirror can write into
the file being uploaded. -/
theorem readTail_sameStream (w1 w2 : World) (s1 s2 : streamUpload) (p : List Byte)
    (gotLen : Nat) (hg : gotLen ≤ p.length) (h : sameStream s1 s2)
    (ha1 : mirrorApart w1 s1) (ha2 : mirrorApart w2 s2) :
    sameStream (readTail w1 s1 p gotLen).sup (readTail w2 s2 p gotLen).sup ∧
    (readTail w1 s1 p gotLen).p = (readTail w2 s2 p gotLen).p ∧
    (readTail w1 s1 p gotLen).n = (readTail w2 s2 p gotLen).n ∧
    (readTail w1 s1 p gotLen).err = (readTail w2 s2 p gotLen).err := by
  obtain ⟨hf, hh, hl, hst⟩ := h
  by_cases hs : s1.step = readLastSegStep
  · obtain ⟨a1, a2, a3, a4, a5, a6, a7⟩ := readTail_out w1 s1 p gotLen hs hg
    obtain ⟨c1, c2, c3, c4, c5, c6, c7⟩ := readTail_out w2 s2 p gotLen (hst ▸ hs) hg
    refine ⟨⟨by rw [a5 ha1, c5 ha2, hf], by rw [a6, c6, hh], by rw [a1, c1, hl],
      by rw [a7, c7, hst]⟩, by rw [a2, c2, hl], by rw [a3, c3, hl], by rw [a4, c4, hl]⟩
  · have hs2 : s2.step ≠ readLastSegStep := hst ▸ hs
    simp [readTail, hs, hs2, sameStream, hf, hh, hl, hst]

/-- The `for` loop of `Read` does the same to two receivers that differ only
in the mirror fields. -/
theorem bodyLoop_sameStream (fuel : Nat) (s1 s2 : streamUpload) (p : List Byte) (gotLen : Nat)
    (hg : gotLen ≤ p.length) (h : sameStream s1 s2) :
    sameStream (bodyLoop fuel s1 p gotLen).1 (bodyLoop fuel s2 p gotLen).1 ∧
    (bodyLoop fuel s1 p gotLen).2 = (bodyLoop fuel s2 p gotLen).2 := by
  induction fuel generalizing s1 s2 p gotLen with
  | zero => exact ⟨h, rfl⟩
  | succ fuel ih =>
    obtain ⟨hf, hh, hl, hst⟩ := h
    rcases File.Read_cases s1.file (p.length - gotLen) with
      ⟨hn, hr⟩ | ⟨f, hfile, hz, hr⟩ | ⟨f, c, rest, hfile, hpos, hs, hr⟩ |
      ⟨f, f1, hfile, hpos, hd, hd1, hc, hsc, hr⟩ |
      ⟨f, f1, data, hfile, hpos, hd, hlen, hle, hc, hsc, hr⟩
    · rw [bodyLoop_abort fuel s1 p gotLen none GoError.ErrInvalid (by simp) hr,
        bodyLoop_abort fuel s2 p gotLen none GoError.ErrInvalid (by simp) (hf ▸ hr)]
      exact ⟨⟨rfl, hh, hl, hst⟩, rfl⟩
    · rw [bodyLoop_zero fuel s1 p gotLen _ (by omega) hr,
        bodyLoop_zero fuel s2 p gotLen _ (by omega) (hf ▸ hr)]
      exact ⟨⟨hf, hh, hl, hst⟩, rfl⟩
    · rw [bodyLoop_abort fuel s1 p gotLen _ _ (by simp) hr,
        bodyLoop_abort fuel s2 p gotLen _ _ (by simp) (hf ▸ hr)]
      exact ⟨⟨rfl, hh, hl, hst⟩, rfl⟩
    · rw [bodyLoop_eof fuel s1 p gotLen _ hr, bodyLoop_eof fuel s2 p gotLen _ (hf ▸ hr)]
      exact ⟨⟨rfl, hh, hl, rfl⟩, rfl⟩
    · by_cases hfull : gotLen + data.length = p.length
      · rw [bodyLoop_full fuel s1 p gotLen _ data hlen hfull hr,
          bodyLoop_full fuel s2 p gotLen _ data hlen hfull (hf ▸ hr)]
        exact ⟨⟨rfl, hh, hl, hst⟩, rfl⟩
      · rw [bodyLoop_more fuel s1 p gotLen _ data hlen hfull hr,
          bodyLoop_more fuel s2 p gotLen _ data hlen hfull (hf ▸ hr)]
        exact ih _ _ _ _ (by rw [writeAt_length _ _ _ (by omega)]; omega) ⟨rfl, hh, hl, hst⟩

/-- The file and tail branches of `Read` do the same to two receivers that
differ only in the mirror fields, whatever the worlds, when neither mirror can
write into the file being uploaded. -/
theorem readBody_sameStream (w1 w2 : World) (s1 s2 : streamUpload) (p : List Byte)
    (gotLen : Nat) (hg : gotLen ≤ p.length) (h : sameStream s1 s2)
    (ha1 : mirrorApart w1 s1) (ha2 : mirrorApart w2 s2) :
    sameStream (readBody w1 s1 p gotLen).sup (readBody w2 s2 p gotLen).sup ∧
    (readBody w1 s1 p gotLen).p = (readBody w2 s2 p gotLen).p ∧
    (readBody w1 s1 p gotLen).n = (readBody w2 s2 p gotLen).n ∧
    (readBody w1 s1 p gotLen).err = (readBody w2 s2 p gotLen).err := by
  have hst := h.2.2.2
  by_cases hs : s1.step = readFileContentStep
  · have hs2 : s2.step = readFileContentStep := hst ▸ hs
    have hb := bodyLoop_basic (p.length + 1) s1 p gotLen hg (by omega)
    have hb2 := bodyLoop_basic (p.length + 1) s2 p gotLen hg (by omega)
    obtain ⟨hsame, heq⟩ := bodyLoop_sameStream (p.length + 1) s1 s2 p gotLen hg h
    unfold readBody
    rw [if_pos hs, if_pos hs2]
    rcases h1 : bodyLoop (p.length + 1) s1 p gotLen with ⟨a1, p1, g1, e1⟩
    rcases h2 : bodyLoop (p.length + 1) s2 p gotLen with ⟨a2, p2, g2, e2⟩
    rw [h1, h2] at hsame heq
    rw [h1] at hb
    rw [h2] at hb2
    dsimp only at hsame heq hb hb2
    obtain ⟨rfl, rfl, rfl⟩ : p1 = p2 ∧ g1 = g2 ∧ e1 = e2 := by
      simpa using heq
    have hm1 : mirrorApart w1 a1 := mirrorApart_of w1 w1 s1 a1 ha1 rfl hb.2.2.2.2.2.2.2.2.1
    have hm2 : mirrorApart w2 a2 := mirrorApart_of w2 w2 s2 a2 ha2 rfl hb2.2.2.2.2.2.2.2.2.1
    cases e1 with
    | abort err => exact ⟨hsame, rfl, rfl, rfl⟩
    | outOfFuel => exact ⟨hsame, rfl, rfl, rfl⟩
    | done err =>
      dsimp only
      by_cases hfull : g1 = p.length
      · rw [if_pos hfull, if_pos hfull]
        dsimp only
        have x1 := toDebugFile_file_apart w1 a1 p1 g1 hm1
        have y1 := toDebugFile_file_apart w2 a2 p1 g1 hm2
        obtain ⟨_, x2, x3, x4, _⟩ := toDebugFile_frame w1 a1 p1 g1
        obtain ⟨_, y2, y3, y4, _⟩ := toDebugFile_frame w2 a2 p1 g1
        obtain ⟨hf, hh, hl, hst'⟩ := hsame
        exact ⟨⟨by rw [x1, y1, hf], by rw [x2, y2, hh], by rw [x3, y3, hl],
          by rw [x4, y4, hst']⟩, rfl, rfl, rfl⟩
      · rw [if_neg hfull, if_neg hfull]
        exact readTail_sameStream w1 w2 a1 a2 p1 g1 (by rw [hb.1]; exact hb.2.2.1) hsame hm1 hm2
  · have hs2 : s2.step ≠ readFileContentStep := hst ▸ hs
    unfold readBody
    rw [if_neg hs, if_neg hs2]
    exact readTail_sameStream w1 w2 s1 s2 p gotLen hg h ha1 ha2

/-- Method `Read` does the same to two receivers that differ only in the
mirror fields, whatever the worlds, when neither mirror can write into the
file being uploaded. -/
theorem Read_sameStream (w1 w2 : World) (s1 s2 : streamUpload) (p : List Byte)
    (h : sameStream s1 s2) (ha1 : mirrorApart w1 s1) (ha2 : mirrorApart w2 s2) :
    sameStream (Read w1 s1 p).sup (Read w2 s2 p).sup ∧
    (Read w1 s1 p).p = (Read w2 s2 p).p ∧
    (Read w1 s1 p).n = (Read w2 s2 p).n ∧
    (Read w1 s1 p).err = (Read w2 s2 p).err := by
  obtain ⟨hf, hh, hl, hst⟩ := h
  by_cases hs : s1.step = readFirstSegStep
  · have hs2 : s2.step = readFirstSegStep := hst ▸ hs
    rcases Read_head_cases s1 p with ⟨hd, hp⟩ | ⟨hp, hle⟩ | hlt
    · rw [Read_head_drained w1 s1 p hs hd hp, Read_head_drained w2 s2 p hs2 (hh ▸ hd) hp]
      exact ⟨⟨hf, hh, hl, hst⟩, rfl, rfl, rfl⟩
    · rw [Read_head_full w1 s1 p hs hp hle, Read_head_full w2 s2 p hs2 hp (hh ▸ hle)]
      dsimp only
      have x1 := toDebugFile_file_apart w1
        { s1 with firstSeg := s1.firstSeg.drop p.length } (s1.firstSeg.take p.length) p.length
        (mirrorApart_of w1 w1 s1 _ ha1 rfl rfl)
      have y1 := toDebugFile_file_apart w2
        { s2 with firstSeg := s2.firstSeg.drop p.length } (s2.firstSeg.take p.length) p.length
        (mirrorApart_of w2 w2 s2 _ ha2 rfl rfl)
      obtain ⟨_, x2, x3, x4, _⟩ := toDebugFile_frame w1
        { s1 with firstSeg := s1.firstSeg.drop p.length } (s1.firstSeg.take p.length) p.length
      obtain ⟨_, y2, y3, y4, _⟩ := toDebugFile_frame w2
        { s2 with firstSeg := s2.firstSeg.drop p.length } (s2.firstSeg.take p.length) p.length
      exact ⟨⟨by rw [x1, y1]; exact hf, by rw [x2, y2]; dsimp only; rw [hh],
        by rw [x3, y3]; exact hl, by rw [x4, y4]; exact hst⟩, by rw [hh], rfl, rfl⟩
    · rw [Read_head_through w1 s1 p hs hlt, Read_head_through w2 s2 p hs2 (hh ▸ hlt), ← hh]
      exact readBody_sameStream w1 w2 _ _ _ _
        (by rw [writeAt_length _ _ _ (by simp)]; simp) ⟨hf, by rw [hh], hl, rfl⟩
        (mirrorApart_of w1 w1 s1 _ ha1 rfl rfl) (mirrorApart_of w2 w2 s2 _ ha2 rfl rfl)
  · have hs2 : s2.step ≠ readFirstSegStep := hst ▸ hs
    rw [Read_not_head w1 s1 p hs, Read_not_head w2 s2 p hs2]
    exact readBody_sameStream w1 w2 s1 s2 p 0 (Nat.zero_le _) ⟨hf, hh, hl, hst⟩ ha1 ha2

/-- Runs of `Read` calls on two receivers that differ only in the mirror
fields return the same, whatever the worlds, when neither mirror can write
into the file being uploaded. -/
theorem run_sameStream (ps : List (List Byte)) (w1 w2 : World) (s1 s2 : streamUpload)
    (h : sameStream s1 s2) (ha1 : mirrorApart w1 s1) (ha2 : mirrorApart w2 s2) :
    (run w1 s1 (ps.map Call.read)).2.2 = (run w2 s2 (ps.map Call.read)).2.2 ∧
    sameStream (run w1 s1 (ps.map Call.read)).2.1 (run w2 s2 (ps.map Call.read)).2.1 := by
  induction ps generalizing w1 w2 s1 s2 with
  | nil => exact ⟨rfl, h⟩
  | cons p ps ih =>
    obtain ⟨r1, r2, r3, r4⟩ := Read_sameStream w1 w2 s1 s2 p h ha1 ha2
    obtain ⟨i1, i2⟩ := ih (Read w1 s1 p).world (Read w2 s2 p).world _ _ r1
      (Read_apart w1 s1 p ha1) (Read_apart w2 s2 p ha2)
    simp only [List.map_cons, run]
    exact ⟨by rw [i1, r2, r3, r4], i2⟩

/-- A script without failures keeps being one when a prefix is used up. -/
theorem all_isChunk_of_append (pre rest : List ReadEvent)
    (h : (pre ++ rest).all ReadEvent.isChunk = true) : rest.all ReadEvent.isChunk = true := by
  rw [List.all_append, Bool.and_eq_true] at h
  exact h.2

/-- The `for` loop of `Read` on a file source that does not fail: the bytes
it copies behind `p[:gotLen]` are the next bytes of the file, and it ends by
`break`, on `io.EOF` with the file drained and the phase TAIL, or with the
buffer full. -/
theorem bodyLoop_data (fuel : Nat) (sup : streamUpload) (p : List Byte) (gotLen : Nat)
    (f : File) (hfile : sup.file = some f) (hnf : f.script.all ReadEvent.isChunk = true)
    (hg : gotLen ≤ p.length) (hf : p.length - gotLen < fuel) :
    ∃ f1 D, (bodyLoop fuel sup p gotLen).1.file = some f1 ∧ f.data = D ++ f1.data ∧
      f1.script.all ReadEvent.isChunk = true ∧
      (bodyLoop fuel sup p gotLen).2.1.take (bodyLoop fuel sup p gotLen).2.2.1 =
        p.take gotLen ++ D ∧
      (bodyLoop fuel sup p gotLen).2.2.1 = gotLen + D.length ∧
      (((bodyLoop fuel sup p gotLen).2.2.2 = LoopExit.done (some GoError.EOF) ∧ f1.data = [] ∧
          (bodyLoop fuel sup p gotLen).1.step = readLastSegStep) ∨
       ((bodyLoop fuel sup p gotLen).2.2.2 = LoopExit.done none ∧
          (bodyLoop fuel sup p gotLen).2.2.1 = p.length ∧
          (bodyLoop fuel sup p gotLen).1.step = sup.step)) := by
  induction fuel generalizing sup p gotLen f with
  | zero => omega
  | succ fuel ih =>
    rcases File.Read_cases sup.file (p.length - gotLen) with
      ⟨hn, hr⟩ | ⟨f0, hfile0, hz, hr⟩ | ⟨f0, c, rest, hfile0, hpos, hs, hr⟩ |
      ⟨f0, f1, hfile0, hpos, hd, hd1, hc, hsc, hr⟩ |
      ⟨f0, f1, data, hfile0, hpos, hd, hlen, hle, hc, hsc, hr⟩
    · rw [hn] at hfile; cases hfile
    · rw [bodyLoop_zero fuel sup p gotLen _ (by omega) hr]
      exact ⟨f, [], hfile, by simp, hnf, by simp, by simp, Or.inr ⟨rfl, by dsimp only; omega, rfl⟩⟩
    · have : f0 = f := by rw [hfile0] at hfile; exact Option.some.inj hfile
      subst this
      rw [hs] at hnf
      simp [ReadEvent.isChunk] at hnf
    · have : f0 = f := by rw [hfile0] at hfile; exact Option.some.inj hfile
      subst this
      obtain ⟨pre, hp1, hp2⟩ := hsc
      rw [bodyLoop_eof fuel sup p gotLen _ hr]
      exact ⟨f1, [], rfl, by simp [hd, hd1], all_isChunk_of_append pre _ (hp1 ▸ hnf), by simp,
        by simp, Or.inl ⟨rfl, hd1, rfl⟩⟩
    · have : f0 = f := by rw [hfile0] at hfile; exact Option.some.inj hfile
      subst this
      obtain ⟨pre, hp1, hp2⟩ := hsc
      have hnf1 := all_isChunk_of_append pre _ (hp1 ▸ hnf)
      have hwl : (writeAt p gotLen data).length = p.length := writeAt_length _ _ _ (by omega)
      by_cases hfull : gotLen + data.length = p.length
      · rw [bodyLoop_full fuel sup p gotLen _ data hlen hfull hr]
        exact ⟨f1, data, rfl, hd, hnf1, take_writeAt p gotLen data hg, rfl,
          Or.inr ⟨rfl, hfull, rfl⟩⟩
      · rw [bodyLoop_more fuel sup p gotLen _ data hlen hfull hr]
        obtain ⟨f2, D, i1, i2, i3, i4, i5, i6⟩ :=
          ih { sup with file := some f1, outFileLen := sup.outFileLen + data.length }
            (writeAt p gotLen data) (gotLen + data.length) f1 rfl hnf1 (by omega) (by omega)
        refine ⟨f2, data ++ D, i1, by rw [hd, i2, List.append_assoc], i3, ?_, ?_, ?_⟩
        · rw [i4, take_writeAt p gotLen data hg, List.append_assoc]
        · rw [i5, List.length_append]; omega
        · rw [hwl] at i6
          exact i6

/-- The file and tail branches of `Read` on a file source that does not fail
and that the mirror cannot write into: the bytes copied behind `p[:gotLen]`
are the next bytes of the file followed by the next bytes of the tail, and the
error is nil or `io.EOF`. -/
theorem readBody_data (w : World) (sup : streamUpload) (p : List Byte) (gotLen : Nat)
    (hap : mirrorApart w sup) (hnf : fileNeverFails sup.file)
    (hph : sup.step = readFileContentStep ∨ sup.step = readLastSegStep)
    (hdr : sup.step = readLastSegStep → fileData sup.file = [])
    (hg : gotLen ≤ p.length) :
    ∃ D, (readBody w sup p gotLen).p.take (readBody w sup p gotLen).n = p.take gotLen ++ D ∧
      D ++ (fileData (readBody w sup p gotLen).sup.file ++ (readBody w sup p gotLen).sup.lastSeg) =
        fileData sup.file ++ sup.lastSeg ∧
      fileNeverFails (readBody w sup p gotLen).sup.file ∧
      ((readBody w sup p gotLen).sup.step = readFileContentStep ∨
        (readBody w sup p gotLen).sup.step = readLastSegStep) ∧
      ((readBody w sup p gotLen).sup.step = readLastSegStep →
        fileData (readBody w sup p gotLen).sup.file = []) ∧
      ((readBody w sup p gotLen).err = none ∨ (readBody w sup p gotLen).err = some GoError.EOF) ∧
      (readBody w sup p gotLen).sup.firstSeg = sup.firstSeg := by
  by_cases hs : sup.step = readFileContentStep
  · cases hfile : sup.file with
    | none => rw [hfile] at hnf; exact absurd hnf (by simp [fileNeverFails])
    | some f =>
      rw [hfile] at hnf
      have hnf' : f.script.all ReadEvent.isChunk = true := hnf
      have hb := bodyLoop_basic (p.length + 1) sup p gotLen hg (by omega)
      have hd := bodyLoop_data (p.length + 1) sup p gotLen f hfile hnf' hg (by omega)
      unfold readBody
      rw [if_pos hs]
      rcases hloop : bodyLoop (p.length + 1) sup p gotLen with ⟨sup1, p1, g1, ex⟩
      rw [hloop] at hb hd
      obtain ⟨b1, b2, b3, b4, b5, b6, b7, b8, b9, b10, b11, b12⟩ := hb
      obtain ⟨f1, D, d1, d2, d3, d4, d5, d6⟩ := hd
      dsimp only at b1 b2 b3 b4 b5 b6 b7 b8 b9 b10 b11 b12 d1 d4 d5 d6
      have hap1 : mirrorApart w sup1 := mirrorApart_of w w sup sup1 hap rfl b9
      rcases d6 with ⟨hex, hempty, hst⟩ | ⟨hex, hfull, hst⟩
      · subst hex
        have hlt : g1 < p.length := by
          rcases b12 with ⟨e, h, _⟩ | ⟨_, _, h⟩ | ⟨h, _⟩
          · cases h
          · exact h
          · cases h
        dsimp only
        rw [if_neg (by omega)]
        obtain ⟨o1, o2, o3, o4, o5', o6, o7⟩ := readTail_out w sup1 p1 g1 hst (by omega)
        have o5 := o5' hap1
        refine ⟨D ++ sup1.lastSeg.take (p1.length - g1), ?_, ?_, ?_, ?_, ?_, ?_, ?_⟩
        · rw [o2, o3, take_writeAt p1 g1 _ (by omega), d4, List.append_assoc]
        · rw [o5, o1, d1, fileData, hempty, fileData, d2, hempty, b6]
          simp
        · rw [o5, d1]; exact d3
        · right; rw [o7]; exact hst
        · intro _; rw [o5, d1, fileData]; exact hempty
        · rw [o4]; split
          · right; rfl
          · left; rfl
        · rw [o6]; exact b5
      · subst hex
        dsimp only
        rw [if_pos hfull]
        dsimp only
        obtain ⟨_, t2, t3, t4, t5, t6, t7⟩ := toDebugFile_frame w sup1 p1 g1
        have t1 := toDebugFile_file_apart w sup1 p1 g1 hap1
        refine ⟨D, d4, ?_, ?_, ?_, ?_, Or.inl rfl, ?_⟩
        · rw [t1, t3, d1, fileData, fileData, d2, b6, List.append_assoc]
        · rw [t1, d1]; exact d3
        · left; rw [t4, hst]; exact hs
        · intro h; rw [t4, hst, hs] at h; exact absurd h (by decide)
        · rw [t2]; exact b5
  · have hs2 : sup.step = readLastSegStep := by
      rcases hph with h | h
      · exact absurd h hs
      · exact h
    unfold readBody
    rw [if_neg hs]
    obtain ⟨o1, o2, o3, o4, o5', o6, o7⟩ := readTail_out w sup p gotLen hs2 hg
    have o5 := o5' hap
    refine ⟨sup.lastSeg.take (p.length - gotLen), ?_, ?_, ?_, ?_, ?_, ?_, o6⟩
    · rw [o2, o3, take_writeAt p gotLen _ hg]
    · rw [o5, o1, hdr hs2]; simp
    · rw [o5]; exact hnf
    · right; rw [o7]; exact hs2
    · intro _; rw [o5]; exact hdr hs2
    · rw [o4]; split
      · right; rfl
      · left; rfl

/-- Method `Read` with a non-empty buffer on an upload whose file source does
not fail and is out of reach of the mirror: the bytes delivered are the next bytes still to be delivered, the
error is nil or `io.EOF`, and `io.EOF` is returned in phase HEAD only when the
head was drained before the call. -/
theorem Read_data (w : World) (sup : streamUpload) (p : List Byte)
    (hinv : StreamInv sup) (hap : mirrorApart w sup) (hp : p ≠ []) :
    StreamInv (Read w sup p).sup ∧
    (Read w sup p).p.take (Read w sup p).n ++ pending (Read w sup p).sup = pending sup ∧
    ((Read w sup p).err = none ∨ (Read w sup p).err = some GoError.EOF) ∧
    ((Read w sup p).err = some GoError.EOF → (Read w sup p).sup.step = readFirstSegStep →
      sup.firstSeg = []) := by
  obtain ⟨hnf, hph, h1, h2⟩ := hinv
  by_cases hs : sup.step = readFirstSegStep
  · rcases Read_head_cases sup p with ⟨hh, _⟩ | ⟨_, hle⟩ | hlt
    · rw [Read_head_drained w sup p hs hh hp]
      exact ⟨⟨hnf, hph, h1, h2⟩, by simp, Or.inr rfl, fun _ _ => hh⟩
    · rw [Read_head_full w sup p hs hp hle]
      dsimp only
      obtain ⟨_, t2, t3, t4, t5, t6, t7⟩ := toDebugFile_frame w
        { sup with firstSeg := sup.firstSeg.drop p.length } (sup.firstSeg.take p.length) p.length
      have t1 := toDebugFile_file_apart w
        { sup with firstSeg := sup.firstSeg.drop p.length } (sup.firstSeg.take p.length) p.length
        (mirrorApart_of w w sup _ hap rfl rfl)
      dsimp only at t1 t2 t3 t4
      refine ⟨⟨by rw [t1]; exact hnf, ?_, ?_, ?_⟩, ?_, Or.inl rfl, ?_⟩
      · left; rw [t4]; exact hs
      · intro h; rw [t4, hs] at h; exact absurd h (by decide)
      · intro h; rw [t4, hs] at h; exact absurd h (by decide)
      · unfold pending
        rw [t1, t2, t3, List.take_take, Nat.min_self]
        simp only [List.append_assoc]
        rw [← List.append_assoc, List.take_append_drop]
      · intro h; cases h
    · have hne : sup.firstSeg ≠ [] ∧ sup.firstSeg.length < p.length := by
        rcases hlt with h | h
        · exact h
        · exact absurd h hp
      have htake : sup.firstSeg.take p.length = sup.firstSeg :=
        List.take_of_length_le (by omega)
      have hdrop : sup.firstSeg.drop p.length = [] :=
        List.drop_of_length_le (by omega)
      rw [Read_head_through w sup p hs hlt, htake, hdrop]
      have hwl : (writeAt p 0 sup.firstSeg).length = p.length :=
        writeAt_length _ _ _ (by omega)
      have hne12 : readFileContentStep ≠ readLastSegStep := by decide
      obtain ⟨D, e1, e2, e3, e4, e5, e6, e7⟩ := readBody_data w
        { sup with firstSeg := [], step := readFileContentStep }
        (writeAt p 0 sup.firstSeg) sup.firstSeg.length (mirrorApart_of w w sup _ hap rfl rfl)
        hnf (Or.inl rfl)
        (fun h => absurd h hne12) (by omega)
      have hpre : (writeAt p 0 sup.firstSeg).take sup.firstSeg.length = sup.firstSeg := by
        have := take_writeAt p 0 sup.firstSeg (Nat.zero_le _)
        simpa using this
      rw [hpre] at e1
      dsimp only at e2 e7
      refine ⟨⟨e3, ?_, fun _ => e7, fun h => ⟨e7, e5 h⟩⟩, ?_, e6, ?_⟩
      · rcases e4 with h | h
        · right; left; exact h
        · right; right; exact h
      · unfold pending
        rw [e1, e7]
        simp only [List.nil_append, List.append_assoc]
        rw [e2]
      · intro _ h
        rcases e4 with h' | h' <;> rw [h'] at h <;> exact absurd h (by decide)
  · have hph' : sup.step = readFileContentStep ∨ sup.step = readLastSegStep := by
      rcases hph with h | h | h
      · exact absurd h hs
      · exact Or.inl h
      · exact Or.inr h
    have hfs : sup.firstSeg = [] := by
      rcases hph' with h | h
      · exact h1 h
      · exact (h2 h).1
    rw [Read_not_head w sup p hs]
    obtain ⟨D, e1, e2, e3, e4, e5, e6, e7⟩ := readBody_data w sup p 0 hap hnf hph'
      (fun h => (h2 h).2) (Nat.zero_le _)
    rw [List.take_zero, List.nil_append] at e1
    refine ⟨⟨e3, ?_, fun _ => by rw [e7]; exact hfs, fun h => ⟨by rw [e7]; exact hfs, e5 h⟩⟩,
      ?_, e6, ?_⟩
    · rcases e4 with h | h
      · right; left; exact h
      · right; right; exact h
    · unfold pending
      rw [e1, e7, hfs]
      simp only [List.nil_append]
      exact e2
    · intro _ h
      rcases e4 with h' | h' <;> rw [h'] at h <;> exact absurd h (by decide)

/-- A constructed body: phase HEAD, the handle `os.Open` gave, and a head
that is not empty. -/
theorem newBody_fresh (f : File) (rnd1 rnd2 : List Byte) (N P : GoString)
    (fieldParams : List (GoString × GoString)) (debugInfo : Option UpDebugInfo) :
    (newBody f rnd1 rnd2 N P fieldParams debugInfo).step = readFirstSegStep ∧
    (newBody f rnd1 rnd2 N P fieldParams debugInfo).file = some f ∧
    (newBody f rnd1 rnd2 N P fieldParams debugInfo).firstSeg ≠ [] := by
  obtain ⟨_, h2, h3⟩ := addFile_ok zeroStreamUpload f rnd1 rnd2 N P fieldParams debugInfo
  refine ⟨h2, h3, ?_⟩
  obtain ⟨t, ht⟩ := addFile_firstSeg_prefix f rnd1 rnd2 N P fieldParams debugInfo
  unfold newBody
  rw [← ht]
  simp [lit]

/-- A constructed body whose file source does not fail satisfies the
invariant of the stream. -/
theorem newBody_inv (f : File) (rnd1 rnd2 : List Byte) (N P : GoString)
    (fieldParams : List (GoString × GoString)) (debugInfo : Option UpDebugInfo)
    (hnf : f.script.all ReadEvent.isChunk = true) :
    StreamInv (newBody f rnd1 rnd2 N P fieldParams debugInfo) := by
  obtain ⟨h1, h2, _⟩ := newBody_fresh f rnd1 rnd2 N P fieldParams debugInfo
  refine ⟨by rw [h2]; exact hnf, Or.inl h1, ?_, ?_⟩
  · intro h; rw [h1] at h; exact absurd h (by decide)
  · intro h; rw [h1] at h; exact absurd h (by decide)

/-- A run of `Read` calls with non-empty buffers on an upload whose file
source does not fail and is out of reach of the mirror: every `n` is at most
the length of its buffer, and the bytes delivered, followed by the bytes still
to be delivered, are the bytes that were to be delivered at the start. -/
theorem run_data (ps : List (List Byte)) (hps : ∀ p ∈ ps, p ≠ []) (w : World)
    (sup : streamUpload) (hinv : StreamInv sup) (hap : mirrorApart w sup) :
    List.Forall₂ (fun p r => r.n ≤ p.length) ps (run w sup (ps.map Call.read)).2.2 ∧
    ((run w sup (ps.map Call.read)).2.2.map Reply.bytes).flatten ++
      pending (run w sup (ps.map Call.read)).2.1 = pending sup := by
  induction ps generalizing w sup with
  | nil => simp [run]
  | cons p ps ih =>
    have hp : p ≠ [] := hps p (List.mem_cons_self _ _)
    obtain ⟨i1, d2, _, _⟩ := Read_data w sup p hinv hap hp
    obtain ⟨j1, j2⟩ := ih (fun q h => hps q (List.mem_cons_of_mem _ h))
      (Read w sup p).world (Read w sup p).sup i1 (Read_apart w sup p hap)
    simp only [List.map_cons, run, List.flatten_cons]
    refine ⟨List.Forall₂.cons (Read_basic w sup p).2.1 j1, ?_⟩
    rw [List.append_assoc, j2, d2]

/-- In phase HEAD the rest of the head and of the file lie ahead of the tail. -/
theorem ahead_head (sup : streamUpload) (h : sup.step = readFirstSegStep) :
    ahead sup = sup.firstSeg ++ fileData sup.file := by
  have h2 : sup.step ≠ readLastSegStep := by rw [h]; decide
  unfold ahead
  rw [if_pos h, if_neg h2]

/-- In phase BODY the rest of the file lies ahead of the tail. -/
theorem ahead_body (sup : streamUpload) (h : sup.step = readFileContentStep) :
    ahead sup = fileData sup.file := by
  have h1 : sup.step ≠ readFirstSegStep := by rw [h]; decide
  have h2 : sup.step ≠ readLastSegStep := by rw [h]; decide
  unfold ahead
  rw [if_neg h1, if_neg h2]
  rfl

/-- In phase TAIL nothing lies ahead of the tail. -/
theorem ahead_tail (sup : streamUpload) (h : sup.step = readLastSegStep) :
    ahead sup = [] := by
  have h1 : sup.step ≠ readFirstSegStep := by rw [h]; decide
  unfold ahead
  rw [if_neg h1, if_pos h]
  rfl

/-- The file and tail branches of `Read` on a file source that does not fail,
in every world: the bytes copied behind `p[:gotLen]` are the first bytes of
the rest of the file followed by the rest of the tail, as many as fit; the
error is `io.EOF` exactly when the buffer is not filled; the phase becomes
TAIL when the file bytes do not fill the buffer and stays BODY when they
do. -/
theorem readBody_stream (w : World) (sup : streamUpload) (p : List Byte) (gotLen : Nat)
    (hph : sup.step = readFileContentStep ∨ sup.step = readLastSegStep)
    (hnf : sup.step = readFileContentStep → fileNeverFails sup.file)
    (hg : gotLen ≤ p.length) :
    (readBody w sup p gotLen).p.take (readBody w sup p gotLen).n =
      p.take gotLen ++ (ahead sup ++ sup.lastSeg).take (p.length - gotLen) ∧
    (readBody w sup p gotLen).n =
      gotLen + ((ahead sup ++ sup.lastSeg).take (p.length - gotLen)).length ∧
    (readBody w sup p gotLen).err =
      (if gotLen + (ahead sup ++ sup.lastSeg).length < p.length then some GoError.EOF
        else none) ∧
    (gotLen + (ahead sup).length < p.length →
      (readBody w sup p gotLen).sup.step = readLastSegStep ∧
      (readBody w sup p gotLen).sup.lastSeg =
        sup.lastSeg.drop (p.length - gotLen - (ahead sup).length)) ∧
    (sup.step = readFileContentStep → p.length ≤ gotLen + (ahead sup).length →
      (readBody w sup p gotLen).sup.step = readFileContentStep) := by
  by_cases hs : sup.step = readFileContentStep
  · rw [ahead_body sup hs]
    have hnf0 := hnf hs
    cases hfile : sup.file with
    | none => rw [hfile] at hnf0; exact absurd hnf0 (by simp [fileNeverFails])
    | some f =>
      rw [hfile] at hnf0
      have hnf' : f.script.all ReadEvent.isChunk = true := hnf0
      have hb := bodyLoop_basic (p.length + 1) sup p gotLen hg (by omega)
      have hd := bodyLoop_data (p.length + 1) sup p gotLen f hfile hnf' hg (by omega)
      unfold readBody
      rw [if_pos hs]
      rcases hloop : bodyLoop (p.length + 1) sup p gotLen with ⟨sup1, p1, g1, ex⟩
      rw [hloop] at hb hd
      obtain ⟨b1, b2, b3, b4, b5, b6, b7, b8, b9, b10, b11, b12⟩ := hb
      obtain ⟨f1, D, d1, d2, d3, d4, d5, d6⟩ := hd
      dsimp only at b1 b2 b3 b4 b5 b6 b7 b8 b9 b10 b11 b12 d1 d4 d5 d6
      have hfd : fileData (some f) = f.data := rfl
      rw [hfd]
      rcases d6 with ⟨hex, hempty, hst⟩ | ⟨hex, hfull, hst⟩
      · subst hex
        have hlt : g1 < p.length := by
          rcases b12 with ⟨e, h, _⟩ | ⟨_, _, h⟩ | ⟨h, _⟩
          · cases h
          · exact h
          · cases h
        have hD : f.data = D := by rw [d2, hempty, List.append_nil]
        dsimp only
        rw [if_neg (by omega)]
        obtain ⟨o1, o2, o3, o4, o5, o6, o7⟩ := readTail_out w sup1 p1 g1 hst (by omega)
        have htk : (f.data ++ sup.lastSeg).take (p.length - gotLen) =
            D ++ sup.lastSeg.take (p.length - g1) := by
          rw [List.take_append_eq_append_take, hD, List.take_of_length_le (by omega)]
          congr 2
          omega
        refine ⟨?_, ?_, ?_, ?_, ?_⟩
        · rw [o2, o3, take_writeAt p1 g1 _ (by omega), d4, List.append_assoc, htk, b6, b1]
        · rw [o3, htk, b6, b1, List.length_append]; omega
        · rw [o4, b6, b1, List.length_append, hD]
          have e1 : (sup.lastSeg.take (p.length - g1)).length =
              min (p.length - g1) sup.lastSeg.length := List.length_take _ _
          rw [e1]
          by_cases hc : gotLen + (D.length + sup.lastSeg.length) < p.length
          · rw [if_pos hc, if_pos (by omega)]
          · rw [if_neg hc, if_neg (by omega)]
        · intro _
          refine ⟨by rw [o7]; exact hst, ?_⟩
          rw [o1, b6, b1, hD]
          congr 1
          omega
        · intro _ h
          rw [hD] at h
          omega
      · subst hex
        dsimp only
        rw [if_pos hfull]
        dsimp only
        obtain ⟨t1, t2, t3, t4, t5, t6, t7⟩ := toDebugFile_frame w sup1 p1 g1
        have htk : (f.data ++ sup.lastSeg).take (p.length - gotLen) = D := by
          rw [d2, List.append_assoc, List.take_append_eq_append_take,
            List.take_of_length_le (by omega)]
          have : p.length - gotLen - D.length = 0 := by omega
          rw [this, List.take_zero, List.append_nil]
        refine ⟨?_, ?_, ?_, ?_, ?_⟩
        · rw [d4, htk]
        · rw [htk]; exact d5
        · rw [if_neg]
          rw [List.length_append, d2, List.length_append]
          omega
        · intro h
          rw [d2, List.length_append] at h
          omega
        · intro _ _
          rw [t4, hst]; exact hs
  · have hs2 : sup.step = readLastSegStep := by
      rcases hph with h | h
      · exact absurd h hs
      · exact h
    rw [ahead_tail sup hs2]
    unfold readBody
    rw [if_neg hs]
    obtain ⟨o1, o2, o3, o4, o5, o6, o7⟩ := readTail_out w sup p gotLen hs2 hg
    simp only [List.nil_append, List.length_nil, Nat.add_zero, Nat.sub_zero]
    refine ⟨?_, o3, ?_, ?_, ?_⟩
    · rw [o2, o3, take_writeAt p gotLen _ hg]
    · rw [o4]
      have e1 : (sup.lastSeg.take (p.length - gotLen)).length =
          min (p.length - gotLen) sup.lastSeg.length := List.length_take _ _
      rw [e1]
      by_cases hc : gotLen + sup.lastSeg.length < p.length
      · rw [if_pos hc, if_pos (by omega)]
      · rw [if_neg hc, if_neg (by omega)]
    · intro _
      exact ⟨by rw [o7]; exact hs2, o1⟩
    · intro h; exact absurd h hs

/-- Method `Read` on an upload whose file source does not fail, in every
world and whatever the mirror does: the bytes delivered are the first
`len(p)` bytes of what lies ahead of the tail followed by the tail (all of
them when there are fewer); `n` is their number; the error is `io.EOF`
exactly when they do not fill the buffer; the phase becomes TAIL when the
bytes ahead of the tail do not fill the buffer, and the tail keeps what was
not delivered; in phase BODY the phase stays when the file bytes fill the
buffer. -/
theorem Read_stream (w : World) (sup : streamUpload) (p : List Byte)
    (hph : validPhase sup)
    (hh : sup.step = readFirstSegStep → sup.firstSeg ≠ [] ∨ p = [])
    (hnf : sup.step ≠ readLastSegStep → fileNeverFails sup.file) :
    (Read w sup p).p.take (Read w sup p).n = (ahead sup ++ sup.lastSeg).take p.length ∧
    (Read w sup p).n = ((ahead sup ++ sup.lastSeg).take p.length).length ∧
    (Read w sup p).err =
      (if (ahead sup ++ sup.lastSeg).length < p.length then some GoError.EOF else none) ∧
    ((ahead sup).length < p.length →
      (Read w sup p).sup.step = readLastSegStep ∧
      (Read w sup p).sup.lastSeg = sup.lastSeg.drop (p.length - (ahead sup).length)) ∧
    (sup.step = readFileContentStep → p.length ≤ (ahead sup).length →
      (Read w sup p).sup.step = readFileContentStep) := by
  have hne12 : readFileContentStep ≠ readLastSegStep := by decide
  have hne01 : readFirstSegStep ≠ readFileContentStep := by decide
  have hne02 : readFirstSegStep ≠ readLastSegStep := by decide
  by_cases hs : sup.step = readFirstSegStep
  · have hnf0 : fileNeverFails sup.file := hnf (by rw [hs]; exact hne02)
    rw [ahead_head sup hs]
    rcases Read_head_cases sup p with ⟨hd, hp⟩ | ⟨hp, hle⟩ | hlt
    · rcases hh hs with h | h
      · exact absurd hd h
      · exact absurd h hp
    · rw [Read_head_full w sup p hs hp hle]
      dsimp only
      obtain ⟨t1, t2, t3, t4, t5, t6, t7⟩ := toDebugFile_frame w
        { sup with firstSeg := sup.firstSeg.drop p.length } (sup.firstSeg.take p.length) p.length
      have htk : (sup.firstSeg ++ fileData sup.file ++ sup.lastSeg).take p.length =
          sup.firstSeg.take p.length := by
        rw [List.append_assoc, List.take_append_eq_append_take]
        have : p.length - sup.firstSeg.length = 0 := by omega
        rw [this, List.take_zero, List.append_nil]
      have hl : (sup.firstSeg.take p.length).length = p.length := by
        rw [List.length_take]; omega
      refine ⟨?_, ?_, ?_, ?_, ?_⟩
      · rw [htk, List.take_take, Nat.min_self]
      · rw [htk, hl]
      · rw [if_neg]
        simp only [List.length_append]
        omega
      · intro h
        rw [List.length_append] at h
        omega
      · intro h; rw [hs] at h; exact absurd h hne01
    · rw [Read_head_through w sup p hs hlt]
      have hg : (sup.firstSeg.take p.length).length ≤
          (writeAt p 0 (sup.firstSeg.take p.length)).length := by
        rw [writeAt_length _ _ _ (by simp)]; simp
      obtain ⟨r1, r2, r3, r4, r5⟩ := readBody_stream w
        { sup with firstSeg := sup.firstSeg.drop p.length, step := readFileContentStep }
        (writeAt p 0 (sup.firstSeg.take p.length)) (sup.firstSeg.take p.length).length
        (Or.inl rfl) (fun _ => hnf0) hg
      rw [ahead_body _ rfl] at r1 r2 r3 r4
      have hwl : (writeAt p 0 (sup.firstSeg.take p.length)).length = p.length :=
        writeAt_length _ _ _ (by simp)
      rw [hwl] at r1 r2 r3 r4
      dsimp only at r1 r2 r3 r4
      have hpre : (writeAt p 0 (sup.firstSeg.take p.length)).take
          (sup.firstSeg.take p.length).length = sup.firstSeg.take p.length := by
        have := take_writeAt p 0 (sup.firstSeg.take p.length) (Nat.zero_le _)
        simpa using this
      rw [hpre] at r1
      rcases hlt with ⟨hne, hlt⟩ | hp
      · have htake : sup.firstSeg.take p.length = sup.firstSeg :=
          List.take_of_length_le (by omega)
        rw [htake] at r1 r2 r3 r4 ⊢
        have htk : (sup.firstSeg ++ fileData sup.file ++ sup.lastSeg).take p.length =
            sup.firstSeg ++ (fileData sup.file ++ sup.lastSeg).take
              (p.length - sup.firstSeg.length) := by
          rw [List.append_assoc, List.take_append_eq_append_take,
            List.take_of_length_le (by omega)]
        refine ⟨?_, ?_, ?_, ?_, ?_⟩
        · rw [r1, htk]
        · rw [r2, htk, List.length_append]
        · rw [r3]
          simp only [List.length_append]
          by_cases hc : sup.firstSeg.length + (fileData sup.file).length + sup.lastSeg.length
              < p.length
          · rw [if_pos hc, if_pos (by omega)]
          · rw [if_neg hc, if_neg (by omega)]
        · intro h
          rw [List.length_append] at h
          obtain ⟨u1, u2⟩ := r4 (by omega)
          refine ⟨u1, ?_⟩
          rw [u2, List.length_append]
          congr 1
          omega
        · intro h; rw [hs] at h; exact absurd h hne01
      · subst hp
        simp only [List.length_nil, List.take_zero, List.append_nil, Nat.sub_zero,
          Nat.zero_add] at r1 r2 r3 r4 ⊢
        refine ⟨r1, r2, ?_, ?_, ?_⟩
        · rw [r3]
          simp
        · intro h; omega
        · intro h; rw [hs] at h; exact absurd h hne01
  · have hph' : sup.step = readFileContentStep ∨ sup.step = readLastSegStep := by
      rcases hph with h | h | h
      · exact absurd h hs
      · exact Or.inl h
      · exact Or.inr h
    rw [Read_not_head w sup p hs]
    obtain ⟨r1, r2, r3, r4, r5⟩ := readBody_stream w sup p 0 hph'
      (fun h => hnf (by rw [h]; exact hne12)) (Nat.zero_le _)
    simp only [List.take_zero, List.nil_append, Nat.sub_zero, Nat.zero_add] at r1 r2 r3 r4 r5
    exact ⟨r1, r2, r3, r4, r5⟩

/-- C17: fall-through across all phases in one call. For a constructed body
with head `H`, tail `T` and a file source with content `F` that does not
fail, however it cuts `F` into partial reads, and every buffer `p` with
`len(p) > len(H) + len(F) + len(T)`, a single `Read` returns
`n = len(H) + len(F) + len(T)` with `p[:n] = H ++ F ++ T` and the error
`io.EOF`, and leaves the phase at TAIL. -/
theorem C17_fall_through (w : World) (f : File) (rnd1 rnd2 : List Byte) (N P : GoString)
    (fieldParams : List (GoString × GoString)) (debugInfo : Option UpDebugInfo)
    (p : List Byte) (hnf : f.script.all ReadEvent.isChunk = true)
    (hlen : (newBody f rnd1 rnd2 N P fieldParams debugInfo).firstSeg.length + f.data.length +
      (newBody f rnd1 rnd2 N P fieldParams debugInfo).lastSeg.length < p.length) :
    (Read w (newBody f rnd1 rnd2 N P fieldParams debugInfo) p).n =
      (newBody f rnd1 rnd2 N P fieldParams debugInfo).firstSeg.length + f.data.length +
        (newBody f rnd1 rnd2 N P fieldParams debugInfo).lastSeg.length ∧
    (Read w (newBody f rnd1 rnd2 N P fieldParams debugInfo) p).p.take
        (Read w (newBody f rnd1 rnd2 N P fieldParams debugInfo) p).n =
      (newBody f rnd1 rnd2 N P fieldParams debugInfo).firstSeg ++ f.data ++
        (newBody f rnd1 rnd2 N P fieldParams debugInfo).lastSeg ∧
    (Read w (newBody f rnd1 rnd2 N P fieldParams debugInfo) p).err = some GoError.EOF ∧
    (Read w (newBody f rnd1 rnd2 N P fieldParams debugInfo) p).sup.step = readLastSegStep := by
  obtain ⟨h1, h2, h3⟩ := newBody_fresh f rnd1 rnd2 N P fieldParams debugInfo
  have hah : ahead (newBody f rnd1 rnd2 N P fieldParams debugInfo) =
      (newBody f rnd1 rnd2 N P fieldParams debugInfo).firstSeg ++ f.data := by
    rw [ahead_head _ h1, h2]; rfl
  obtain ⟨r1, r2, r3, r4, _⟩ := Read_stream w (newBody f rnd1 rnd2 N P fieldParams debugInfo) p
    (Or.inl h1) (fun _ => Or.inl h3) (fun _ => by rw [h2]; exact hnf)
  rw [hah] at r1 r2 r3 r4
  have htk : ((newBody f rnd1 rnd2 N P fieldParams debugInfo).firstSeg ++ f.data ++
      (newBody f rnd1 rnd2 N P fieldParams debugInfo).lastSeg).take p.length =
      (newBody f rnd1 rnd2 N P fieldParams debugInfo).firstSeg ++ f.data ++
        (newBody f rnd1 rnd2 N P fieldParams debugInfo).lastSeg :=
    List.take_of_length_le (by simp only [List.length_append]; omega)
  rw [htk] at r1 r2
  refine ⟨by rw [r2]; simp only [List.length_append], r1, ?_, ?_⟩
  · rw [r3, if_pos (by simp only [List.length_append]; omega)]
  · exact (r4 (by rw [List.length_append]; omega)).1

set_option maxRecDepth 100000 in
/-- C17 at Scenario A with a file source that hands over `hello` in reads of
2, 1 and 2 bytes, and a buffer of 300 bytes. -/
theorem C17_fall_through_witness :
    (Read world0 (newBody ⟨lit "hello", [ReadEvent.chunk 2, ReadEvent.chunk 1], none, 0⟩ [] []
      (lit "file") (lit "a.txt") [] (some ⟨lit "XYZ", []⟩)) (List.replicate 300 0)).err =
      some GoError.EOF ∧
    (Read world0 (newBody ⟨lit "hello", [ReadEvent.chunk 2, ReadEvent.chunk 1], none, 0⟩ [] []
      (lit "file") (lit "a.txt") [] (some ⟨lit "XYZ", []⟩)) (List.replicate 300 0)).p.take
      (Read world0 (newBody ⟨lit "hello", [ReadEvent.chunk 2, ReadEvent.chunk 1], none, 0⟩ [] []
        (lit "file") (lit "a.txt") [] (some ⟨lit "XYZ", []⟩)) (List.replicate 300 0)).n =
      scenarioA.firstSeg ++ lit "hello" ++ scenarioA.lastSeg :=
  have h := C17_fall_through world0 ⟨lit "hello", [ReadEvent.chunk 2, ReadEvent.chunk 1], none, 0⟩
    [] [] (lit "file") (lit "a.txt") [] (some ⟨lit "XYZ", []⟩) (List.replicate 300 0)
    (by decide) (by decide)
  ⟨h.2.2.1, h.2.1⟩

/-- Writing at the end of the mirror file appends. -/
theorem overwrite_end (disk data : List Byte) :
    overwrite disk disk.length data = disk ++ data := by
  unfold overwrite
  split
  · rename_i h
    rw [List.isEmpty_iff] at h
    rw [h, List.append_nil]
  · simp [writeAt]

/-- Method `toDebugFile` with a working mirror and a handle that is not
closed: `p[:n]` is appended to the mirror file, and the handle stands at its
end, open. -/
theorem toDebugFile_mirror (w : World) (sup : streamUpload) (p : List Byte) (n : Nat)
    (hinv : MirrorInv w sup) (hopen : mirrorOpen sup) :
    (toDebugFile w sup p n).1.mirrorDisk = w.mirrorDisk ++ p.take n ∧
    MirrorInv (toDebugFile w sup p n).1 (toDebugFile w sup p n).2 ∧
    mirrorOpen (toDebugFile w sup p n).2 := by
  obtain ⟨⟨ho, hw⟩, hd, hout⟩ := hinv
  have hwrite : ∀ (w1 : World) (src : Option File) (o : OutFile), o.closed = false →
      o.off = w1.mirrorDisk.length → w1.writeScript.all Option.isNone = true →
      (OutFile.Write w1 src o (p.take n)).1.mirrorDisk = w1.mirrorDisk ++ p.take n ∧
      (OutFile.Write w1 src o (p.take n)).1.openScript = w1.openScript ∧
      (OutFile.Write w1 src o (p.take n)).1.writeScript.all Option.isNone = true ∧
      (OutFile.Write w1 src o (p.take n)).2.2.1.off = (w1.mirrorDisk ++ p.take n).length ∧
      (OutFile.Write w1 src o (p.take n)).2.2.1.closed = false := by
    intro w1 src o hc hoff hws
    unfold OutFile.Write
    rw [if_neg (by simp [hc])]
    have hl : (match w1.writeScript with
        | some l :: _ => min l (p.take n).length
        | _ => (p.take n).length) = (p.take n).length := by
      cases hsc : w1.writeScript with
      | nil => rfl
      | cons x xs =>
        cases x with
        | none => rfl
        | some l => rw [hsc] at hws; simp at hws
    dsimp only
    rw [hl, List.take_length, hoff, overwrite_end]
    refine ⟨rfl, rfl, ?_, by simp, hc⟩
    cases hsc : w1.writeScript with
    | nil => rfl
    | cons x xs => rw [hsc] at hws; simp at hws ⊢; exact hws.2
  unfold toDebugFile
  rw [hd]
  simp only [Bool.not_true, Bool.false_eq_true, if_false]
  cases hso : sup.out with
  | some o =>
    rw [hso] at hout
    obtain ⟨w1, w2, w3, w4, w5⟩ := hwrite w sup.file o (hopen o hso) hout hw
    dsimp only
    rw [hso]
    dsimp only
    refine ⟨w1, ⟨⟨by rw [w2]; exact ho, w3⟩, hd, ?_⟩, ?_⟩
    · dsimp only; rw [w4, w1]
    · intro o' ho'
      dsimp only at ho'
      rw [← Option.some.inj ho']; exact w5
  | none =>
    rw [hso] at hout
    dsimp only at hout
    have hopenM : (openMirror w).2 = some ⟨0, false⟩ ∧ (openMirror w).1.mirrorDisk = w.mirrorDisk ∧
        (openMirror w).1.openScript.all id = true ∧
        (openMirror w).1.writeScript = w.writeScript := by
      unfold openMirror
      cases hsc : w.openScript with
      | nil => exact ⟨rfl, rfl, ho, rfl⟩
      | cons b bs =>
        rw [hsc] at ho
        simp at ho
        obtain ⟨hb, hbs⟩ := ho
        subst hb
        exact ⟨rfl, rfl, by simpa using hbs, rfl⟩
    obtain ⟨m1, m2, m3, m4⟩ := hopenM
    obtain ⟨w1, w2, w3, w4, w5⟩ := hwrite (openMirror w).1 sup.file ⟨0, false⟩ rfl
      (by rw [m2, hout]; rfl) (by rw [m4]; exact hw)
    dsimp only
    rw [m1]
    dsimp only
    refine ⟨by rw [w1, m2], ⟨⟨by rw [w2]; exact m3, w3⟩, rfl, ?_⟩, ?_⟩
    · dsimp only; rw [w4, w1]
    · intro o' ho'
      dsimp only at ho'
      rw [← Option.some.inj ho']; exact w5

/-- The invariant of the mirror looks only at the world and at the fields
`debugMode` and `out`. -/
theorem MirrorInv_of_out (w : World) (s s2 : streamUpload) (h : MirrorInv w s)
    (hd : s2.debugMode = s.debugMode) (ho : s2.out = s.out) : MirrorInv w s2 := by
  unfold MirrorInv at h ⊢
  rw [hd, ho]
  exact h

/-- Method `toDebugFile` on a closed mirror handle writes nothing: the world
and the handle stay. -/
theorem toDebugFile_closed (w : World) (sup : streamUpload) (p : List Byte) (n : Nat)
    (o : OutFile) (hd : sup.debugMode = true) (ho : sup.out = some o) (hc : o.closed = true) :
    (toDebugFile w sup p n).1 = w ∧ (toDebugFile w sup p n).2.out = some o ∧
    (toDebugFile w sup p n).2.debugMode = true := by
  unfold toDebugFile
  rw [hd]
  simp only [Bool.not_true, Bool.false_eq_true, if_false, ho]
  unfold OutFile.Write
  rw [if_pos hc]
  exact ⟨rfl, rfl, hd⟩

/-- Method `closeDebugOutFile` keeps the invariant of the mirror, and after it
the handle, when there is one, is closed. -/
theorem closeDebugOutFile_mirror (w : World) (sup : streamUpload) (h : MirrorInv w sup) :
    MirrorInv w (closeDebugOutFile sup) ∧
    (∀ o, (closeDebugOutFile sup).out = some o → o.closed = true) := by
  unfold MirrorInv at h ⊢
  unfold closeDebugOutFile
  cases ho : sup.out with
  | none =>
    rw [ho] at h
    dsimp only at h ⊢
    rw [ho]
    exact ⟨h, fun o h' => by cases h'⟩
  | some o =>
    rw [ho] at h
    dsimp only at h ⊢
    exact ⟨h, fun o' h' => by rw [← Option.some.inj h']⟩

/-- The tail branch of `Read` in phase TAIL: the world and the receiver after
it in terms of what `toDebugFile` returns. -/
theorem readTail_world (w : World) (sup : streamUpload) (p : List Byte) (gotLen : Nat)
    (hs : sup.step = readLastSegStep) (hg : gotLen ≤ p.length) :
    (readTail w sup p gotLen).world =
      (toDebugFile w { sup with lastSeg := sup.lastSeg.drop (p.length - gotLen) }
        (writeAt p gotLen (sup.lastSeg.take (p.length - gotLen)))
        (gotLen + (sup.lastSeg.take (p.length - gotLen)).length)).1 ∧
    (gotLen + (sup.lastSeg.take (p.length - gotLen)).length < p.length →
      (readTail w sup p gotLen).sup =
        closeDebugOutFile (toDebugFile w { sup with lastSeg := sup.lastSeg.drop (p.length - gotLen) }
          (writeAt p gotLen (sup.lastSeg.take (p.length - gotLen)))
          (gotLen + (sup.lastSeg.take (p.length - gotLen)).length)).2) ∧
    (¬ gotLen + (sup.lastSeg.take (p.length - gotLen)).length < p.length →
      (readTail w sup p gotLen).sup =
        (toDebugFile w { sup with lastSeg := sup.lastSeg.drop (p.length - gotLen) }
          (writeAt p gotLen (sup.lastSeg.take (p.length - gotLen)))
          (gotLen + (sup.lastSeg.take (p.length - gotLen)).length)).2) := by
  rw [readTail_eq w sup p gotLen hs hg]
  refine ⟨by split <;> rfl, fun h => by rw [if_pos h], fun h => by rw [if_neg h]⟩

/-- The tail branch of `Read` with a working mirror: `p[:n]` is appended to
the mirror file. When the mirror handle is closed already, the tail is
drained and the call delivers nothing. -/
theorem readTail_mirror (w : World) (sup : streamUpload) (p : List Byte) (gotLen : Nat)
    (hg : gotLen ≤ p.length) (hinv : MirrorInv w sup) (hce : closedAtEnd sup)
    (hcl : ∀ o, sup.out = some o → o.closed = true → gotLen = 0) :
    (readTail w sup p gotLen).world.mirrorDisk =
      w.mirrorDisk ++ (readTail w sup p gotLen).p.take (readTail w sup p gotLen).n ∧
    MirrorInv (readTail w sup p gotLen).world (readTail w sup p gotLen).sup ∧
    closedAtEnd (readTail w sup p gotLen).sup := by
  by_cases hs : sup.step = readLastSegStep
  · obtain ⟨o1, o2, o3, o4, o5, o6, o7⟩ := readTail_out w sup p gotLen hs hg
    obtain ⟨x1, x2, x3⟩ := readTail_world w sup p gotLen hs hg
    by_cases hopen : mirrorOpen sup
    · obtain ⟨m1, m2, m3⟩ := toDebugFile_mirror w
        { sup with lastSeg := sup.lastSeg.drop (p.length - gotLen) }
        (writeAt p gotLen (sup.lastSeg.take (p.length - gotLen)))
        (gotLen + (sup.lastSeg.take (p.length - gotLen)).length)
        (MirrorInv_of_out w sup _ hinv rfl rfl) hopen
      refine ⟨by rw [x1, m1, o2, o3], ?_, ?_⟩
      · by_cases hlt : gotLen + (sup.lastSeg.take (p.length - gotLen)).length < p.length
        · rw [x1, x2 hlt]
          exact (closeDebugOutFile_mirror _ _ m2).1
        · rw [x1, x3 hlt]
          exact m2
      · by_cases hlt : gotLen + (sup.lastSeg.take (p.length - gotLen)).length < p.length
        · intro o _ _
          refine ⟨by rw [o7]; exact hs, ?_⟩
          rw [o1, List.drop_eq_nil_iff]
          simp only [List.length_take] at hlt
          omega
        · intro o ho hc
          rw [x3 hlt] at ho
          rw [m3 o ho] at hc
          cases hc
    · unfold mirrorOpen at hopen
      push_neg at hopen
      obtain ⟨o, ho, hc⟩ := hopen
      have hc' : o.closed = true := by simpa using hc
      obtain ⟨-, hl⟩ := hce o ho hc'
      have hg0 := hcl o ho hc'
      subst hg0
      obtain ⟨k1, k2, k3⟩ := toDebugFile_closed w
        { sup with lastSeg := sup.lastSeg.drop (p.length - 0) }
        (writeAt p 0 (sup.lastSeg.take (p.length - 0)))
        (0 + (sup.lastSeg.take (p.length - 0)).length) o hinv.2.1 ho hc'
      have hn : (readTail w sup p 0).n = 0 := by rw [o3, hl]; simp
      have hlast : (readTail w sup p 0).sup.lastSeg = [] := by rw [o1, hl]; simp
      have hout : (readTail w sup p 0).sup.out = sup.out ∧
          (readTail w sup p 0).sup.debugMode = sup.debugMode := by
        by_cases hlt : 0 + (sup.lastSeg.take (p.length - 0)).length < p.length
        · rw [x2 hlt]
          refine ⟨?_, by rw [(closeDebugOutFile_frame _).2.2.2.2.2.2.1, k3, hinv.2.1]⟩
          unfold closeDebugOutFile
          rw [k2, ho]
          dsimp only
          cases o with
          | mk off closed => dsimp only at hc'; rw [hc']
        · rw [x3 hlt]
          exact ⟨by rw [k2, ho], by rw [k3, hinv.2.1]⟩
      refine ⟨by rw [hn, List.take_zero, List.append_nil, x1, k1], ?_, ?_⟩
      · rw [x1, k1]
        exact MirrorInv_of_out w sup _ hinv hout.2 hout.1
      · intro _ _ _
        exact ⟨by rw [o7]; exact hs, hlast⟩
  · simp only [readTail, hs, if_false]
    exact ⟨by simp, hinv, hce⟩

/-- A receiver whose mirror handle is not closed satisfies `closedAtEnd`, and
so does every receiver with the same handle. -/
theorem closedAtEnd_of_open (sup : streamUpload) (h : mirrorOpen sup) : closedAtEnd sup := by
  intro o ho hc
  rw [h o ho] at hc
  cases hc

/-- Outside phase TAIL the mirror handle is not closed. -/
theorem mirrorOpen_of_step (sup : streamUpload) (hce : closedAtEnd sup)
    (hs : sup.step ≠ readLastSegStep) : mirrorOpen sup := by
  intro o ho
  cases hc : o.closed with
  | false => rfl
  | true => exact absurd (hce o ho hc).1 hs

/-- The file and tail branches of `Read` with a working mirror: `p[:n]` is
appended to the mirror file. -/
theorem readBody_mirror (w : World) (sup : streamUpload) (p : List Byte) (gotLen : Nat)
    (hg : gotLen ≤ p.length) (hinv : MirrorInv w sup) (hce : closedAtEnd sup)
    (hcl : ∀ o, sup.out = some o → o.closed = true → gotLen = 0) :
    (readBody w sup p gotLen).world.mirrorDisk =
      w.mirrorDisk ++ (readBody w sup p gotLen).p.take (readBody w sup p gotLen).n ∧
    MirrorInv (readBody w sup p gotLen).world (readBody w sup p gotLen).sup ∧
    closedAtEnd (readBody w sup p gotLen).sup := by
  by_cases hs : sup.step = readFileContentStep
  · have hopen : mirrorOpen sup := mirrorOpen_of_step sup hce (by rw [hs]; decide)
    have hb := bodyLoop_basic (p.length + 1) sup p gotLen hg (by omega)
    unfold readBody
    rw [if_pos hs]
    rcases hloop : bodyLoop (p.length + 1) sup p gotLen with ⟨sup1, p1, g1, ex⟩
    rw [hloop] at hb
    obtain ⟨b1, b2, b3, b4, b5, b6, b7, b8, b9, b10, b11, b12⟩ := hb
    dsimp only at b1 b2 b3 b4 b5 b6 b7 b8 b9 b10 b11 b12
    have hinv1 : MirrorInv w sup1 := MirrorInv_of_out w sup sup1 hinv b9 b7
    have hopen1 : mirrorOpen sup1 := by
      intro o ho; rw [b7] at ho; exact hopen o ho
    rcases b12 with ⟨e, hex, _, _⟩ | ⟨hex, hst, hlt⟩ | ⟨hex, hst, heq⟩
    · subst hex
      dsimp only
      exact ⟨by simp, hinv1, closedAtEnd_of_open sup1 hopen1⟩
    · subst hex
      dsimp only
      rw [if_neg (by omega)]
      exact readTail_mirror w sup1 p1 g1 (by omega) hinv1 (closedAtEnd_of_open sup1 hopen1)
        (fun o ho hc => by rw [hopen1 o ho] at hc; cases hc)
    · subst hex
      dsimp only
      rw [if_pos heq]
      dsimp only
      obtain ⟨m1, m2, m3⟩ := toDebugFile_mirror w sup1 p1 g1 hinv1 hopen1
      exact ⟨m1, m2, closedAtEnd_of_open _ m3⟩
  · unfold readBody
    rw [if_neg hs]
    exact readTail_mirror w sup p gotLen hg hinv hce hcl

/-- Method `Read` with a working mirror: `p[:n]` is appended to the mirror
file, and the invariant of the mirror is kept. -/
theorem Read_mirror (w : World) (sup : streamUpload) (p : List Byte)
    (hinv : MirrorInv w sup) (hce : closedAtEnd sup) :
    (Read w sup p).world.mirrorDisk =
      w.mirrorDisk ++ (Read w sup p).p.take (Read w sup p).n ∧
    MirrorInv (Read w sup p).world (Read w sup p).sup ∧
    closedAtEnd (Read w sup p).sup := by
  by_cases hs : sup.step = readFirstSegStep
  · have hopen : mirrorOpen sup := mirrorOpen_of_step sup hce (by rw [hs]; decide)
    rcases Read_head_cases sup p with ⟨hh, hp⟩ | ⟨hp, hle⟩ | hlt
    · rw [Read_head_drained w sup p hs hh hp]
      exact ⟨by simp, hinv, hce⟩
    · rw [Read_head_full w sup p hs hp hle]
      dsimp only
      obtain ⟨m1, m2, m3⟩ := toDebugFile_mirror w
        { sup with firstSeg := sup.firstSeg.drop p.length } (sup.firstSeg.take p.length) p.length
        (MirrorInv_of_out w sup _ hinv rfl rfl) hopen
      exact ⟨m1, m2, closedAtEnd_of_open _ m3⟩
    · rw [Read_head_through w sup p hs hlt]
      exact readBody_mirror w _ _ _ (by rw [writeAt_length _ _ _ (by simp)]; simp)
        (MirrorInv_of_out w sup _ hinv rfl rfl) (closedAtEnd_of_open _ hopen)
        (fun o ho hc => by rw [hopen o ho] at hc; cases hc)
  · rw [Read_not_head w sup p hs]
    exact readBody_mirror w sup p 0 (Nat.zero_le _) hinv hce (fun _ _ _ => rfl)

/-- A run of `Read` calls with a working mirror: the mirror file grows by the
slices `p[:n]` returned, in order. -/
theorem run_mirror (ps : List (List Byte)) (w : World) (sup : streamUpload)
    (hinv : MirrorInv w sup) (hce : closedAtEnd sup) :
    (run w sup (ps.map Call.read)).1.mirrorDisk =
      w.mirrorDisk ++ ((run w sup (ps.map Call.read)).2.2.map Reply.bytes).flatten := by
  induction ps generalizing w sup with
  | nil => simp [run]
  | cons p ps ih =>
    obtain ⟨r1, r2, r3⟩ := Read_mirror w sup p hinv hce
    have := ih (Read w sup p).world (Read w sup p).sup r2 r3
    simp only [List.map_cons, run, List.flatten_cons]
    rw [this, r1, List.append_assoc]

/-- A constructed body with a mirror name: debug mode is on and there is no
mirror handle yet. -/
theorem newBody_debug (f : File) (rnd1 rnd2 : List Byte) (N P : GoString)
    (fieldParams : List (GoString × GoString)) (s o : GoString) (ho : o ≠ []) :
    (newBody f rnd1 rnd2 N P fieldParams (some ⟨s, o⟩)).debugMode = true ∧
    (newBody f rnd1 rnd2 N P fieldParams (some ⟨s, o⟩)).out = none := by
  have hl : o.length > 0 := List.length_pos.mpr ho
  unfold newBody addFile
  dsimp only
  rw [if_pos hl]
  split <;> exact ⟨rfl, rfl⟩

/-- C15: mirror fidelity. With the diagnostic mirror enabled at construction
(a mirror name is given), the mirror file empty at the start and every open
and write on it succeeding, after every sequence of `Read` calls on the
constructed body, up to the first `io.EOF` or beyond, the content of the
mirror file is the concatenation of the slices `p[:n]` the calls returned, in
order. -/
theorem C15_mirror_fidelity (w : World) (f : File) (rnd1 rnd2 : List Byte) (N P : GoString)
    (fieldParams : List (GoString × GoString)) (s o : GoString) (ps : List (List Byte))
    (ho : o ≠ []) (hdisk : w.mirrorDisk = []) (hw : mirrorWorks w) :
    (run w (newBody f rnd1 rnd2 N P fieldParams (some ⟨s, o⟩)) (ps.map Call.read)).1.mirrorDisk =
      ((run w (newBody f rnd1 rnd2 N P fieldParams (some ⟨s, o⟩))
        (ps.map Call.read)).2.2.map Reply.bytes).flatten := by
  obtain ⟨h1, h2⟩ := newBody_debug f rnd1 rnd2 N P fieldParams s o ho
  have hinv : MirrorInv w (newBody f rnd1 rnd2 N P fieldParams (some ⟨s, o⟩)) := by
    unfold MirrorInv
    rw [h2]
    exact ⟨hw, h1, hdisk⟩
  have hce : closedAtEnd (newBody f rnd1 rnd2 N P fieldParams (some ⟨s, o⟩)) := by
    intro o' ho'
    rw [h2] at ho'
    cases ho'
  rw [run_mirror ps w _ hinv hce, hdisk, List.nil_append]

set_option maxRecDepth 100000 in
/-- C15 at Scenario A with the mirror `m`: reads of 10, 100, 3, 50 and 1
bytes; the last two return `io.EOF`, and the mirror file holds the stream. -/
theorem C15_mirror_fidelity_witness :
    (run world0 (newBody scenarioAFile [] [] (lit "file") (lit "a.txt") []
        (some ⟨lit "XYZ", lit "m"⟩))
      ([List.replicate 10 0, List.replicate 100 0, List.replicate 3 0, List.replicate 50 0,
        [0]].map Call.read)).1.mirrorDisk =
      scenarioA.firstSeg ++ lit "hello" ++ scenarioA.lastSeg :=
  (C15_mirror_fidelity world0 scenarioAFile [] [] (lit "file") (lit "a.txt") [] (lit "XYZ")
    (lit "m") [List.replicate 10 0, List.replicate 100 0, List.replicate 3 0,
      List.replicate 50 0, [0]] (by decide) (by decide) (by decide)).trans (by decide)

/-- A receiver in phase TAIL with the tail drained stays so under every call,
`Read` with an empty buffer and `Close` included: every `Read` delivers no
byte, and returns `io.EOF` when its buffer is not empty. The end of the
stream reported in phase TAIL is final. -/
theorem run_tail_exhausted (cs : List Call) (w : World) (sup : streamUpload)
    (hs : sup.step = readLastSegStep) (hl : sup.lastSeg = []) :
    List.Forall₂ (fun c r => r.n = 0 ∧ r.bytes = [] ∧
      ∀ p, c = Call.read p → p ≠ [] → r.err = some GoError.EOF) cs (run w sup cs).2.2 ∧
    (run w sup cs).2.1.step = readLastSegStep ∧ (run w sup cs).2.1.lastSeg = [] := by
  induction cs generalizing w sup with
  | nil => exact ⟨List.Forall₂.nil, hs, hl⟩
  | cons c cs ih =>
    cases c with
    | read p =>
      have h0 : sup.step ≠ readFirstSegStep := by rw [hs]; decide
      have h1 : sup.step ≠ readFileContentStep := by rw [hs]; decide
      have hR : Read w sup p = readTail w sup p 0 := by
        rw [Read_not_head w sup p h0]
        unfold readBody
        rw [if_neg h1]
      obtain ⟨o1, o2, o3, o4, o5, o6, o7⟩ := readTail_out w sup p 0 hs (Nat.zero_le _)
      rw [← hR, hl] at o1 o3 o4
      rw [← hR] at o7
      simp only [List.drop_nil, List.take_nil, List.length_nil, Nat.add_zero] at o1 o3 o4
      obtain ⟨i1, i2, i3⟩ := ih (Read w sup p).world (Read w sup p).sup (by rw [o7]; exact hs) o1
      simp only [run]
      refine ⟨List.Forall₂.cons ⟨o3, by rw [o3, List.take_zero], ?_⟩ i1, i2, i3⟩
      intro q hq hne
      cases hq
      rw [o4, if_pos (List.length_pos.mpr hne)]
    | close =>
      have hc : (Close sup).1.step = sup.step ∧ (Close sup).1.lastSeg = sup.lastSeg := by
        unfold Close
        cases sup.file <;> exact ⟨rfl, rfl⟩
      obtain ⟨i1, i2, i3⟩ := ih w (Close sup).1 (by rw [hc.1]; exact hs) (by rw [hc.2]; exact hl)
      simp only [run]
      refine ⟨List.Forall₂.cons ⟨rfl, rfl, ?_⟩ i1, i2, i3⟩
      intro q hq
      cases hq

set_option maxRecDepth 100000 in
/-- C3 fails on the code at Scenario A. A read whose buffer has exactly the
length of the head returns the head and leaves the phase at HEAD; a read of
one byte then returns `(0, io.EOF)`; a read with an empty buffer returns
`(0, nil)` and moves the phase to BODY; and a later read of 500 bytes returns
16 bytes, `hello` and the tail, with `io.EOF`: bytes are delivered after the
exhaustion signal, and the head-drained state that gave the signal is left. -/
theorem C3_data_after_eof :
    (run world0 scenarioA
        [Call.read (List.replicate scenarioA.firstSeg.length 0), Call.read [0], Call.read [],
          Call.read (List.replicate 500 0)]).2.2 =
      [⟨scenarioA.firstSeg, scenarioA.firstSeg.length, none⟩, ⟨[], 0, some GoError.EOF⟩,
        ⟨[], 0, none⟩, ⟨lit "hello" ++ scenarioA.lastSeg, 16, some GoError.EOF⟩] ∧
    (run world0 scenarioA
        [Call.read (List.replicate scenarioA.firstSeg.length 0), Call.read [0]]).2.1.step =
      readFirstSegStep ∧
    (run world0 scenarioA
        [Call.read (List.replicate scenarioA.firstSeg.length 0), Call.read [0],
          Call.read []]).2.1.step = readFileContentStep := by
  decide

/-- C4: deferred exhaustion. For every receiver in phase TAIL, or in phase
BODY or HEAD (head not drained) with a file source that does not fail, in
every world: when the bytes up to the end of the tail (what lies ahead of the
tail, then the tail, which is not empty) are exactly as many as the buffer
holds, the `Read` call returns `n = len(p)` with a nil error, the buffer holds
those bytes and its last byte is the last byte of the tail, the tail is empty
and the phase TAIL after the call, and the next `Read` call with a non-empty
buffer returns `(0, io.EOF)`. -/
theorem C4_deferred_exhaustion (w : World) (sup : streamUpload) (p q : List Byte)
    (hq : q ≠ []) (hph : validPhase sup)
    (hh : sup.step = readFirstSegStep → sup.firstSeg ≠ [])
    (hnf : sup.step ≠ readLastSegStep → fileNeverFails sup.file)
    (hne : sup.lastSeg ≠ [])
    (hfit : (ahead sup).length + sup.lastSeg.length = p.length) :
    (Read w sup p).n = p.length ∧
    (Read w sup p).err = none ∧
    (Read w sup p).p = ahead sup ++ sup.lastSeg ∧
    (Read w sup p).p.getLast? = sup.lastSeg.getLast? ∧
    (Read w sup p).sup.lastSeg = [] ∧
    (Read w sup p).sup.step = readLastSegStep ∧
    (Read (Read w sup p).world (Read w sup p).sup q).n = 0 ∧
    (Read (Read w sup p).world (Read w sup p).sup q).err = some GoError.EOF := by
  obtain ⟨r1, r2, r3, r4, _⟩ := Read_stream w sup p hph (fun h => Or.inl (hh h)) hnf
  have hpos : 0 < sup.lastSeg.length := List.length_pos.mpr hne
  have hlen : (ahead sup ++ sup.lastSeg).length = p.length := by
    rw [List.length_append]; exact hfit
  have htk : (ahead sup ++ sup.lastSeg).take p.length = ahead sup ++ sup.lastSeg :=
    List.take_of_length_le (by omega)
  rw [htk] at r1 r2
  have hn : (Read w sup p).n = p.length := by rw [r2, hlen]
  have hp : (Read w sup p).p = ahead sup ++ sup.lastSeg := by
    rw [← r1, hn, ← (Read_basic w sup p).1, List.take_length]
  obtain ⟨u1, u2⟩ := r4 (by omega)
  have hd : (Read w sup p).sup.lastSeg = [] := by
    rw [u2, List.drop_eq_nil_iff]; omega
  obtain ⟨x1, x2, _⟩ := Read_exhausted (Read w sup p).world (Read w sup p).sup q
    (Or.inr ⟨u1, hd⟩) hq
  refine ⟨hn, ?_, hp, ?_, hd, u1, x1, x2⟩
  · rw [r3, if_neg (by omega)]
  · rw [hp, List.getLast?_append_of_ne_nil _ hne]

set_option maxRecDepth 100000 in
/-- C4 at Scenario A in phase BODY with a file source that hands over one
byte per read: `hello` and the tail `\r\n--XYZ--\r\n` are 16 bytes, and a read
of 16 bytes returns 16 with a nil error; the next read returns `(0, io.EOF)`. -/
theorem C4_deferred_exhaustion_witness :
    validPhase scenarioABody ∧ fileNeverFails scenarioABody.file ∧
    scenarioABody.lastSeg ≠ [] ∧
    (ahead scenarioABody).length + scenarioABody.lastSeg.length = 16 ∧
    (Read world0 scenarioABody (List.replicate 16 0)).n = 16 ∧
    (Read world0 scenarioABody (List.replicate 16 0)).err = none ∧
    (Read world0 scenarioABody (List.replicate 16 0)).p = lit "hello\r\n--XYZ--\r\n" ∧
    (Read (Read world0 scenarioABody (List.replicate 16 0)).world
      (Read world0 scenarioABody (List.replicate 16 0)).sup [0]).n = 0 ∧
    (Read (Read world0 scenarioABody (List.replicate 16 0)).world
      (Read world0 scenarioABody (List.replicate 16 0)).sup [0]).err = some GoError.EOF :=
  have h := C4_deferred_exhaustion world0 scenarioABody (List.replicate 16 0) [0]
    (by decide) (by decide) (by decide) (fun _ => by decide) (by decide) (by decide)
  ⟨by decide, by decide, by decide, by decide, h.1, h.2.1, h.2.2.1, h.2.2.2.2.2.2.1,
    h.2.2.2.2.2.2.2⟩

/-- C18: no early return. For every receiver in phase HEAD, BODY or TAIL,
every buffer and every world, a `Read` that returns a nil error has filled
the buffer (`n = len(p)`), and a `Read` that delivers fewer than `len(p)`
bytes returns `io.EOF` or the error of a file read. And the loop over the
file source goes on after partial reads: in phase BODY with a file source
holding `F` that does not fail, however it cuts `F` into partial reads, the
bytes delivered are the first `len(p)` bytes of `F` followed by the tail (all
of them when there are fewer); when `F` has at least `len(p)` bytes the
buffer is filled with the first `len(p)` bytes of `F`, the error is nil and
the phase stays BODY; when `F` has fewer, all of `F` is delivered, the tail
follows in the same call and the phase becomes TAIL. -/
theorem C18_no_early_return (w : World) (sup : streamUpload) (p : List Byte)
    (hs : validPhase sup) :
    ((Read w sup p).err = none → (Read w sup p).n = p.length) ∧
    ((Read w sup p).n < p.length →
      (Read w sup p).err = some GoError.EOF ∨
      (Read w sup p).err = some GoError.ErrInvalid ∨
      ∃ c, (Read w sup p).err = some (GoError.sys c)) ∧
    (∀ f, sup.step = readFileContentStep → sup.file = some f →
      f.script.all ReadEvent.isChunk = true →
      (Read w sup p).p.take (Read w sup p).n = (f.data ++ sup.lastSeg).take p.length ∧
      (Read w sup p).n = min p.length (f.data.length + sup.lastSeg.length) ∧
      (p.length ≤ f.data.length →
        (Read w sup p).n = p.length ∧ (Read w sup p).p = f.data.take p.length ∧
        (Read w sup p).err = none ∧ (Read w sup p).sup.step = readFileContentStep) ∧
      (f.data.length < p.length →
        (Read w sup p).p.take (Read w sup p).n =
          f.data ++ sup.lastSeg.take (p.length - f.data.length) ∧
        (Read w sup p).sup.step = readLastSegStep)) := by
  obtain ⟨b1, b2, b3, b4, b5, b6, b7, b8, b9, b10⟩ := Read_basic w sup p
  refine ⟨b8, fun hlt => ?_, fun f hst hfile hnf => ?_⟩
  · rcases Read_err_cases w sup p with h | h | h | h | h
    · have := b8 h; omega
    · left; exact h
    · right; left; exact h
    · right; right; exact h
    · obtain ⟨n0, n1, n2⟩ := b10 h
      rcases hs with h0 | h1 | h2
      · exact absurd h0 n0
      · exact absurd h1 n1
      · exact absurd h2 n2
  · have hne01 : readFileContentStep ≠ readFirstSegStep := by decide
    obtain ⟨r1, r2, r3, r4, r5⟩ := Read_stream w sup p hs
      (fun h => absurd (hst ▸ h) hne01) (fun _ => by rw [hfile]; exact hnf)
    have hah : ahead sup = f.data := by rw [ahead_body sup hst, hfile]; rfl
    rw [hah] at r1 r2 r3 r4 r5
    refine ⟨r1, ?_, fun hle => ?_, fun hlt => ?_⟩
    · rw [r2, List.length_take, List.length_append]
    · have htk : (f.data ++ sup.lastSeg).take p.length = f.data.take p.length := by
        rw [List.take_append_eq_append_take]
        have : p.length - f.data.length = 0 := by omega
        rw [this, List.take_zero, List.append_nil]
      have hn : (Read w sup p).n = p.length := by
        rw [r2, htk, List.length_take]; omega
      refine ⟨hn, ?_, ?_, r5 hst hle⟩
      · rw [← htk, ← r1, hn, ← b1, List.take_length]
      · rw [r3, if_neg]
        rw [List.length_append]; omega
    · refine ⟨?_, (r4 hlt).1⟩
      rw [r1, List.take_append_eq_append_take, List.take_of_length_le (by omega)]

set_option maxRecDepth 100000 in
/-- C18 at Scenario A in phase BODY with a file source that hands over one
byte per read: a read of 3 bytes takes three reads of the file and returns
`hel` with a nil error, and a read of 9 bytes takes all of `hello` in five
reads of the file and goes on with the first four bytes of the tail. -/
theorem C18_no_early_return_witness :
    validPhase scenarioABody ∧
    (Read world0 scenarioABody [0, 0, 0]).n = 3 ∧
    (Read world0 scenarioABody [0, 0, 0]).p = lit "hel" ∧
    (Read world0 scenarioABody [0, 0, 0]).err = none ∧
    (Read world0 scenarioABody (List.replicate 9 0)).p.take
        (Read world0 scenarioABody (List.replicate 9 0)).n = lit "hello\r\n--" :=
  have h := (C18_no_early_return world0 scenarioABody [0, 0, 0] (by decide)).2.2
    ⟨lit "hello", [ReadEvent.chunk 1, ReadEvent.chunk 1, ReadEvent.chunk 1], none, 0⟩
    (by decide) (by decide) (by decide)
  have h9 := (C18_no_early_return world0 scenarioABody (List.replicate 9 0) (by decide)).2.2
    ⟨lit "hello", [ReadEvent.chunk 1, ReadEvent.chunk 1, ReadEvent.chunk 1], none, 0⟩
    (by decide) (by decide) (by decide)
  ⟨by decide, (h.2.2.1 (by decide)).1, (h.2.2.1 (by decide)).2.1, (h.2.2.1 (by decide)).2.2.1,
    (h9.2.2.2 (by decide)).1⟩

set_option maxRecDepth 100000 in
/-- C16 fails on the code when the mirror file is the file being uploaded:
the body for the file `x.fin` with the mirror name `x`, against the same body
with debug mode off, in the same world. The two agree on the file source, the
head buffer, the tail buffer and the phase. With debug mode off the twelfth
read of 10 bytes delivers `\r\nhello\r\n-` and the thirteenth ends the stream
with `io.EOF`; with the mirror on, the head bytes mirrored into `x.fin` are
read back from it: the twelfth read delivers `\r\n--XYZ\r\nC`, the thirteenth
returns 10 more bytes and a nil error, and the file source after it differs. -/
theorem C16_mirror_into_source :
    sameStream { aliasBody with debugMode := false } aliasBody ∧
    ((run aliasWorld { aliasBody with debugMode := false }
      ((List.replicate 13 (List.replicate 10 0)).map Call.read)).2.2.drop 11 =
      [⟨lit "\r\nhello\r\n-", 10, none⟩, ⟨lit "-XYZ--\r\n", 8, some GoError.EOF⟩]) ∧
    ((run aliasWorld aliasBody
      ((List.replicate 13 (List.replicate 10 0)).map Call.read)).2.2.drop 11 =
      [⟨lit "\r\n--XYZ\r\nC", 10, none⟩, ⟨lit "ontent-Dis", 10, none⟩]) ∧
    (run aliasWorld { aliasBody with debugMode := false }
      ((List.replicate 13 (List.replicate 10 0)).map Call.read)).2.1.file ≠
    (run aliasWorld aliasBody
      ((List.replicate 13 (List.replicate 10 0)).map Call.read)).2.1.file := by
  decide

/-- C16, as the code has it: the mirror does not affect the main stream as
long as it cannot write into the file being uploaded. For two receivers that
agree on the file source, the head buffer, the tail buffer and the phase, and
differ in any way in the mirror fields (debug mode off or on, mirror handle
absent, open or closed), and for any two worlds (mirror opens and writes that
succeed or fail) in each of which the mirror file is another file than the
one being uploaded or debug mode is off, `Read` with the same buffer returns
the same `n`, the same error and the same buffer content, and leaves the same
file source, head buffer, tail buffer and phase; and any two runs of `Read`
calls with the same buffers return the same replies. -/
theorem C16_mirror_no_effect (w1 w2 : World) (s1 s2 : streamUpload) (p : List Byte)
    (ps : List (List Byte)) (h : sameStream s1 s2)
    (ha1 : mirrorApart w1 s1) (ha2 : mirrorApart w2 s2) :
    (Read w1 s1 p).n = (Read w2 s2 p).n ∧
    (Read w1 s1 p).err = (Read w2 s2 p).err ∧
    (Read w1 s1 p).p = (Read w2 s2 p).p ∧
    (Read w1 s1 p).sup.file = (Read w2 s2 p).sup.file ∧
    (Read w1 s1 p).sup.firstSeg = (Read w2 s2 p).sup.firstSeg ∧
    (Read w1 s1 p).sup.lastSeg = (Read w2 s2 p).sup.lastSeg ∧
    (Read w1 s1 p).sup.step = (Read w2 s2 p).sup.step ∧
    (run w1 s1 (ps.map Call.read)).2.2 = (run w2 s2 (ps.map Call.read)).2.2 := by
  obtain ⟨⟨a1, a2, a3, a4⟩, r2, r3, r4⟩ := Read_sameStream w1 w2 s1 s2 p h ha1 ha2
  exact ⟨r3, r4, r2, a1, a2, a3, a4, (run_sameStream ps w1 w2 s1 s2 h ha1 ha2).1⟩

set_option maxRecDepth 100000 in
/-- C16 at Scenario A: debug mode off, in a world where the mirror file would
be the file being uploaded, against debug mode on in a world where the mirror
file is another file and cannot be opened; reads of 10, 200 and 5 bytes
return the same. -/
theorem C16_mirror_no_effect_witness :
    sameStream scenarioA { scenarioA with debugMode := true, debugOutFileName := lit "m" } ∧
    mirrorApart aliasWorld scenarioA ∧
    mirrorApart ⟨lit "old", [false, false, false], [some 0], false⟩
      { scenarioA with debugMode := true, debugOutFileName := lit "m" } ∧
    (run aliasWorld scenarioA
      ([List.replicate 10 0, List.replicate 200 0, List.replicate 5 0].map Call.read)).2.2 =
    (run ⟨lit "old", [false, false, false], [some 0], false⟩
      { scenarioA with debugMode := true, debugOutFileName := lit "m" }
      ([List.replicate 10 0, List.replicate 200 0, List.replicate 5 0].map Call.read)).2.2 :=
  ⟨by decide, by decide, by decide,
   (C16_mirror_no_effect aliasWorld ⟨lit "old", [false, false, false], [some 0], false⟩ scenarioA
      { scenarioA with debugMode := true, debugOutFileName := lit "m" } []
      [List.replicate 10 0, List.replicate 200 0, List.replicate 5 0] (by decide) (by decide)
      (by decide)).2.2.2.2.2.2.2⟩

set_option maxRecDepth 100000 in
/-- C20 fails on the code when the mirror file is the file being uploaded: for
the body built for the file `x.fin` with the mirror name `x`, whose file
source does not fail, twelve reads of 10 bytes deliver 110 bytes of the head
and then `\r\n--XYZ\r\nC`, the end of the head followed by head bytes read
back from the file, where `head ++ F ++ tail` goes on with `hello`; the bytes
delivered are not a prefix of `head ++ F ++ tail`. -/
theorem C20_mirrored_bytes_delivered :
    aliasBody.file = some scenarioAFile ∧ fileNeverFails aliasBody.file ∧
    ((run aliasWorld aliasBody
        ((List.replicate 12 (List.replicate 10 0)).map Call.read)).2.2.map Reply.bytes).flatten =
      aliasBody.firstSeg.take 110 ++ lit "\r\n--XYZ\r\nC" ∧
    (aliasBody.firstSeg ++ scenarioAFile.data ++ aliasBody.lastSeg).take 120 =
      aliasBody.firstSeg.take 110 ++ lit "\r\nhello\r\n-" ∧
    ¬ (((run aliasWorld aliasBody
        ((List.replicate 12 (List.replicate 10 0)).map Call.read)).2.2.map Reply.bytes).flatten <+:
      aliasBody.firstSeg ++ scenarioAFile.data ++ aliasBody.lastSeg) := by
  decide

/-- C20, as the code has it: prefix safety as long as the mirror cannot write
into the file being uploaded. For every constructed body with head `H`, tail
`T` and a file source with content `F` that does not fail, in every world in
which the mirror file is another file than the one being uploaded or debug
mode is off, and every finite sequence of `Read` calls with non-empty buffers,
each call returns `n ≤ len(p)` and the concatenation of the slices `p[:n]`
delivered is a prefix of `H ++ F ++ T`: what is delivered is delivered once
and in order. -/
theorem C20_prefix_safety (w : World) (f : File) (rnd1 rnd2 : List Byte) (N P : GoString)
    (fieldParams : List (GoString × GoString)) (debugInfo : Option UpDebugInfo)
    (ps : List (List Byte)) (hnf : f.script.all ReadEvent.isChunk = true)
    (hap : mirrorApart w (newBody f rnd1 rnd2 N P fieldParams debugInfo))
    (hps : ∀ p ∈ ps, p ≠ []) :
    List.Forall₂ (fun p r => r.n ≤ p.length) ps
      (run w (newBody f rnd1 rnd2 N P fieldParams debugInfo) (ps.map Call.read)).2.2 ∧
    ((run w (newBody f rnd1 rnd2 N P fieldParams debugInfo)
        (ps.map Call.read)).2.2.map Reply.bytes).flatten <+:
      (newBody f rnd1 rnd2 N P fieldParams debugInfo).firstSeg ++ f.data ++
        (newBody f rnd1 rnd2 N P fieldParams debugInfo).lastSeg := by
  obtain ⟨h1, h2, h3⟩ := newBody_fresh f rnd1 rnd2 N P fieldParams debugInfo
  have hpend : pending (newBody f rnd1 rnd2 N P fieldParams debugInfo) =
      (newBody f rnd1 rnd2 N P fieldParams debugInfo).firstSeg ++ f.data ++
        (newBody f rnd1 rnd2 N P fieldParams debugInfo).lastSeg := by
    unfold pending; rw [h2]; rfl
  obtain ⟨r1, r2⟩ := run_data ps hps w _
    (newBody_inv f rnd1 rnd2 N P fieldParams debugInfo hnf) hap
  rw [hpend] at r2
  exact ⟨r1, ⟨_, r2⟩⟩

set_option maxRecDepth 100000 in
/-- C20 at Scenario A with debug mode on and the mirror name `m`, in a world
where the mirror file is another file than the one being uploaded, with reads
of 10, 100, 3 and 50 bytes: the bytes delivered are the whole stream, hence a
prefix of it. -/
theorem C20_prefix_safety_witness :
    mirrorApart world0 (newBody scenarioAFile [] [] (lit "file") (lit "a.txt") []
      (some ⟨lit "XYZ", lit "m"⟩)) ∧
    ((run world0 (newBody scenarioAFile [] [] (lit "file") (lit "a.txt") []
        (some ⟨lit "XYZ", lit "m"⟩))
      ([List.replicate 10 0, List.replicate 100 0, List.replicate 3 0,
        List.replicate 50 0].map Call.read)).2.2.map Reply.bytes).flatten <+:
      (newBody scenarioAFile [] [] (lit "file") (lit "a.txt") []
        (some ⟨lit "XYZ", lit "m"⟩)).firstSeg ++ scenarioAFile.data ++
      (newBody scenarioAFile [] [] (lit "file") (lit "a.txt") []
        (some ⟨lit "XYZ", lit "m"⟩)).lastSeg :=
  ⟨by decide,
   (C20_prefix_safety world0 scenarioAFile [] [] (lit "file") (lit "a.txt") []
    (some ⟨lit "XYZ", lit "m"⟩)
    [List.replicate 10 0, List.replicate 100 0, List.replicate 3 0, List.replicate 50 0]
    (by decide) (by decide) (by decide)).2⟩

end stream_upload
